import Mathlib

/-! go-collections: list, stack and queue.

A shallow embedding of the single-threaded containers of package
`collections` (`list.go`, `stack.go`, `queue.go`, `comparer.go`,
`errors.go`), of their thread-safe variants with the locking each operation
does, and the laws they satisfy.

Conventions of the embedding

* A Go slice `[]T` is a `Slice T`, a finite sequence. Only the receiver's own
  view of its backing sequence is modelled.
* A Go `int` argument is an `Int`; `len(s)` is the length cast to `Int`.
* A Go `error` is an `Option Error`; `nil` is `none`.
* A method with a pointer receiver is a function from the receiver's state to
  the pair of its result and the receiver's state after the call.
* `var zero T` is `default` of `Inhabited T`.
* A slice passed to a method (the destination of `CopyTo`) is written to by
  the method; the method's result carries the slice after the call. The
  destination may lie in the array that also holds the receiver's items:
  `CopyTo` is told how the two lie to each other (its `overlap` argument),
  and the receiver after the call shows what was written into the cells it
  shares with the destination.
* `int` is 64 bits wide. The one sum of the package that can leave that
  range, `arrayIndex+len(l.items)` in `CopyTo` of the list, wraps around
  (`wrapInt`); every other `int` expression stays in range for slices that
  exist, and is computed exactly.
* Go `==` on the element type is the `BEq` instance given to
  `DefaultEqualityComparer` and `NewList`. It need not be reflexive
  (`float64`, `Comparable`). A non-nil function value, and `==`, are taken
  to return: a comparer that panics, and `==` on interface values of an
  uncomparable dynamic type, are outside the embedding.
* `String` takes the `%v` text form of one element as an argument; the slice
  format of `fmt.Sprintf` is `SprintfV`.
* A value of a Go function type may be `nil`; calling it is a run-time panic.
  The comparer field is therefore an `Option`, and an operation that calls
  the comparer yields an `Outcome`.
* An operation of a thread-safe variant is one call made by one thread of
  control: it yields `none` when it does not return (it waits for a mutex
  that is held), and otherwise a `Call` with the returned value, the
  receiver after the call and the trace of what the call did to the mutex
  and to `items`, in program order. `sync.RWMutex` is the record of who
  holds it.
-/

/-- Go slice `[]T`, as the sequence of its elements. -/
abbrev Slice (T : Type) : Type := List T

namespace Collections

/-! ## errors.go -/

/-- The three sentinel errors of `errors.go`. -/
inductive Error where
  | ErrIndexOutOfRange
  | ErrEmptyStack
  | ErrEmptyQueue
  deriving DecidableEq, Repr

/-! ## comparer.go -/

/-- Go `type EqualityComparer[T any] func(T, T) bool`. -/
abbrev EqualityComparer (T : Type) : Type := T → T → Bool

/-- Go `DefaultEqualityComparer`: `return a == b`. The `BEq` instance is Go
`==` on the element type `T`, whatever it is: it need not be reflexive. -/
def DefaultEqualityComparer {T : Type} [BEq T] (a b : T) : Bool :=
  a == b

/-- Go `float64` as `==` sees it (IEEE 754): `NaN`, the two infinities, and
the finite values, each given by the number it stands for, so that `+0` and
`-0` are one value. -/
inductive Float64 where
  | NaN
  | negInf
  | posInf
  | finite (x : Rat)

/-- Go `==` on `float64`: `NaN` is unequal to every value, itself included;
any other two values are equal when they are the same number. -/
def Float64.equal : Float64 → Float64 → Bool
  | Float64.negInf, Float64.negInf => true
  | Float64.posInf, Float64.posInf => true
  | Float64.finite x, Float64.finite y => decide (x = y)
  | _, _ => false

/-- Comparable element types, by how Go `==` works on them. `exact α` is a
type on which `==` holds between two values exactly when they are the same
value: a boolean, integer, string, pointer or channel type. `float64` is
`float64`. `fields a b` is a struct with a field of type `a` and a field of
type `b`, or an array of two elements; longer structs and arrays nest.
Interface types, on which `==` can panic, are not among them. -/
inductive Comparable : Type 1 where
  | exact (α : Type) (dec : DecidableEq α)
  | float64
  | fields (a b : Comparable)

/-- The values of a comparable type. -/
def Comparable.Val : Comparable → Type
  | Comparable.exact α _ => α
  | Comparable.float64 => Float64
  | Comparable.fields a b => a.Val × b.Val

/-- Go `==` on a comparable type: identity of values on an `exact` type,
`Float64.equal` on `float64`, and field by field on a struct or array. -/
def Comparable.equal : (t : Comparable) → t.Val → t.Val → Bool
  | Comparable.exact _ dec, x, y => @decide (x = y) (dec x y)
  | Comparable.float64, x, y => Float64.equal x y
  | Comparable.fields a b, x, y => a.equal x.1 y.1 && b.equal x.2 y.2

/-- Whether a comparable type is `float64` or has a `float64` field or
element at any depth. -/
def Comparable.hasFloat : Comparable → Bool
  | Comparable.exact _ _ => false
  | Comparable.float64 => true
  | Comparable.fields a b => a.hasFloat || b.hasFloat

/-- Whether a value is `NaN` or holds a `NaN` in a field or element at any
depth. -/
def Comparable.hasNaN : (t : Comparable) → t.Val → Bool
  | Comparable.exact _ _, _ => false
  | Comparable.float64, Float64.NaN => true
  | Comparable.float64, _ => false
  | Comparable.fields a b, x => a.hasNaN x.1 || b.hasNaN x.2

example : Comparable.equal
    (Comparable.fields Comparable.float64 (Comparable.exact Int inferInstance))
    ((Float64.NaN, 1) : Float64 × Int) ((Float64.NaN, 1) : Float64 × Int) = false := by decide
example : Comparable.equal
    (Comparable.fields Comparable.float64 (Comparable.exact Int inferInstance))
    ((Float64.posInf, 1) : Float64 × Int) ((Float64.posInf, 1) : Float64 × Int) = true := by
  decide

/-- Result of an operation that may call a function value: either it returns
`v`, or the call of a `nil` function panics. -/
inductive Outcome (α : Type) where
  | ok (v : α)
  | panic
  deriving DecidableEq, Repr

/-- Go builtin `copy(dst, src)`: overwrites the first `min(len(dst), len(src))`
elements of `dst` with those of `src`; the value is `dst` after the call. -/
def copy {T : Type} (dst src : Slice T) : Slice T :=
  src.take dst.length ++ dst.drop src.length

/-- The largest value of Go `int`, which is 64 bits wide. -/
def maxInt : Int := 9223372036854775807

/-- The value that Go `int` arithmetic stores for the exact result `x`: the
result wraps around in 64-bit two's complement. -/
def wrapInt (x : Int) : Int :=
  (x + 9223372036854775808) % 18446744073709551616 - 9223372036854775808

/-- The items as the receiver sees them once the destination of a `copy`
holds `written`. With `overlap = none` the destination lies in another array
and the items are what they were. With `overlap = some shift` the items and
the destination are windows of one array, placed so that cell `j` of the
destination is cell `j + shift` of the items; a cell of the items that is
also a cell of the destination then shows the destination's value. -/
def sharedView {T : Type} (overlap : Option Int) (items written : Slice T) : Slice T :=
  match overlap with
  | none => items
  | some shift =>
    (List.range items.length).zipWith
      (fun (i : Nat) (v : T) =>
        if 0 ≤ (i : Int) - shift then (written[((i : Int) - shift).toNat]?).getD v else v)
      items

/-! ## stack.go -/

/-- Go `type Stack[T any] struct { items []T }`. -/
structure Stack (T : Type) where
  items : Slice T
  deriving DecidableEq, Repr

/-- Go `NewStack`. -/
def NewStack {T : Type} (values : Slice T) : Stack T :=
  { items := values }

/-- Go `Stack.Push`: `s.items = append(s.items, item)`. -/
def Stack.Push {T : Type} (s : Stack T) (item : T) : Stack T :=
  { items := s.items ++ [item] }

/-- Go `Stack.Pop`. -/
def Stack.Pop {T : Type} [Inhabited T] (s : Stack T) : (T × Option Error) × Stack T :=
  if h : s.items.length = 0 then
    ((default, some Error.ErrEmptyStack), s)
  else
    let item := s.items.get ⟨s.items.length - 1, by omega⟩
    ((item, none), { items := s.items.take (s.items.length - 1) })

/-- Go `Stack.Peek`. -/
def Stack.Peek {T : Type} [Inhabited T] (s : Stack T) : (T × Option Error) × Stack T :=
  if h : s.items.length = 0 then
    ((default, some Error.ErrEmptyStack), s)
  else
    ((s.items.get ⟨s.items.length - 1, by omega⟩, none), s)

/-- Go `Stack.IsEmpty`. -/
def Stack.IsEmpty {T : Type} (s : Stack T) : Bool × Stack T :=
  (decide (s.items.length = 0), s)

/-- Go `Stack.Size`. -/
def Stack.Size {T : Type} (s : Stack T) : Int × Stack T :=
  ((s.items.length : Int), s)

/-- Calls `Push` once for each element of `xs`, in order. -/
def Stack.pushAll {T : Type} (s : Stack T) : Slice T → Stack T
  | [] => s
  | x :: xs => (s.Push x).pushAll xs

/-- Calls `Pop` `n` times in a row and collects what each call returned. -/
def Stack.popN {T : Type} [Inhabited T] (s : Stack T) :
    Nat → List (T × Option Error) × Stack T
  | 0 => ([], s)
  | n + 1 =>
    let r := s.Pop
    let rest := r.2.popN n
    (r.1 :: rest.1, rest.2)

/-! ## queue.go -/

/-- Go `type Queue[T any] struct { items []T }`. -/
structure Queue (T : Type) where
  items : Slice T
  deriving DecidableEq, Repr

/-- Go `NewQueue`. -/
def NewQueue {T : Type} (values : Slice T) : Queue T :=
  { items := values }

/-- Go `Queue.Enqueue`: `q.items = append(q.items, item)`. -/
def Queue.Enqueue {T : Type} (q : Queue T) (item : T) : Queue T :=
  { items := q.items ++ [item] }

/-- Go `Queue.Dequeue`. -/
def Queue.Dequeue {T : Type} [Inhabited T] (q : Queue T) : (T × Option Error) × Queue T :=
  if h : q.items.length = 0 then
    ((default, some Error.ErrEmptyQueue), q)
  else
    let item := q.items.get ⟨0, by omega⟩
    ((item, none), { items := q.items.drop 1 })

/-- Go `Queue.Peek`. -/
def Queue.Peek {T : Type} [Inhabited T] (q : Queue T) : (T × Option Error) × Queue T :=
  if h : q.items.length = 0 then
    ((default, some Error.ErrEmptyQueue), q)
  else
    ((q.items.get ⟨0, by omega⟩, none), q)

/-- Go `Queue.IsEmpty`. -/
def Queue.IsEmpty {T : Type} (q : Queue T) : Bool × Queue T :=
  (decide (q.items.length = 0), q)

/-- Go `Queue.Size`. -/
def Queue.Size {T : Type} (q : Queue T) : Int × Queue T :=
  ((q.items.length : Int), q)

/-- Go `Queue.Clear`: `q.items = []T{}`. -/
def Queue.Clear {T : Type} (_q : Queue T) : Queue T :=
  { items := [] }

/-- Go `Queue.CopyTo`: `copy(items[index:], q.items)` after the two bound
checks. The result is the error, the destination after the call and the
queue after the call; `overlap` tells how the destination lies to the
queue's items (`sharedView`). -/
def Queue.CopyTo {T : Type} (q : Queue T) (items : Slice T) (index : Int)
    (overlap : Option Int) : (Option Error × Slice T) × Queue T :=
  if index < 0 ∨ index > (items.length : Int) then
    ((some Error.ErrIndexOutOfRange, items), q)
  else if (items.length : Int) - index < (q.items.length : Int) then
    ((some Error.ErrIndexOutOfRange, items), q)
  else
    ((none, items.take index.toNat ++ copy (items.drop index.toNat) q.items),
      { items := sharedView overlap q.items
          (items.take index.toNat ++ copy (items.drop index.toNat) q.items) })

/-- Calls `Enqueue` once for each element of `xs`, in order. -/
def Queue.enqueueAll {T : Type} (q : Queue T) : Slice T → Queue T
  | [] => q
  | x :: xs => (q.Enqueue x).enqueueAll xs

/-- Calls `Dequeue` `n` times in a row and collects what each call returned. -/
def Queue.dequeueN {T : Type} [Inhabited T] (q : Queue T) :
    Nat → List (T × Option Error) × Queue T
  | 0 => ([], q)
  | n + 1 =>
    let r := q.Dequeue
    let rest := r.2.dequeueN n
    (r.1 :: rest.1, rest.2)

/-! ## list.go -/

/-- Go `type List[T any] struct { items []T; comparer EqualityComparer[T] }`.
The comparer is a function value and may be `nil` (`none`). -/
structure List (T : Type) where
  items : Slice T
  comparer : Option (EqualityComparer T)

/-- Go `NewListWithEqualityComparer`. -/
def NewListWithEqualityComparer {T : Type} (comparer : Option (EqualityComparer T))
    (values : Slice T) : List T :=
  { items := values, comparer := comparer }

/-- Go `NewList`. -/
def NewList {T : Type} [BEq T] (values : Slice T) : List T :=
  { items := values, comparer := some DefaultEqualityComparer }

/-- Go `List.Add`: `l.items = append(l.items, item)`. -/
def List.Add {T : Type} (l : List T) (item : T) : List T :=
  { l with items := l.items ++ [item] }

/-- Go `List.AddRange`: `l.items = append(l.items, items...)`. -/
def List.AddRange {T : Type} (l : List T) (items : Slice T) : List T :=
  { l with items := l.items ++ items }

/-- Go `List.Insert`:
`l.items = append(l.items[:index], append([]T{item}, l.items[index:]...)...)`. -/
def List.Insert {T : Type} (l : List T) (index : Int) (item : T) : Option Error × List T :=
  if index < 0 ∨ index > (l.items.length : Int) then
    (some Error.ErrIndexOutOfRange, l)
  else
    (none, { l with
      items := l.items.take index.toNat ++ ([item] ++ l.items.drop index.toNat) })

/-- Go `List.RemoveAt`: `l.items = append(l.items[:index], l.items[index+1:]...)`. -/
def List.RemoveAt {T : Type} (l : List T) (index : Int) : Option Error × List T :=
  if index < 0 ∨ index ≥ (l.items.length : Int) then
    (some Error.ErrIndexOutOfRange, l)
  else
    (none, { l with
      items := l.items.take index.toNat ++ l.items.drop (index + 1).toNat })

/-- Go `List.Clear`: `l.items = []T{}`. -/
def List.Clear {T : Type} (l : List T) : List T :=
  { l with items := [] }

/-- The loop of `List.IndexOf`, `for i, v := range l.items`, entered with the
elements still to visit and the index `i` of the first of them. -/
def List.indexOfLoop {T : Type} (comparer : Option (EqualityComparer T)) (item : T) :
    Slice T → Int → Outcome Int
  | [], _ => Outcome.ok (-1)
  | v :: rest, i =>
    match comparer with
    | none => Outcome.panic
    | some f => if f v item then Outcome.ok i else List.indexOfLoop comparer item rest (i + 1)

/-- Go `List.IndexOf`. -/
def List.IndexOf {T : Type} (l : List T) (item : T) : Outcome Int × List T :=
  (List.indexOfLoop l.comparer item l.items 0, l)

/-- The loop of `List.LastIndexOf`, `for i := len(l.items) - 1; i >= 0; i--`.
The counter `n` is `i + 1`: at `0` the condition `i >= 0` fails. -/
def List.lastIndexOfLoop {T : Type} (comparer : Option (EqualityComparer T)) (items : Slice T)
    (item : T) : (n : Nat) → n ≤ items.length → Outcome Int
  | 0, _ => Outcome.ok (-1)
  | n + 1, h =>
    match comparer with
    | none => Outcome.panic
    | some f =>
      if f (items.get ⟨n, by omega⟩) item then Outcome.ok (n : Int)
      else List.lastIndexOfLoop comparer items item n (by omega)

/-- Go `List.LastIndexOf`. -/
def List.LastIndexOf {T : Type} (l : List T) (item : T) : Outcome Int × List T :=
  (List.lastIndexOfLoop l.comparer l.items item l.items.length (Nat.le_refl _), l)

/-- Go `List.Contains`: `return l.IndexOf(item) != -1`. -/
def List.Contains {T : Type} (l : List T) (item : T) : Outcome Bool × List T :=
  let r := l.IndexOf item
  match r.1 with
  | Outcome.panic => (Outcome.panic, r.2)
  | Outcome.ok index => (Outcome.ok (decide (index ≠ -1)), r.2)

/-- Go `List.Remove`. -/
def List.Remove {T : Type} (l : List T) (item : T) : Outcome Bool × List T :=
  let r := l.IndexOf item
  match r.1 with
  | Outcome.panic => (Outcome.panic, r.2)
  | Outcome.ok index =>
    if index = -1 then
      (Outcome.ok false, r.2)
    else
      let e := r.2.RemoveAt index
      match e.1 with
      | some _ => (Outcome.ok false, e.2)
      | none => (Outcome.ok true, e.2)

/-- Go `List.Get`. -/
def List.Get {T : Type} [Inhabited T] (l : List T) (index : Int) : (T × Option Error) × List T :=
  if h : index < 0 ∨ index ≥ (l.items.length : Int) then
    ((default, some Error.ErrIndexOutOfRange), l)
  else
    ((l.items.get ⟨index.toNat, by omega⟩, none), l)

/-- Go `List.Set`: `l.items[index] = item`. -/
def List.Set {T : Type} (l : List T) (index : Int) (item : T) : Option Error × List T :=
  if index < 0 ∨ index ≥ (l.items.length : Int) then
    (some Error.ErrIndexOutOfRange, l)
  else
    (none, { l with items := l.items.set index.toNat item })

/-- Go `List.CopyTo`: `copy(array[arrayIndex:], l.items)` after the two bound
checks, the second of which adds two `int`s. The result is the error, the
destination after the call and the list after the call; `overlap` tells how
the destination lies to the list's items (`sharedView`). -/
def List.CopyTo {T : Type} (l : List T) (array : Slice T) (arrayIndex : Int)
    (overlap : Option Int) : (Option Error × Slice T) × List T :=
  if arrayIndex < 0 ∨ arrayIndex ≥ (array.length : Int) then
    ((some Error.ErrIndexOutOfRange, array), l)
  else if wrapInt (arrayIndex + (l.items.length : Int)) > (array.length : Int) then
    ((some Error.ErrIndexOutOfRange, array), l)
  else
    ((none, array.take arrayIndex.toNat ++ copy (array.drop arrayIndex.toNat) l.items),
      { l with
        items := sharedView overlap l.items
          (array.take arrayIndex.toNat ++ copy (array.drop arrayIndex.toNat) l.items) })

example : ((NewList [1, 2, 3]).Insert 1 4).2.items = [1, 4, 2, 3] := by decide
example : ((NewList [1, 2, 3]).CopyTo [0, 0, 0] 0 none).1 = (none, [1, 2, 3]) := by decide
example : ((NewList [1, 2]).CopyTo [7, 7, 7, 7] 1 none).1 = (none, [7, 1, 2, 7]) := by decide
example : ((NewList [1, 2, 3]).CopyTo [0, 0, 0] 4 none).1.1 = some Error.ErrIndexOutOfRange := by
  decide
example : ((NewList [1, 2, 3]).CopyTo [] 0 none).1.1 = some Error.ErrIndexOutOfRange := by decide
example : ((NewList [1, 2, 3]).CopyTo [0, 0] 0 none).1.1 = some Error.ErrIndexOutOfRange := by
  decide
example : ((NewList ([] : Slice Nat)).CopyTo [7] 1 none).1.1 = some Error.ErrIndexOutOfRange := by
  decide
example : ((NewQueue ([] : Slice Nat)).CopyTo [7] 1 none).1 = (none, [7]) := by decide
example : ((NewQueue [1, 2, 3]).CopyTo [0, 0, 0] 0 none).1 = (none, [1, 2, 3]) := by decide
example : ((NewQueue [1, 2, 3]).CopyTo [0] 0 none).1.1 = some Error.ErrIndexOutOfRange := by
  decide
example : ((NewQueue [1, 2, 3]).CopyTo [1, 2, 3, 0] 1 (some 0))
    = ((none, [1, 1, 2, 3]), NewQueue [1, 1, 2]) := by decide
example : ((NewList [2, 3, 4]).CopyTo [1, 2, 3, 4] 0 (some (-1))).2.items = [3, 4, 4] := by
  decide
example : wrapInt (maxInt + 1) = -9223372036854775808 := by decide
example : wrapInt 5 = 5 := by decide
example : ((NewList [1, 2, 3]).RemoveAt 1).2.items = [1, 3] := by decide
example : ((NewList [1, 2, 3]).Set 1 4).2.items = [1, 4, 3] := by decide
example : ((NewList [1, 2, 3, 2]).IndexOf 2).1 = Outcome.ok 1 := by decide
example : ((NewList [1, 2, 3, 2]).LastIndexOf 2).1 = Outcome.ok 3 := by decide
example : ((NewList [1, 2, 3, 2]).Remove 2).2.items = [1, 3, 2] := by decide
example : ((NewList [1, 2, 3, 2]).Remove 7).1 = Outcome.ok false := by decide
example : ((NewListWithEqualityComparer none [1, 2]).IndexOf 2).1 = Outcome.panic := by decide

example : ((NewStack ([] : Slice Nat)).pushAll [1, 2, 3]).popN 3
    = ([(3, none), (2, none), (1, none)], NewStack []) := by decide

/-! ## Text forms -/

/-- Go `error.Error()` of the three sentinels: the texts given to `errors.New`
in `errors.go`. -/
def Error.text : Error → String
  | Error.ErrIndexOutOfRange => "index out of range"
  | Error.ErrEmptyStack => "stack is empty"
  | Error.ErrEmptyQueue => "queue is empty"

/-- Modelled from the spec: the Go standard library call
`fmt.Sprintf("%v", items)` on a slice, which is not part of the repository's
sources. It renders `[e1 e2 e3]`: an opening bracket, the elements' own `%v`
forms in slice order separated by one space, a closing bracket. `fmtV` gives
the `%v` form of one element (the text itself for a string, the decimal
numeral for an integer). -/
def SprintfV {T : Type} (fmtV : T → String) (items : Slice T) : String :=
  "[" ++ " ".intercalate (items.map fmtV) ++ "]"

/-- Go `List.String`: `return fmt.Sprintf("%v", l.items)`. -/
def List.String {T : Type} (fmtV : T → String) (l : List T) : String × List T :=
  (SprintfV fmtV l.items, l)

/-- Go `Stack.String`: `return fmt.Sprintf("%v", s.items)`. -/
def Stack.String {T : Type} (fmtV : T → String) (s : Stack T) : String × Stack T :=
  (SprintfV fmtV s.items, s)

/-- Go `Queue.String`: `return fmt.Sprintf("%v", q.items)`. -/
def Queue.String {T : Type} (fmtV : T → String) (q : Queue T) : String × Queue T :=
  (SprintfV fmtV q.items, q)

/-- Calls `Add` once for each element of `ys`, in order. -/
def List.addAll {T : Type} (l : List T) : Slice T → List T
  | [] => l
  | y :: ys => (l.Add y).addAll ys

example : ((NewStack ["1", "2", "3"]).String id).1 = "[1 2 3]" := by decide
example : ((NewStack ([] : Slice String)).String id).1 = "[]" := by decide
example : ((NewList [1, 2, 3]).String (fun n : Int => toString n)).1 = "[1 2 3]" := by decide

/-- The spec's words for the body of a rendered container: the text forms
separated by exactly one space, nothing before the first and nothing after
the last. -/
def spacedForms : Slice String → String
  | [] => ""
  | [e] => e
  | e :: f :: rest => e ++ " " ++ spacedForms (f :: rest)

/-! ## The thread-safe variants: data and constructors -/

/-- Go `sync.RWMutex`, by who holds it: `writer` when it is locked for
writing, `readers` the number of read locks held. The zero value is the
unlocked mutex. -/
structure RWMutex where
  writer : Bool
  readers : Nat
  deriving DecidableEq, Repr

/-- The zero value of `sync.RWMutex`: nobody holds it. -/
def RWMutex.zero : RWMutex :=
  { writer := false, readers := 0 }

/-- Go `type ConcurrentList[T any] struct { items []T; comparer
EqualityComparer[T]; mutex sync.RWMutex }`. -/
structure ConcurrentList (T : Type) where
  items : Slice T
  comparer : Option (EqualityComparer T)
  mutex : RWMutex

/-- Go `NewConcurrentListWithComparer`. -/
def NewConcurrentListWithComparer {T : Type} (comparer : Option (EqualityComparer T))
    (values : Slice T) : ConcurrentList T :=
  { items := values, comparer := comparer, mutex := RWMutex.zero }

/-- Go `NewConcurrentList`. -/
def NewConcurrentList {T : Type} [BEq T] (values : Slice T) : ConcurrentList T :=
  { items := values, comparer := some DefaultEqualityComparer, mutex := RWMutex.zero }

/-- Go `type ConcurrentStack[T any] struct { items []T; lock sync.RWMutex }`. -/
structure ConcurrentStack (T : Type) where
  items : Slice T
  lock : RWMutex
  deriving DecidableEq, Repr

/-- Go `NewConcurrentStack`. -/
def NewConcurrentStack {T : Type} (values : Slice T) : ConcurrentStack T :=
  { items := values, lock := RWMutex.zero }

/-- Go `type ConcurrentQueue[T any] struct { items []T; mutex sync.RWMutex }`. -/
structure ConcurrentQueue (T : Type) where
  items : Slice T
  mutex : RWMutex
  deriving DecidableEq, Repr

/-- Go `NewConcurrentQueue`. -/
def NewConcurrentQueue {T : Type} (values : Slice T) : ConcurrentQueue T :=
  { items := values, mutex := RWMutex.zero }

/-! ## The thread-safe variants: locking and operations -/

/-- One thing a call does to the mutex or to the backing slice `items`.
`lock`, `unlock`, `rlock` and `runlock` are the four mutex calls. `read` and
`write` stand for one statement or condition of the source that mentions
`items`: `write` when it assigns to `items` or to one of its elements, `read`
otherwise. A loop over `items` counts once, and an operand that `||` skips
is not evaluated and leaves no event. -/
inductive Event where
  | lock
  | unlock
  | rlock
  | runlock
  | read
  | write
  deriving DecidableEq, Repr

/-- A call that returned: the value it returned, the state it left (the
receiver, or the items for a function body) and what it did, in program
order. -/
structure Call (σ α : Type) where
  value : α
  state : σ
  trace : Slice Event

/-- Modelled from the spec: Go `(*sync.RWMutex).Lock` of the standard library,
the exclusive acquisition. It succeeds when nobody holds the mutex; `none`
is a call that does not return, because the mutex is held. -/
def RWMutex.Lock (m : RWMutex) : Option RWMutex :=
  if m.writer = false ∧ m.readers = 0 then some { writer := true, readers := 0 } else none

/-- Modelled from the spec: Go `(*sync.RWMutex).Unlock`, the release of the
exclusive lock; `none` is the fatal error of unlocking a mutex that is not
locked for writing. -/
def RWMutex.Unlock (m : RWMutex) : Option RWMutex :=
  if m.writer = true then some { m with writer := false } else none

/-- Modelled from the spec: Go `(*sync.RWMutex).RLock`, the shared
acquisition. It succeeds when no writer holds the mutex; `none` is a call
that does not return. -/
def RWMutex.RLock (m : RWMutex) : Option RWMutex :=
  if m.writer = false then some { m with readers := m.readers + 1 } else none

/-- Modelled from the spec: Go `(*sync.RWMutex).RUnlock`, the release of one
shared lock; `none` is the fatal error of releasing a lock nobody holds. -/
def RWMutex.RUnlock (m : RWMutex) : Option RWMutex :=
  if m.readers = 0 then none else some { m with readers := m.readers - 1 }

/-- The statements `m.Lock(); defer m.Unlock()` followed by a function body:
the lock is taken, the body runs, and the deferred `Unlock` runs when the
function leaves, on every path out of it, a panic included. The body works
on the items and does not touch the mutex. -/
def RWMutex.locked {σ α : Type} (m : RWMutex) (body : Call σ α) :
    Option (Call (σ × RWMutex) α) :=
  match m.Lock with
  | none => none
  | some held =>
    match held.Unlock with
    | none => none
    | some released =>
      some { value := body.value, state := (body.state, released),
             trace := [Event.lock] ++ body.trace ++ [Event.unlock] }

/-- The statements `m.RLock(); defer m.RUnlock()` followed by a function
body. -/
def RWMutex.rlocked {σ α : Type} (m : RWMutex) (body : Call σ α) :
    Option (Call (σ × RWMutex) α) :=
  match m.RLock with
  | none => none
  | some held =>
    match held.RUnlock with
    | none => none
    | some released =>
      some { value := body.value, state := (body.state, released),
             trace := [Event.rlock] ++ body.trace ++ [Event.runlock] }

/-- Stores the items and the mutex that a locked body left into the fields
of the list `l`; the comparer field is not assigned by any operation. -/
def ConcurrentList.after {T α : Type} (l : ConcurrentList T)
    (r : Option (Call (Slice T × RWMutex) α)) : Option (Call (ConcurrentList T) α) :=
  r.map fun c =>
    { value := c.value, state := { l with items := c.state.1, mutex := c.state.2 },
      trace := c.trace }

/-- Go `ConcurrentList.Add`. -/
def ConcurrentList.Add {T : Type} (l : ConcurrentList T) (item : T) :
    Option (Call (ConcurrentList T) Unit) :=
  l.after (l.mutex.locked
    { value := (), state := l.items ++ [item], trace := [Event.write] })

/-- Go `ConcurrentList.AddRange`. -/
def ConcurrentList.AddRange {T : Type} (l : ConcurrentList T) (items : Slice T) :
    Option (Call (ConcurrentList T) Unit) :=
  l.after (l.mutex.locked
    { value := (), state := l.items ++ items, trace := [Event.write] })

/-- Go `ConcurrentList.Insert`. The bound check stands before
`l.mutex.Lock()`: with `index < 0` the function returns at once, otherwise
`len(l.items)` is read, and only an index in range goes on to take the
lock. -/
def ConcurrentList.Insert {T : Type} (l : ConcurrentList T) (index : Int) (item : T) :
    Option (Call (ConcurrentList T) (Option Error)) :=
  if index < 0 then
    some { value := some Error.ErrIndexOutOfRange, state := l, trace := [] }
  else if index > (l.items.length : Int) then
    some { value := some Error.ErrIndexOutOfRange, state := l, trace := [Event.read] }
  else
    (l.after (l.mutex.locked
      { value := (none : Option Error),
        state := l.items.take index.toNat ++ ([item] ++ l.items.drop index.toNat),
        trace := [Event.write] })).map
      fun c => { c with trace := [Event.read] ++ c.trace }

/-- Go `ConcurrentList.RemoveAt`, with its bound check before
`l.mutex.Lock()`. -/
def ConcurrentList.RemoveAt {T : Type} (l : ConcurrentList T) (index : Int) :
    Option (Call (ConcurrentList T) (Option Error)) :=
  if index < 0 then
    some { value := some Error.ErrIndexOutOfRange, state := l, trace := [] }
  else if index ≥ (l.items.length : Int) then
    some { value := some Error.ErrIndexOutOfRange, state := l, trace := [Event.read] }
  else
    (l.after (l.mutex.locked
      { value := (none : Option Error),
        state := l.items.take index.toNat ++ l.items.drop (index + 1).toNat,
        trace := [Event.write] })).map
      fun c => { c with trace := [Event.read] ++ c.trace }

/-- Go `ConcurrentList.Clear`. -/
def ConcurrentList.Clear {T : Type} (l : ConcurrentList T) :
    Option (Call (ConcurrentList T) Unit) :=
  l.after (l.mutex.locked { value := (), state := ([] : Slice T), trace := [Event.write] })

/-- Go `ConcurrentList.IndexOf`. Its loop has the text of the loop of
`List.IndexOf`; a call of a nil comparer panics inside the loop and the
deferred `RUnlock` still runs. -/
def ConcurrentList.IndexOf {T : Type} (l : ConcurrentList T) (item : T) :
    Option (Call (ConcurrentList T) (Outcome Int)) :=
  l.after (l.mutex.rlocked
    { value := List.indexOfLoop l.comparer item l.items 0, state := l.items,
      trace := [Event.read] })

/-- Go `ConcurrentList.LastIndexOf`. Its loop has the text of the loop of
`List.LastIndexOf`. -/
def ConcurrentList.LastIndexOf {T : Type} (l : ConcurrentList T) (item : T) :
    Option (Call (ConcurrentList T) (Outcome Int)) :=
  l.after (l.mutex.rlocked
    { value := List.lastIndexOfLoop l.comparer l.items item l.items.length (Nat.le_refl _),
      state := l.items, trace := [Event.read] })

/-- Go `ConcurrentList.Contains`: `return l.IndexOf(item) != -1`. It takes no
lock of its own. -/
def ConcurrentList.Contains {T : Type} (l : ConcurrentList T) (item : T) :
    Option (Call (ConcurrentList T) (Outcome Bool)) :=
  match l.IndexOf item with
  | none => none
  | some c =>
    match c.value with
    | Outcome.panic => some { value := Outcome.panic, state := c.state, trace := c.trace }
    | Outcome.ok index =>
      some { value := Outcome.ok (decide (index ≠ -1)), state := c.state, trace := c.trace }

/-- Go `ConcurrentList.Remove`: a call of `IndexOf`, then a call of
`RemoveAt`, each with its own locking. -/
def ConcurrentList.Remove {T : Type} (l : ConcurrentList T) (item : T) :
    Option (Call (ConcurrentList T) (Outcome Bool)) :=
  match l.IndexOf item with
  | none => none
  | some c =>
    match c.value with
    | Outcome.panic => some { value := Outcome.panic, state := c.state, trace := c.trace }
    | Outcome.ok index =>
      if index = -1 then
        some { value := Outcome.ok false, state := c.state, trace := c.trace }
      else
        match c.state.RemoveAt index with
        | none => none
        | some e =>
          match e.value with
          | some _ =>
            some { value := Outcome.ok false, state := e.state, trace := c.trace ++ e.trace }
          | none =>
            some { value := Outcome.ok true, state := e.state, trace := c.trace ++ e.trace }

/-- Go `ConcurrentList.CopyTo`: the lock is taken before the bound checks.
The `copy` is a `read` of the items; with a destination in the list's own
array it also stores into cells of the items (`sharedView`). -/
def ConcurrentList.CopyTo {T : Type} (l : ConcurrentList T) (array : Slice T)
    (arrayIndex : Int) (overlap : Option Int) :
    Option (Call (ConcurrentList T) (Option Error × Slice T)) :=
  l.after (l.mutex.rlocked
    (if arrayIndex < 0 ∨ arrayIndex ≥ (array.length : Int) then
      { value := (some Error.ErrIndexOutOfRange, array), state := l.items, trace := [] }
    else if wrapInt (arrayIndex + (l.items.length : Int)) > (array.length : Int) then
      { value := (some Error.ErrIndexOutOfRange, array), state := l.items,
        trace := [Event.read] }
    else
      { value := (none, array.take arrayIndex.toNat ++ copy (array.drop arrayIndex.toNat) l.items),
        state := sharedView overlap l.items
          (array.take arrayIndex.toNat ++ copy (array.drop arrayIndex.toNat) l.items),
        trace := [Event.read, Event.read] }))

/-- Go `ConcurrentList.Get`, with its bound check before `l.mutex.RLock()`. -/
def ConcurrentList.Get {T : Type} [Inhabited T] (l : ConcurrentList T) (index : Int) :
    Option (Call (ConcurrentList T) (T × Option Error)) :=
  if h0 : index < 0 then
    some { value := (default, some Error.ErrIndexOutOfRange), state := l, trace := [] }
  else if h : index ≥ (l.items.length : Int) then
    some { value := (default, some Error.ErrIndexOutOfRange), state := l, trace := [Event.read] }
  else
    (l.after (l.mutex.rlocked
      { value := (l.items.get ⟨index.toNat, by omega⟩, (none : Option Error)),
        state := l.items, trace := [Event.read] })).map
      fun c => { c with trace := [Event.read] ++ c.trace }

/-- Go `ConcurrentList.Set`, with its bound check before `l.mutex.Lock()`. -/
def ConcurrentList.Set {T : Type} (l : ConcurrentList T) (index : Int) (item : T) :
    Option (Call (ConcurrentList T) (Option Error)) :=
  if index < 0 then
    some { value := some Error.ErrIndexOutOfRange, state := l, trace := [] }
  else if index ≥ (l.items.length : Int) then
    some { value := some Error.ErrIndexOutOfRange, state := l, trace := [Event.read] }
  else
    (l.after (l.mutex.locked
      { value := (none : Option Error), state := l.items.set index.toNat item,
        trace := [Event.write] })).map
      fun c => { c with trace := [Event.read] ++ c.trace }

/-- Go `ConcurrentList.String`. -/
def ConcurrentList.String {T : Type} (fmtV : T → String) (l : ConcurrentList T) :
    Option (Call (ConcurrentList T) String) :=
  l.after (l.mutex.rlocked
    { value := SprintfV fmtV l.items, state := l.items, trace := [Event.read] })

/-- Stores the items and the mutex that a locked body left into the fields of
a stack. -/
def ConcurrentStack.after {T α : Type} (r : Option (Call (Slice T × RWMutex) α)) :
    Option (Call (ConcurrentStack T) α) :=
  r.map fun c =>
    { value := c.value, state := { items := c.state.1, lock := c.state.2 }, trace := c.trace }

/-- Go `ConcurrentStack.Push`. -/
def ConcurrentStack.Push {T : Type} (s : ConcurrentStack T) (item : T) :
    Option (Call (ConcurrentStack T) Unit) :=
  ConcurrentStack.after (s.lock.locked
    { value := (), state := s.items ++ [item], trace := [Event.write] })

/-- Go `ConcurrentStack.Pop`. -/
def ConcurrentStack.Pop {T : Type} [Inhabited T] (s : ConcurrentStack T) :
    Option (Call (ConcurrentStack T) (T × Option Error)) :=
  ConcurrentStack.after (s.lock.locked
    (if h : s.items.length = 0 then
      { value := (default, some Error.ErrEmptyStack), state := s.items, trace := [Event.read] }
    else
      { value := (s.items.get ⟨s.items.length - 1, by omega⟩, none),
        state := s.items.take (s.items.length - 1),
        trace := [Event.read, Event.read, Event.write] }))

/-- Go `ConcurrentStack.Peek`. -/
def ConcurrentStack.Peek {T : Type} [Inhabited T] (s : ConcurrentStack T) :
    Option (Call (ConcurrentStack T) (T × Option Error)) :=
  ConcurrentStack.after (s.lock.rlocked
    (if h : s.items.length = 0 then
      { value := (default, some Error.ErrEmptyStack), state := s.items, trace := [Event.read] }
    else
      { value := (s.items.get ⟨s.items.length - 1, by omega⟩, none), state := s.items,
        trace := [Event.read, Event.read] }))

/-- Go `ConcurrentStack.IsEmpty`. -/
def ConcurrentStack.IsEmpty {T : Type} (s : ConcurrentStack T) :
    Option (Call (ConcurrentStack T) Bool) :=
  ConcurrentStack.after (s.lock.rlocked
    { value := decide (s.items.length = 0), state := s.items, trace := [Event.read] })

/-- Go `ConcurrentStack.Size`. -/
def ConcurrentStack.Size {T : Type} (s : ConcurrentStack T) :
    Option (Call (ConcurrentStack T) Int) :=
  ConcurrentStack.after (s.lock.rlocked
    { value := (s.items.length : Int), state := s.items, trace := [Event.read] })

/-- Go `ConcurrentStack.String`. -/
def ConcurrentStack.String {T : Type} (fmtV : T → String) (s : ConcurrentStack T) :
    Option (Call (ConcurrentStack T) String) :=
  ConcurrentStack.after (s.lock.rlocked
    { value := SprintfV fmtV s.items, state := s.items, trace := [Event.read] })

/-- Stores the items and the mutex that a locked body left into the fields of
a queue. -/
def ConcurrentQueue.after {T α : Type} (r : Option (Call (Slice T × RWMutex) α)) :
    Option (Call (ConcurrentQueue T) α) :=
  r.map fun c =>
    { value := c.value, state := { items := c.state.1, mutex := c.state.2 }, trace := c.trace }

/-- Go `ConcurrentQueue.Enqueue`. -/
def ConcurrentQueue.Enqueue {T : Type} (q : ConcurrentQueue T) (item : T) :
    Option (Call (ConcurrentQueue T) Unit) :=
  ConcurrentQueue.after (q.mutex.locked
    { value := (), state := q.items ++ [item], trace := [Event.write] })

/-- Go `ConcurrentQueue.Dequeue`. -/
def ConcurrentQueue.Dequeue {T : Type} [Inhabited T] (q : ConcurrentQueue T) :
    Option (Call (ConcurrentQueue T) (T × Option Error)) :=
  ConcurrentQueue.after (q.mutex.locked
    (if h : q.items.length = 0 then
      { value := (default, some Error.ErrEmptyQueue), state := q.items, trace := [Event.read] }
    else
      { value := (q.items.get ⟨0, by omega⟩, none), state := q.items.drop 1,
        trace := [Event.read, Event.read, Event.write] }))

/-- Go `ConcurrentQueue.Peek`. -/
def ConcurrentQueue.Peek {T : Type} [Inhabited T] (q : ConcurrentQueue T) :
    Option (Call (ConcurrentQueue T) (T × Option Error)) :=
  ConcurrentQueue.after (q.mutex.rlocked
    (if h : q.items.length = 0 then
      { value := (default, some Error.ErrEmptyQueue), state := q.items, trace := [Event.read] }
    else
      { value := (q.items.get ⟨0, by omega⟩, none), state := q.items,
        trace := [Event.read, Event.read] }))

/-- Go `ConcurrentQueue.IsEmpty`. -/
def ConcurrentQueue.IsEmpty {T : Type} (q : ConcurrentQueue T) :
    Option (Call (ConcurrentQueue T) Bool) :=
  ConcurrentQueue.after (q.mutex.rlocked
    { value := decide (q.items.length = 0), state := q.items, trace := [Event.read] })

/-- Go `ConcurrentQueue.Size`. -/
def ConcurrentQueue.Size {T : Type} (q : ConcurrentQueue T) :
    Option (Call (ConcurrentQueue T) Int) :=
  ConcurrentQueue.after (q.mutex.rlocked
    { value := (q.items.length : Int), state := q.items, trace := [Event.read] })

/-- Go `ConcurrentQueue.String`. -/
def ConcurrentQueue.String {T : Type} (fmtV : T → String) (q : ConcurrentQueue T) :
    Option (Call (ConcurrentQueue T) String) :=
  ConcurrentQueue.after (q.mutex.rlocked
    { value := SprintfV fmtV q.items, state := q.items, trace := [Event.read] })

/-- Go `ConcurrentQueue.Clear`. -/
def ConcurrentQueue.Clear {T : Type} (q : ConcurrentQueue T) :
    Option (Call (ConcurrentQueue T) Unit) :=
  ConcurrentQueue.after (q.mutex.locked
    { value := (), state := ([] : Slice T), trace := [Event.write] })

/-- Go `ConcurrentQueue.CopyTo`: the lock is taken before the bound checks.
The `copy` is a `read` of the items; with a destination in the queue's own
array it also stores into cells of the items (`sharedView`). -/
def ConcurrentQueue.CopyTo {T : Type} (q : ConcurrentQueue T) (items : Slice T) (index : Int)
    (overlap : Option Int) : Option (Call (ConcurrentQueue T) (Option Error × Slice T)) :=
  ConcurrentQueue.after (q.mutex.rlocked
    (if index < 0 ∨ index > (items.length : Int) then
      { value := (some Error.ErrIndexOutOfRange, items), state := q.items, trace := [] }
    else if (items.length : Int) - index < (q.items.length : Int) then
      { value := (some Error.ErrIndexOutOfRange, items), state := q.items,
        trace := [Event.read] }
    else
      { value := (none, items.take index.toNat ++ copy (items.drop index.toNat) q.items),
        state := sharedView overlap q.items
          (items.take index.toNat ++ copy (items.drop index.toNat) q.items),
        trace := [Event.read, Event.read] }))

/-- The list that a thread-safe list holds: its items and its comparer,
without the mutex. -/
def ConcurrentList.toList {T : Type} (l : ConcurrentList T) : List T :=
  { items := l.items, comparer := l.comparer }

/-- The stack that a thread-safe stack holds: its items without the mutex. -/
def ConcurrentStack.toStack {T : Type} (s : ConcurrentStack T) : Stack T :=
  { items := s.items }

/-- The queue that a thread-safe queue holds: its items without the mutex. -/
def ConcurrentQueue.toQueue {T : Type} (q : ConcurrentQueue T) : Queue T :=
  { items := q.items }

/-- What a caller sees of a call: the returned value and the container that
the receiver holds afterwards. -/
def Call.seen {σ τ α : Type} (view : σ → τ) (c : Call σ α) : α × τ :=
  (c.value, view c.state)

/-- Which lock the running call holds while a trace is scanned. -/
inductive Held where
  | nothing
  | shared
  | exclusive
  deriving DecidableEq, Repr

/-- The spec's lock discipline on a trace, scanned from a point where the
call holds `held`: a `read` needs the shared or the exclusive lock, a `write`
needs the exclusive lock. -/
def guardedFrom : Held → Slice Event → Bool
  | _, [] => true
  | _, Event.lock :: rest => guardedFrom Held.exclusive rest
  | _, Event.unlock :: rest => guardedFrom Held.nothing rest
  | _, Event.rlock :: rest => guardedFrom Held.shared rest
  | _, Event.runlock :: rest => guardedFrom Held.nothing rest
  | held, Event.read :: rest => decide (held ≠ Held.nothing) && guardedFrom held rest
  | held, Event.write :: rest => decide (held = Held.exclusive) && guardedFrom held rest

/-- The spec's lock discipline on the trace of a whole call, which starts
with no lock held. -/
def guarded (trace : Slice Event) : Bool :=
  guardedFrom Held.nothing trace

example : ((NewConcurrentList [1, 2, 3]).Insert 1 4).map (fun c => (c.value, c.state.items))
    = some (none, [1, 4, 2, 3]) := by decide
example : ((NewConcurrentList [1, 2, 3]).Insert 1 4).map Call.trace
    = some [Event.read, Event.lock, Event.write, Event.unlock] := by decide
example : ((NewConcurrentStack [1, 2, 3]).Pop).map Call.trace
    = some [Event.lock, Event.read, Event.read, Event.write, Event.unlock] := by decide
example : ((NewConcurrentStack [1, 2, 3]).Pop).map (fun c => (c.value, c.state))
    = some ((3, none), NewConcurrentStack [1, 2]) := by decide
example : ((NewConcurrentList [1, 2, 3]).Remove 2).map (fun c => (c.value, c.state.items))
    = some (Outcome.ok true, [1, 3]) := by decide

/-! ## The loop of `ExampleStack` -/

/-- The loop `for !stack.IsEmpty() { item, _ := stack.Pop(); ... }` of
`ExampleStack`, collecting what each `Pop` returned. `fuel` bounds the number
of times the loop condition is evaluated; `none` means the bound was reached
before the condition became false. -/
def Stack.popWhileNotEmpty {T : Type} [Inhabited T] :
    Nat → Stack T → Option (Slice (T × Option Error) × Stack T)
  | 0, _ => none
  | fuel + 1, s =>
    if (s.IsEmpty).1 then
      some ([], s)
    else
      let r := s.Pop
      match Stack.popWhileNotEmpty fuel r.2 with
      | none => none
      | some rest => some (r.1 :: rest.1, rest.2)

example : Stack.popWhileNotEmpty 7 ((NewStack [1, 2, 3]).pushAll [4, 5, 6])
    = some ([(6, none), (5, none), (4, none), (3, none), (2, none), (1, none)],
        NewStack []) := by decide

/-! ## Specification vocabulary for the searches -/

/-- Position `i` is the first one of `xs` whose element `e` has
`f e x = true`: `i` is a valid index, its element matches, and no element at
a smaller index matches. -/
def FirstMatch {T : Type} (f : EqualityComparer T) (xs : Slice T) (x : T) (i : Nat) : Prop :=
  (∃ e, xs[i]? = some e ∧ f e x = true)
  ∧ ∀ (j : Nat) (e : T), j < i → xs[j]? = some e → f e x = false

/-- Position `i` is the last one of `xs` whose element `e` has
`f e x = true`: `i` is a valid index, its element matches, and no element at
a larger index matches. -/
def LastMatch {T : Type} (f : EqualityComparer T) (xs : Slice T) (x : T) (i : Nat) : Prop :=
  (∃ e, xs[i]? = some e ∧ f e x = true)
  ∧ ∀ (j : Nat) (e : T), i < j → xs[j]? = some e → f e x = false

/-! ## Specification vocabulary for a destination in the container's array -/

/-- The destination `array` and the `items` hold one value in every cell
they share, as they do when a call starts. -/
def sharedCellsAgree {T : Type} (overlap : Option Int) (items array : Slice T) : Prop :=
  ∀ shift : Int, overlap = some shift → ∀ (j : Nat) (a b : T), 0 ≤ (j : Int) + shift →
    array[j]? = some a → items[((j : Int) + shift).toNat]? = some b → a = b

/-- None of the `k` cells of the items lies in `array[index .. index+k)`,
the part of the destination that `CopyTo` writes. -/
def copiedRangeMissesItems (overlap : Option Int) (index : Int) (k : Nat) : Prop :=
  ∀ shift : Int, overlap = some shift → ∀ j : Nat, index ≤ (j : Int) →
    (j : Int) < index + (k : Int) → (j : Int) + shift < 0 ∨ (k : Int) ≤ (j : Int) + shift

/-! ## Stack and queue laws -/

theorem Stack.pushAll_items {T : Type} (xs : Slice T) (s : Stack T) :
    (s.pushAll xs).items = s.items ++ xs := by
  induction xs generalizing s with
  | nil => simp [Stack.pushAll]
  | cons x xs ih => simp [Stack.pushAll, ih, Stack.Push]

theorem Stack.Pop_snoc {T : Type} [Inhabited T] (ys : Slice T) (x : T) :
    Stack.Pop { items := ys ++ [x] } = ((x, none), { items := ys }) := by
  simp [Stack.Pop]

theorem Stack.popN_append {T : Type} [Inhabited T] (ys xs : Slice T) :
    Stack.popN { items := ys ++ xs } xs.length
      = (xs.reverse.map (fun x => (x, none)), { items := ys }) := by
  induction xs using List.reverseRecOn with
  | nil => simp [Stack.popN]
  | append_singleton xs x ih =>
    have h : ys ++ (xs ++ [x]) = (ys ++ xs) ++ [x] := by simp
    rw [h, List.length_append, List.length_singleton, Stack.popN, Stack.Pop_snoc]
    simp [ih]

theorem Queue.enqueueAll_items {T : Type} (xs : Slice T) (q : Queue T) :
    (q.enqueueAll xs).items = q.items ++ xs := by
  induction xs generalizing q with
  | nil => simp [Queue.enqueueAll]
  | cons x xs ih => simp [Queue.enqueueAll, ih, Queue.Enqueue]

theorem Queue.dequeueN_all {T : Type} [Inhabited T] (zs : Slice T) :
    Queue.dequeueN { items := zs } zs.length
      = (zs.map (fun x => (x, none)), { items := [] }) := by
  induction zs with
  | nil => simp [Queue.dequeueN]
  | cons z zs ih => simp [Queue.dequeueN, Queue.Dequeue, ih]

/-- C1. Stack LIFO law: pushing the elements of `xs` in order onto any stack
`s` and then calling `Pop` `len(xs)` times succeeds every time (error `nil`),
returns the elements of `xs` in reverse order and leaves the stack as it was
before the pushes; in particular `Pop` right after `Push(x)` returns `x`. -/
theorem Stack.lifo_law {T : Type} [Inhabited T] (s : Stack T) (xs : Slice T) :
    (s.pushAll xs).popN xs.length = (xs.reverse.map (fun x => (x, none)), s)
    ∧ ∀ x : T, (s.Push x).Pop = ((x, none), s) := by
  constructor
  · have h : s.pushAll xs = { items := s.items ++ xs } := by
      cases h' : s.pushAll xs with
      | mk it =>
        have := Stack.pushAll_items xs s
        rw [h'] at this
        simp at this
        simp [this]
    rw [h, Stack.popN_append]
  · intro x
    simp [Stack.Push, Stack.Pop_snoc]

/-- C2. Queue FIFO law: for a queue `q` holding `ys`, enqueuing the elements
of `xs` in order and then calling `Dequeue` `len(ys) + len(xs)` times succeeds
every time (error `nil`) and returns `ys` followed by `xs` in that order,
leaving the queue empty; the next `Dequeue` fails with `ErrEmptyQueue`. -/
theorem Queue.fifo_law {T : Type} [Inhabited T] (q : Queue T) (xs : Slice T) :
    (q.enqueueAll xs).dequeueN (q.items.length + xs.length)
      = ((q.items ++ xs).map (fun x => (x, none)), { items := [] })
    ∧ (((q.enqueueAll xs).dequeueN (q.items.length + xs.length)).2.Dequeue).1
      = (default, some Error.ErrEmptyQueue) := by
  have h : q.enqueueAll xs = { items := q.items ++ xs } := by
    cases h' : q.enqueueAll xs with
    | mk it =>
      have := Queue.enqueueAll_items xs q
      rw [h'] at this
      simp at this
      simp [this]
  have hl : q.items.length + xs.length = (q.items ++ xs).length := by simp
  have hd : (q.enqueueAll xs).dequeueN (q.items.length + xs.length)
      = ((q.items ++ xs).map (fun x => (x, none)), { items := [] }) := by
    rw [h, hl, Queue.dequeueN_all]
  refine ⟨hd, ?_⟩
  rw [hd]
  simp [Queue.Dequeue]

/-! ## List: positional access -/

theorem List.insert_positions {T : Type} (xs : Slice T) (n : Nat) (hn : n ≤ xs.length) (v : T) :
    (xs.take n ++ ([v] ++ xs.drop n)).length = xs.length + 1
    ∧ (∀ j : Nat, j < n → (xs.take n ++ ([v] ++ xs.drop n))[j]? = xs[j]?)
    ∧ (xs.take n ++ ([v] ++ xs.drop n))[n]? = some v
    ∧ (∀ j : Nat, n ≤ j → (xs.take n ++ ([v] ++ xs.drop n))[j + 1]? = xs[j]?) := by
  have hl : (xs.take n).length = n := by simp [hn]
  refine ⟨?_, ?_, ?_, ?_⟩
  · simp; omega
  · intro j hj
    rw [List.getElem?_append_left (by omega), List.getElem?_take_of_lt hj]
  · rw [List.getElem?_append_right (by omega)]
    simp [hl]
  · intro j hj
    rw [List.getElem?_append_right (by omega), hl]
    have : j + 1 - n = (j - n) + 1 := by omega
    rw [this]
    simp
    congr 1
    omega

theorem List.removeAt_positions {T : Type} (xs : Slice T) (n : Nat) (hn : n < xs.length) :
    (xs.take n ++ xs.drop (n + 1)).length + 1 = xs.length
    ∧ (∀ j : Nat, j < n → (xs.take n ++ xs.drop (n + 1))[j]? = xs[j]?)
    ∧ (∀ j : Nat, n ≤ j → (xs.take n ++ xs.drop (n + 1))[j]? = xs[j + 1]?) := by
  have hl : (xs.take n).length = n := by simp; omega
  refine ⟨?_, ?_, ?_⟩
  · simp; omega
  · intro j hj
    rw [List.getElem?_append_left (by omega), List.getElem?_take_of_lt hj]
  · intro j hj
    rw [List.getElem?_append_right (by omega), hl]
    simp
    congr 1
    omega

theorem List.Insert_ok {T : Type} (l : List T) (i : Int) (v : T)
    (h0 : 0 ≤ i) (h1 : i ≤ (l.items.length : Int)) :
    l.Insert i v = (none, { l with
      items := l.items.take i.toNat ++ ([v] ++ l.items.drop i.toNat) }) := by
  have hc : ¬ (i < 0 ∨ i > (l.items.length : Int)) := by omega
  simp only [List.Insert, if_neg hc]

theorem List.RemoveAt_ok {T : Type} (l : List T) (i : Int)
    (h0 : 0 ≤ i) (h1 : i < (l.items.length : Int)) :
    l.RemoveAt i = (none, { l with
      items := l.items.take i.toNat ++ l.items.drop (i + 1).toNat }) := by
  have hc : ¬ (i < 0 ∨ i ≥ (l.items.length : Int)) := by omega
  simp only [List.RemoveAt, if_neg hc]

/-- C3. For a list with items `xs` and an index `0 <= i <= len(xs)`,
`Insert(i, v)` returns `nil` and the items become `xs[0..i)`, then `v`, then
`xs[i..len)`: the length grows by exactly 1, the elements before `i` keep their
position, position `i` holds `v`, and the elements at and after `i` move one
position to the right in the same order. The comparer is untouched. -/
theorem List.Insert_in_range {T : Type} (l : List T) (i : Int) (v : T)
    (h0 : 0 ≤ i) (h1 : i ≤ (l.items.length : Int)) :
    (l.Insert i v).1 = none
    ∧ (l.Insert i v).2.items = l.items.take i.toNat ++ [v] ++ l.items.drop i.toNat
    ∧ (l.Insert i v).2.items.length = l.items.length + 1
    ∧ (∀ j : Nat, (j : Int) < i → (l.Insert i v).2.items[j]? = l.items[j]?)
    ∧ (l.Insert i v).2.items[i.toNat]? = some v
    ∧ (∀ j : Nat, i ≤ (j : Int) → (l.Insert i v).2.items[j + 1]? = l.items[j]?)
    ∧ (l.Insert i v).2.comparer = l.comparer := by
  have hn : i.toNat ≤ l.items.length := by omega
  obtain ⟨p1, p2, p3, p4⟩ := List.insert_positions l.items i.toNat hn v
  rw [List.Insert_ok l i v h0 h1]
  refine ⟨rfl, by simp, p1, ?_, p3, ?_, rfl⟩
  · intro j hj
    exact p2 j (by omega)
  · intro j hj
    exact p4 j (by omega)

/-- Witness for C3: `List(1,2,3).Insert(1,4)`. -/
theorem List.Insert_in_range_witness :
    (0 : Int) ≤ 1 ∧ (1 : Int) ≤ (((NewList [1, 2, 3]).items.length : Nat) : Int)
    ∧ ((NewList [1, 2, 3]).Insert 1 4).1 = none
    ∧ ((NewList [1, 2, 3]).Insert 1 4).2.items = [1, 4, 2, 3] := by
  have h := List.Insert_in_range (NewList [1, 2, 3]) 1 4 (by decide) (by decide)
  exact ⟨by decide, by decide, h.1, by rw [h.2.1]; decide⟩

/-- C4. For a non-empty list with items `xs` and an index `0 <= i < len(xs)`,
`RemoveAt(i)` returns `nil`, reduces the length by exactly 1, and the items
become `xs[0..i)` followed by `xs[i+1..len)`: the elements before `i` keep
their position and those after `i` move one position to the left, so the
relative order of all other elements is unchanged. -/
theorem List.RemoveAt_in_range {T : Type} (l : List T) (i : Int)
    (h0 : 0 ≤ i) (h1 : i < (l.items.length : Int)) :
    (l.RemoveAt i).1 = none
    ∧ (l.RemoveAt i).2.items = l.items.take i.toNat ++ l.items.drop (i.toNat + 1)
    ∧ (l.RemoveAt i).2.items.length + 1 = l.items.length
    ∧ (∀ j : Nat, (j : Int) < i → (l.RemoveAt i).2.items[j]? = l.items[j]?)
    ∧ (∀ j : Nat, i ≤ (j : Int) → (l.RemoveAt i).2.items[j]? = l.items[j + 1]?)
    ∧ (l.RemoveAt i).2.comparer = l.comparer := by
  have hn : i.toNat < l.items.length := by omega
  have hs : (i + 1).toNat = i.toNat + 1 := by omega
  obtain ⟨p1, p2, p3⟩ := List.removeAt_positions l.items i.toNat hn
  rw [List.RemoveAt_ok l i h0 h1, hs]
  refine ⟨rfl, rfl, p1, ?_, ?_, rfl⟩
  · intro j hj
    exact p2 j (by omega)
  · intro j hj
    exact p3 j (by omega)

/-- Witness for C4: `List(1,2,3).RemoveAt(1)`. -/
theorem List.RemoveAt_in_range_witness :
    (0 : Int) ≤ 1 ∧ (1 : Int) < (((NewList [1, 2, 3]).items.length : Nat) : Int)
    ∧ ((NewList [1, 2, 3]).RemoveAt 1).1 = none
    ∧ ((NewList [1, 2, 3]).RemoveAt 1).2.items = [1, 3] := by
  have h := List.RemoveAt_in_range (NewList [1, 2, 3]) 1 (by decide) (by decide)
  exact ⟨by decide, by decide, h.1, by rw [h.2.1]; decide⟩

/-- C5. With an index that is negative or beyond the allowed bound
(`index >= length` for `Get`, `Set` and `RemoveAt`; `index > length` for
`Insert`) the operation fails with `ErrIndexOutOfRange` and the list is
exactly what it was before the call (`Get` returns the zero value). -/
theorem List.index_out_of_range {T : Type} [Inhabited T] (l : List T) (i : Int) (v : T) :
    ((i < 0 ∨ i ≥ (l.items.length : Int)) →
        l.Get i = ((default, some Error.ErrIndexOutOfRange), l)
        ∧ l.Set i v = (some Error.ErrIndexOutOfRange, l)
        ∧ l.RemoveAt i = (some Error.ErrIndexOutOfRange, l))
    ∧ ((i < 0 ∨ i > (l.items.length : Int)) →
        l.Insert i v = (some Error.ErrIndexOutOfRange, l)) := by
  constructor
  · intro h
    refine ⟨?_, ?_, ?_⟩
    · simp only [List.Get, dif_pos h]
    · simp only [List.Set, if_pos h]
    · simp only [List.RemoveAt, if_pos h]
  · intro h
    simp only [List.Insert, if_pos h]

/-- Witness for C5: index 3 on `List(1,2,3)` for `Get`, `Set`, `RemoveAt`, and
index -1 for `Insert`. -/
theorem List.index_out_of_range_witness :
    ((3 : Int) < 0 ∨ (3 : Int) ≥ (((NewList [1, 2, 3]).items.length : Nat) : Int))
    ∧ ((-1 : Int) < 0 ∨ (-1 : Int) > (((NewList [1, 2, 3]).items.length : Nat) : Int))
    ∧ (NewList [1, 2, 3]).Get 3 = ((0, some Error.ErrIndexOutOfRange), NewList [1, 2, 3])
    ∧ (NewList [1, 2, 3]).Set 3 9 = (some Error.ErrIndexOutOfRange, NewList [1, 2, 3])
    ∧ (NewList [1, 2, 3]).RemoveAt 3 = (some Error.ErrIndexOutOfRange, NewList [1, 2, 3])
    ∧ (NewList [1, 2, 3]).Insert (-1) 9 = (some Error.ErrIndexOutOfRange, NewList [1, 2, 3]) :=
  ⟨by decide, by decide,
    ((List.index_out_of_range (NewList [1, 2, 3]) 3 9).1 (by decide)).1,
    ((List.index_out_of_range (NewList [1, 2, 3]) 3 9).1 (by decide)).2.1,
    ((List.index_out_of_range (NewList [1, 2, 3]) 3 9).1 (by decide)).2.2,
    (List.index_out_of_range (NewList [1, 2, 3]) (-1) 9).2 (by decide)⟩

/-! ## List: searches -/

theorem List.indexOfLoop_spec {T : Type} (f : EqualityComparer T) (x : T) (xs : Slice T)
    (k : Int) :
    (List.indexOfLoop (some f) x xs k = Outcome.ok (-1) ∧ ∀ e ∈ xs, f e x = false)
    ∨ ∃ i : Nat, List.indexOfLoop (some f) x xs k = Outcome.ok (k + i) ∧ FirstMatch f xs x i := by
  induction xs generalizing k with
  | nil => left; simp [List.indexOfLoop]
  | cons v rest ih =>
    by_cases hv : f v x = true
    · right
      refine ⟨0, ?_, ⟨v, by simp, hv⟩, ?_⟩
      · simp [List.indexOfLoop, hv]
      · intro j e hj; omega
    · have hv' : f v x = false := by simpa using hv
      rcases ih (k + 1) with ⟨h1, h2⟩ | ⟨i, h1, ⟨e, he, hfe⟩, h3⟩
      · left
        refine ⟨by simp [List.indexOfLoop, hv', h1], ?_⟩
        intro e he
        rcases List.mem_cons.mp he with rfl | h
        · exact hv'
        · exact h2 e h
      · right
        refine ⟨i + 1, ?_, ⟨e, by simpa using he, hfe⟩, ?_⟩
        · simp only [List.indexOfLoop, hv', h1]
          simp
          ring
        · intro j e' hj hje
          cases j with
          | zero =>
            simp at hje
            rw [← hje]; exact hv'
          | succ j =>
            simp at hje
            exact h3 j e' (by omega) hje

theorem List.lastIndexOfLoop_spec {T : Type} (f : EqualityComparer T) (xs : Slice T) (x : T)
    (n : Nat) (hn : n ≤ xs.length) :
    (List.lastIndexOfLoop (some f) xs x n hn = Outcome.ok (-1)
      ∧ ∀ (j : Nat) (e : T), j < n → xs[j]? = some e → f e x = false)
    ∨ ∃ i : Nat, List.lastIndexOfLoop (some f) xs x n hn = Outcome.ok (i : Int)
      ∧ i < n ∧ (∃ e, xs[i]? = some e ∧ f e x = true)
      ∧ ∀ (j : Nat) (e : T), i < j → j < n → xs[j]? = some e → f e x = false := by
  induction n with
  | zero =>
    left
    refine ⟨by simp [List.lastIndexOfLoop], ?_⟩
    intro j e hj; omega
  | succ n ih =>
    have hlt : n < xs.length := by omega
    have hget : xs[n]? = some (xs.get ⟨n, hlt⟩) := by
      simp [List.getElem?_eq_getElem hlt]
    by_cases hv : f (xs.get ⟨n, hlt⟩) x = true
    · right
      refine ⟨n, ?_, by omega, ⟨_, hget, hv⟩, ?_⟩
      · simp only [List.lastIndexOfLoop, hv, if_true]
      · intro j e h1 h2; omega
    · have hv' : f (xs.get ⟨n, hlt⟩) x = false := by simpa using hv
      rcases ih (by omega) with ⟨h1, h2⟩ | ⟨i, h1, h2, h3, h4⟩
      · left
        refine ⟨by simp only [List.lastIndexOfLoop, hv', h1]; simp, ?_⟩
        intro j e hj hje
        by_cases hjn : j = n
        · subst hjn
          rw [hget] at hje
          cases hje
          exact hv'
        · exact h2 j e (by omega) hje
      · right
        refine ⟨i, by simp only [List.lastIndexOfLoop, hv', h1]; simp, by omega, h3, ?_⟩
        intro j e hij hj hje
        by_cases hjn : j = n
        · subst hjn
          rw [hget] at hje
          cases hje
          exact hv'
        · exact h4 j e hij (by omega) hje

theorem FirstMatch.exists_mem {T : Type} {f : EqualityComparer T} {xs : Slice T} {x : T}
    {i : Nat} (h : FirstMatch f xs x i) : ∃ e ∈ xs, f e x = true := by
  obtain ⟨⟨e, he, hfe⟩, _⟩ := h
  exact ⟨e, List.getElem?_mem he, hfe⟩

theorem FirstMatch.lt_length {T : Type} {f : EqualityComparer T} {xs : Slice T} {x : T}
    {i : Nat} (h : FirstMatch f xs x i) : i < xs.length := by
  obtain ⟨⟨e, he, _⟩, _⟩ := h
  exact (List.getElem?_eq_some_iff.mp he).1

theorem List.IndexOf_cases {T : Type} (l : List T) (f : EqualityComparer T)
    (hc : l.comparer = some f) (x : T) :
    ((l.IndexOf x).1 = Outcome.ok (-1) ∧ ∀ e ∈ l.items, f e x = false)
    ∨ ∃ i : Nat, (l.IndexOf x).1 = Outcome.ok (i : Int) ∧ FirstMatch f l.items x i := by
  have h := List.indexOfLoop_spec f x l.items 0
  simp only [List.IndexOf, hc]
  rcases h with h | ⟨i, h1, h2⟩
  · exact Or.inl h
  · exact Or.inr ⟨i, by simpa using h1, h2⟩

theorem List.LastIndexOf_cases {T : Type} (l : List T) (f : EqualityComparer T)
    (hc : l.comparer = some f) (x : T) :
    ((l.LastIndexOf x).1 = Outcome.ok (-1) ∧ ∀ e ∈ l.items, f e x = false)
    ∨ ∃ i : Nat, (l.LastIndexOf x).1 = Outcome.ok (i : Int) ∧ LastMatch f l.items x i := by
  have h := List.lastIndexOfLoop_spec f l.items x l.items.length (Nat.le_refl _)
  simp only [List.LastIndexOf, hc]
  rcases h with ⟨h1, h2⟩ | ⟨i, h1, _, h3, h4⟩
  · left
    refine ⟨h1, ?_⟩
    intro e he
    obtain ⟨n, hn⟩ := List.getElem?_of_mem he
    exact h2 n e (List.getElem?_eq_some_iff.mp hn).1 hn
  · right
    refine ⟨i, h1, h3, ?_⟩
    intro j e hij hje
    exact h4 j e hij (List.getElem?_eq_some_iff.mp hje).1 hje

/-- C7. For a list whose comparer is `f`, `IndexOf(x)` returns the smallest
index `i` with `f(items[i], x)` true (list element first, searched item
second), returns -1 exactly when no element satisfies it, and leaves the
list as it was. -/
theorem List.IndexOf_first_match {T : Type} (l : List T) (f : EqualityComparer T)
    (hc : l.comparer = some f) (x : T) :
    (l.IndexOf x).2 = l
    ∧ (((l.IndexOf x).1 = Outcome.ok (-1) ∧ ∀ e ∈ l.items, f e x = false)
        ∨ ∃ i : Nat, (l.IndexOf x).1 = Outcome.ok (i : Int) ∧ FirstMatch f l.items x i)
    ∧ ((l.IndexOf x).1 = Outcome.ok (-1) ↔ ∀ e ∈ l.items, f e x = false) := by
  refine ⟨rfl, List.IndexOf_cases l f hc x, ?_⟩
  rcases List.IndexOf_cases l f hc x with ⟨h1, h2⟩ | ⟨i, h1, h2⟩
  · exact ⟨fun _ => h2, fun _ => h1⟩
  · obtain ⟨e, he, hfe⟩ := h2.exists_mem
    constructor
    · intro h
      rw [h1] at h
      have hi : (i : Int) = -1 := Outcome.ok.inj h
      omega
    · intro h
      rw [h e he] at hfe
      cases hfe

/-- Witness for C7: `IndexOf(2)` on `List(1,2,3,2)` is 1. -/
theorem List.IndexOf_first_match_witness :
    (NewList [1, 2, 3, 2]).comparer = some DefaultEqualityComparer
    ∧ ((NewList [1, 2, 3, 2]).IndexOf 2).1 = Outcome.ok 1
    ∧ ¬ ((NewList [1, 2, 3, 2]).IndexOf 2).1 = Outcome.ok (-1)
    ∧ ¬ (∀ e ∈ (NewList [1, 2, 3, 2]).items, DefaultEqualityComparer e 2 = false) := by
  have h := List.IndexOf_first_match (NewList [1, 2, 3, 2]) DefaultEqualityComparer rfl 2
  have hne : ¬ ((NewList [1, 2, 3, 2]).IndexOf 2).1 = Outcome.ok (-1) := by decide
  exact ⟨rfl, by decide, hne, fun hall => hne (h.2.2.mpr hall)⟩

/-- C8. For a list whose comparer is `f`, `LastIndexOf(x)` returns the
largest index `i` with `f(items[i], x)` true, returns -1 exactly when no
element satisfies it, and leaves the list as it was. -/
theorem List.LastIndexOf_last_match {T : Type} (l : List T) (f : EqualityComparer T)
    (hc : l.comparer = some f) (x : T) :
    (l.LastIndexOf x).2 = l
    ∧ (((l.LastIndexOf x).1 = Outcome.ok (-1) ∧ ∀ e ∈ l.items, f e x = false)
        ∨ ∃ i : Nat, (l.LastIndexOf x).1 = Outcome.ok (i : Int) ∧ LastMatch f l.items x i)
    ∧ ((l.LastIndexOf x).1 = Outcome.ok (-1) ↔ ∀ e ∈ l.items, f e x = false) := by
  refine ⟨rfl, List.LastIndexOf_cases l f hc x, ?_⟩
  rcases List.LastIndexOf_cases l f hc x with ⟨h1, h2⟩ | ⟨i, h1, ⟨e, he, hfe⟩, _⟩
  · exact ⟨fun _ => h2, fun _ => h1⟩
  · constructor
    · intro h
      rw [h1] at h
      have hi : (i : Int) = -1 := Outcome.ok.inj h
      omega
    · intro h
      rw [h e (List.getElem?_mem he)] at hfe
      cases hfe

/-- Witness for C8: `LastIndexOf(2)` on `List(1,2,3,2)` is 3. -/
theorem List.LastIndexOf_last_match_witness :
    (NewList [1, 2, 3, 2]).comparer = some DefaultEqualityComparer
    ∧ ((NewList [1, 2, 3, 2]).LastIndexOf 2).1 = Outcome.ok 3
    ∧ ¬ ((NewList [1, 2, 3, 2]).LastIndexOf 2).1 = Outcome.ok (-1)
    ∧ ¬ (∀ e ∈ (NewList [1, 2, 3, 2]).items, DefaultEqualityComparer e 2 = false) := by
  have h := List.LastIndexOf_last_match (NewList [1, 2, 3, 2]) DefaultEqualityComparer rfl 2
  have hne : ¬ ((NewList [1, 2, 3, 2]).LastIndexOf 2).1 = Outcome.ok (-1) := by decide
  exact ⟨rfl, by decide, hne, fun hall => hne (h.2.2.mpr hall)⟩

theorem List.IndexOf_eq {T : Type} (l : List T) (x : T) (r : Outcome Int)
    (h : (l.IndexOf x).1 = r) : l.IndexOf x = (r, l) := by
  rw [← h]
  rfl

/-- C9. For a list whose comparer is `f`, `Contains(x)` is true if and only
if `IndexOf(x)` is not -1, that is if and only if some element `e` of the list
has `f(e, x)` true; the list is left as it was. -/
theorem List.Contains_iff_IndexOf {T : Type} (l : List T) (f : EqualityComparer T)
    (hc : l.comparer = some f) (x : T) :
    (l.Contains x).2 = l
    ∧ ∃ (b : Bool) (r : Int), (l.Contains x).1 = Outcome.ok b
        ∧ (l.IndexOf x).1 = Outcome.ok r
        ∧ (b = true ↔ r ≠ -1)
        ∧ (b = true ↔ ∃ e ∈ l.items, f e x = true) := by
  rcases List.IndexOf_cases l f hc x with ⟨h1, h2⟩ | ⟨i, h1, h2⟩
  · have hI := List.IndexOf_eq l x _ h1
    refine ⟨by simp only [List.Contains, hI], false, -1, by simp [List.Contains, hI], h1, ?_, ?_⟩
    · simp
    · constructor
      · intro h; cases h
      · rintro ⟨e, he, hfe⟩
        rw [h2 e he] at hfe
        cases hfe
  · have hI := List.IndexOf_eq l x _ h1
    have hne : (i : Int) ≠ -1 := by omega
    refine ⟨by simp only [List.Contains, hI], true, (i : Int), ?_, h1, ?_, ?_⟩
    · simp only [List.Contains, hI]
      simp [hne]
    · simp [hne]
    · simp only [true_iff]
      exact h2.exists_mem

/-- Witness for C9: `Contains(2)` on `List(1,2,3)` is true. -/
theorem List.Contains_iff_IndexOf_witness :
    (NewList [1, 2, 3]).comparer = some DefaultEqualityComparer
    ∧ ((NewList [1, 2, 3]).Contains 2).1 = Outcome.ok true
    ∧ ((NewList [1, 2, 3]).IndexOf 2).1 = Outcome.ok 1
    ∧ ∃ e ∈ (NewList [1, 2, 3]).items, DefaultEqualityComparer e 2 = true := by
  obtain ⟨_, b, r, h1, _, _, h4⟩ :=
    List.Contains_iff_IndexOf (NewList [1, 2, 3]) DefaultEqualityComparer rfl 2
  have hb : ((NewList [1, 2, 3]).Contains 2).1 = Outcome.ok true := by decide
  have : b = true := by
    rw [hb] at h1
    exact (Outcome.ok.inj h1).symm
  exact ⟨rfl, hb, by decide, h4.mp this⟩

/-- C6. For a list whose comparer is `f`, `Remove(x)` returns a boolean and
no error; it returns true exactly when some element `e` has `f(e, x)` true.
When it returns true the items are the old items with only the first such
element removed (the rest keep their order, later matches remain, the length
drops by 1); when it returns false the list is unchanged. -/
theorem List.Remove_first_match {T : Type} (l : List T) (f : EqualityComparer T)
    (hc : l.comparer = some f) (x : T) :
    ∃ b : Bool, (l.Remove x).1 = Outcome.ok b
      ∧ (b = true ↔ ∃ e ∈ l.items, f e x = true)
      ∧ (b = true → ∃ i : Nat, FirstMatch f l.items x i
            ∧ (l.Remove x).2.items = l.items.take i ++ l.items.drop (i + 1)
            ∧ (l.Remove x).2.items.length + 1 = l.items.length)
      ∧ (b = false → (l.Remove x).2 = l)
      ∧ (l.Remove x).2.comparer = l.comparer := by
  rcases List.IndexOf_cases l f hc x with ⟨h1, h2⟩ | ⟨i, h1, h2⟩
  · have hI := List.IndexOf_eq l x _ h1
    have hR : l.Remove x = (Outcome.ok false, l) := by
      simp [List.Remove, hI]
    refine ⟨false, by rw [hR], ?_, ?_, ?_, by rw [hR]⟩
    · constructor
      · intro h; cases h
      · rintro ⟨e, he, hfe⟩
        rw [h2 e he] at hfe
        cases hfe
    · intro h; cases h
    · intro _; rw [hR]
  · have hI := List.IndexOf_eq l x _ h1
    have hne : (i : Int) ≠ -1 := by omega
    have hlt : i < l.items.length := h2.lt_length
    have hRA := List.RemoveAt_ok l (i : Int) (by omega) (by omega)
    have hs : ((i : Int) + 1).toNat = i + 1 := by omega
    have hR : l.Remove x = (Outcome.ok true, { l with
        items := l.items.take i ++ l.items.drop (i + 1) }) := by
      simp only [List.Remove, hI, if_neg hne, hRA, Int.toNat_ofNat, hs]
    refine ⟨true, by rw [hR], ?_, ?_, ?_, by rw [hR]⟩
    · simp only [true_iff]
      exact h2.exists_mem
    · intro _
      refine ⟨i, h2, by rw [hR], ?_⟩
      rw [hR]
      exact (List.removeAt_positions l.items i hlt).1
    · intro h; cases h

/-- Witness for C6: `Remove(2)` on `List(1,2,3,2)` leaves `[1,3,2]`. -/
theorem List.Remove_first_match_witness :
    (NewList [1, 2, 3, 2]).comparer = some DefaultEqualityComparer
    ∧ ((NewList [1, 2, 3, 2]).Remove 2).1 = Outcome.ok true
    ∧ ((NewList [1, 2, 3, 2]).Remove 2).2.items = [1, 3, 2]
    ∧ ∃ e ∈ (NewList [1, 2, 3, 2]).items, DefaultEqualityComparer e 2 = true := by
  obtain ⟨b, h1, h2, _⟩ :=
    List.Remove_first_match (NewList [1, 2, 3, 2]) DefaultEqualityComparer rfl 2
  have hb : ((NewList [1, 2, 3, 2]).Remove 2).1 = Outcome.ok true := by decide
  have : b = true := by
    rw [hb] at h1
    exact (Outcome.ok.inj h1).symm
  exact ⟨rfl, hb, by decide, h2.mp this⟩

theorem Comparable.equal_iff (t : Comparable) :
    ∀ a b : t.Val, t.equal a b = true ↔ (a = b ∧ t.hasNaN a = false) := by
  induction t with
  | exact α dec =>
    intro a b
    simp [Comparable.equal, Comparable.hasNaN]
  | float64 =>
    intro a b
    change Float64.equal a b = true
      ↔ (@Eq Float64 a b ∧ Comparable.hasNaN Comparable.float64 a = false)
    cases a <;> cases b <;> simp [Comparable.hasNaN, Float64.equal]
  | fields u v ihu ihv =>
    intro a b
    simp only [Comparable.equal, Comparable.hasNaN, Bool.and_eq_true, Bool.or_eq_false_iff,
      ihu, ihv]
    constructor
    · rintro ⟨⟨h1, h2⟩, h3, h4⟩
      exact ⟨Prod.ext h1 h3, h2, h4⟩
    · rintro ⟨h, h2, h4⟩
      subst h
      exact ⟨⟨rfl, h2⟩, rfl, h4⟩

theorem Comparable.hasNaN_of_no_float (t : Comparable) (h : t.hasFloat = false) :
    ∀ a : t.Val, t.hasNaN a = false := by
  induction t with
  | exact α dec =>
    intro a
    rfl
  | float64 => cases h
  | fields u v ihu ihv =>
    intro a
    simp only [Comparable.hasFloat, Bool.or_eq_false_iff] at h
    simp only [Comparable.hasNaN, Bool.or_eq_false_iff]
    exact ⟨ihu h.1 a.1, ihv h.2 a.2⟩

theorem Comparable.equal_comm (t : Comparable) (a b : t.Val) : t.equal a b = t.equal b a := by
  rw [Bool.eq_iff_iff, Comparable.equal_iff, Comparable.equal_iff]
  constructor
  · rintro ⟨h, hn⟩
    subst h
    exact ⟨rfl, hn⟩
  · rintro ⟨h, hn⟩
    subst h
    exact ⟨rfl, hn⟩

/-- Counterexample to C10 as stated: the empty list built by `NewList` over
`float64`, then `Add(NaN)`. `Contains(NaN)` returns false and `IndexOf(NaN)`
returns -1, because `NaN == NaN` is false: the comparer that `NewList`
installs is not reflexive on this element type. -/
theorem List.Add_NaN_not_found :
    (((@NewList Float64 ⟨Float64.equal⟩ []).Add Float64.NaN).Contains Float64.NaN).1
        = Outcome.ok false
    ∧ (((@NewList Float64 ⟨Float64.equal⟩ []).Add Float64.NaN).IndexOf Float64.NaN).1
        = Outcome.ok (-1)
    ∧ ¬ (((@NewList Float64 ⟨Float64.equal⟩ []).Add Float64.NaN).Contains Float64.NaN).1
        = Outcome.ok true := by
  decide

/-- C10, amended. For a list `S` whose comparer `f` is reflexive and every
item `x`, after `S.Add(x)` the call `Contains(x)` returns true and
`IndexOf(x)` returns a valid zero-based index: the first position of `S`
whose element equals `x` under the comparer. A list built by `NewList` has a
reflexive comparer whenever `==` on its element type is reflexive; over a
comparable type built from identity-compared types and `float64` by structs
and arrays, its comparer is reflexive at `a` exactly when `a` holds no `NaN`,
hence reflexive when the type has no floating-point component. -/
theorem List.Add_then_found {T : Type} (l : List T) (f : EqualityComparer T)
    (hc : l.comparer = some f) (hrefl : ∀ a : T, f a a = true) (x : T) :
    (((l.Add x).Contains x).1 = Outcome.ok true
      ∧ ∃ i : Nat, ((l.Add x).IndexOf x).1 = Outcome.ok (i : Int)
          ∧ i < (l.Add x).items.length
          ∧ FirstMatch f (l.Add x).items x i)
    ∧ (∀ (_inst : BEq T), (∀ a : T, (a == a) = true) → ∀ vs : Slice T,
        ∃ g : EqualityComparer T, (NewList vs).comparer = some g ∧ ∀ a : T, g a a = true)
    ∧ (∀ (t : Comparable) (vs : Slice t.Val),
        ∃ g : EqualityComparer t.Val, (@NewList t.Val ⟨t.equal⟩ vs).comparer = some g
          ∧ (∀ a : t.Val, g a a = true ↔ t.hasNaN a = false)
          ∧ (t.hasFloat = false → ∀ a : t.Val, g a a = true)) := by
  refine ⟨?_, ?_, ?_⟩
  · have hc' : (l.Add x).comparer = some f := hc
    rcases List.IndexOf_cases (l.Add x) f hc' x with ⟨_, h2⟩ | ⟨i, h1, h2⟩
    · have hx : x ∈ (l.Add x).items := by simp [List.Add]
      have := h2 x hx
      rw [hrefl x] at this
      cases this
    · have hI := List.IndexOf_eq (l.Add x) x _ h1
      have hne : (i : Int) ≠ -1 := by omega
      refine ⟨?_, i, h1, h2.lt_length, h2⟩
      simp only [List.Contains, hI]
      simp [hne]
  · intro _ hr vs
    exact ⟨DefaultEqualityComparer, rfl, fun a => hr a⟩
  · intro t vs
    have hself : ∀ a : t.Val, t.equal a a = true ↔ t.hasNaN a = false := by
      intro a
      rw [Comparable.equal_iff]
      simp
    refine ⟨@DefaultEqualityComparer t.Val ⟨t.equal⟩, rfl, hself, ?_⟩
    intro hf a
    exact (hself a).mpr (Comparable.hasNaN_of_no_float t hf a)

/-- Witness for C10, amended: `NewList(1,2,3)`, then `Add(2)`. -/
theorem List.Add_then_found_witness :
    (NewList [1, 2, 3]).comparer = some DefaultEqualityComparer
    ∧ (∀ a : Nat, DefaultEqualityComparer a a = true)
    ∧ (((NewList [1, 2, 3]).Add 2).Contains 2).1 = Outcome.ok true
    ∧ ∃ i : Nat, (((NewList [1, 2, 3]).Add 2).IndexOf 2).1 = Outcome.ok (i : Int)
        ∧ i < ((NewList [1, 2, 3]).Add 2).items.length
        ∧ FirstMatch DefaultEqualityComparer ((NewList [1, 2, 3]).Add 2).items 2 i :=
  ⟨rfl, fun a => by simp [DefaultEqualityComparer],
    (List.Add_then_found (NewList [1, 2, 3]) DefaultEqualityComparer rfl
      (fun a => by simp [DefaultEqualityComparer]) 2).1⟩

/-! ## CopyTo -/

theorem wrapInt_of_in_range (x : Int) (h0 : 0 ≤ x) (h1 : x ≤ maxInt) : wrapInt x = x := by
  unfold maxInt at h1
  unfold wrapInt
  omega

theorem sharedView_length {T : Type} (overlap : Option Int) (items written : Slice T) :
    (sharedView overlap items written).length = items.length := by
  cases overlap with
  | none => rfl
  | some s => simp [sharedView]

theorem sharedView_getElem? {T : Type} (s : Int) (items written : Slice T) (i : Nat) :
    (sharedView (some s) items written)[i]?
      = (items[i]?).map fun v =>
          if 0 ≤ (i : Int) - s then (written[((i : Int) - s).toNat]?).getD v else v := by
  simp only [sharedView]
  rw [List.getElem?_zipWith]
  by_cases h : i < items.length
  · simp [List.getElem?_range h, List.getElem?_eq_getElem h]
  · have h1 : items[i]? = none := List.getElem?_eq_none (by omega)
    have h2 : (List.range items.length)[i]? = none := List.getElem?_eq_none (by simp; omega)
    simp [h1, h2]

theorem copy_into_eq {T : Type} (array src : Slice T) (n : Nat)
    (h : n + src.length ≤ array.length) :
    array.take n ++ copy (array.drop n) src
      = array.take n ++ src ++ array.drop (n + src.length) := by
  have h1 : src.take (array.drop n).length = src := by
    apply List.take_of_length_le
    simp
    omega
  simp only [copy, h1, List.drop_drop, List.append_assoc]

theorem copy_into_positions {T : Type} (array src : Slice T) (n : Nat)
    (h : n + src.length ≤ array.length) :
    (array.take n ++ copy (array.drop n) src).length = array.length
    ∧ ((array.take n ++ copy (array.drop n) src).drop n).take src.length = src
    ∧ (∀ j : Nat, j < n → (array.take n ++ copy (array.drop n) src)[j]? = array[j]?)
    ∧ (∀ j : Nat, n + src.length ≤ j →
        (array.take n ++ copy (array.drop n) src)[j]? = array[j]?) := by
  have hl : (array.take n).length = n := by simp; omega
  rw [copy_into_eq array src n h]
  refine ⟨?_, ?_, ?_, ?_⟩
  · simp; omega
  · rw [List.append_assoc, List.drop_append_of_le_length (by omega)]
    have : List.drop n (List.take n array) = [] := by
      apply List.drop_of_length_le; omega
    rw [this, List.nil_append, List.take_append_of_le_length (Nat.le_refl _), List.take_length]
  · intro j hj
    rw [List.append_assoc, List.getElem?_append_left (by omega), List.getElem?_take_of_lt hj]
  · intro j hj
    have hl2 : (array.take n ++ src).length = n + src.length := by simp; omega
    rw [List.getElem?_append_right (by omega), hl2, List.getElem?_drop]
    congr 1
    omega

theorem List.list_CopyTo_ok {T : Type} (l : List T) (array : Slice T) (i : Int)
    (overlap : Option Int) (h0 : 0 ≤ i) (h1 : i < (array.length : Int))
    (h2 : i + (l.items.length : Int) ≤ (array.length : Int))
    (hsum : i + (l.items.length : Int) ≤ maxInt) :
    l.CopyTo array i overlap
      = ((none, array.take i.toNat ++ copy (array.drop i.toNat) l.items),
          { l with
            items := sharedView overlap l.items
              (array.take i.toNat ++ copy (array.drop i.toNat) l.items) }) := by
  have c1 : ¬ (i < 0 ∨ i ≥ (array.length : Int)) := by omega
  have hw := wrapInt_of_in_range (i + (l.items.length : Int)) (by omega) hsum
  have c2 : ¬ (wrapInt (i + (l.items.length : Int)) > (array.length : Int)) := by
    rw [hw]
    omega
  simp only [List.CopyTo, if_neg c1, if_neg c2]

theorem List.list_CopyTo_err {T : Type} (l : List T) (array : Slice T) (i : Int)
    (overlap : Option Int)
    (h : i < 0 ∨ i ≥ (array.length : Int)
      ∨ (i + (l.items.length : Int) > (array.length : Int)
          ∧ i + (l.items.length : Int) ≤ maxInt)) :
    l.CopyTo array i overlap = ((some Error.ErrIndexOutOfRange, array), l) := by
  by_cases c1 : i < 0 ∨ i ≥ (array.length : Int)
  · simp only [List.CopyTo, if_pos c1]
  · have h3 : i + (l.items.length : Int) > (array.length : Int)
        ∧ i + (l.items.length : Int) ≤ maxInt := by omega
    have hw := wrapInt_of_in_range (i + (l.items.length : Int)) (by omega) h3.2
    have c2 : wrapInt (i + (l.items.length : Int)) > (array.length : Int) := by
      rw [hw]
      exact h3.1
    simp only [List.CopyTo, if_neg c1, if_pos c2]

theorem Queue.queue_CopyTo_ok {T : Type} (q : Queue T) (items : Slice T) (i : Int)
    (overlap : Option Int) (h0 : 0 ≤ i)
    (h2 : i + (q.items.length : Int) ≤ (items.length : Int)) :
    q.CopyTo items i overlap
      = ((none, items.take i.toNat ++ copy (items.drop i.toNat) q.items),
          { items := sharedView overlap q.items
              (items.take i.toNat ++ copy (items.drop i.toNat) q.items) }) := by
  have c1 : ¬ (i < 0 ∨ i > (items.length : Int)) := by omega
  have c2 : ¬ ((items.length : Int) - i < (q.items.length : Int)) := by omega
  simp only [Queue.CopyTo, if_neg c1, if_neg c2]

theorem Queue.queue_CopyTo_err {T : Type} (q : Queue T) (items : Slice T) (i : Int)
    (overlap : Option Int)
    (h : i < 0 ∨ i + (q.items.length : Int) > (items.length : Int)) :
    q.CopyTo items i overlap = ((some Error.ErrIndexOutOfRange, items), q) := by
  by_cases c1 : i < 0 ∨ i > (items.length : Int)
  · simp only [Queue.CopyTo, if_pos c1]
  · have c2 : (items.length : Int) - i < (q.items.length : Int) := by omega
    simp only [Queue.CopyTo, if_neg c1, if_pos c2]

theorem List.list_CopyTo_nil_iff {T : Type} (l : List T) (array : Slice T) (i : Int)
    (overlap : Option Int) (hsum : i + (l.items.length : Int) ≤ maxInt) :
    (l.CopyTo array i overlap).1.1 = none
      ↔ (0 ≤ i ∧ i < (array.length : Int)
          ∧ i + (l.items.length : Int) ≤ (array.length : Int)) := by
  constructor
  · intro h
    by_contra hn
    have hbad : i < 0 ∨ i ≥ (array.length : Int)
        ∨ (i + (l.items.length : Int) > (array.length : Int)
            ∧ i + (l.items.length : Int) ≤ maxInt) := by omega
    rw [List.list_CopyTo_err l array i overlap hbad] at h
    cases h
  · rintro ⟨h0, h1, h2⟩
    rw [List.list_CopyTo_ok l array i overlap h0 h1 h2 hsum]

theorem Queue.queue_CopyTo_nil_iff {T : Type} (q : Queue T) (items : Slice T) (i : Int)
    (overlap : Option Int) :
    (q.CopyTo items i overlap).1.1 = none
      ↔ (0 ≤ i ∧ i + (q.items.length : Int) ≤ (items.length : Int)) := by
  by_cases hg : 0 ≤ i ∧ i + (q.items.length : Int) ≤ (items.length : Int)
  · rw [Queue.queue_CopyTo_ok q items i overlap hg.1 hg.2]
    simp [hg]
  · have hbad : i < 0 ∨ i + (q.items.length : Int) > (items.length : Int) := by omega
    rw [Queue.queue_CopyTo_err q items i overlap hbad]
    simp [hg]

/-- Counterexample to C11 as stated: an empty list copied to index 1 of a
destination of length 1 has `0 <= index` and `index + k <= d`, yet
`List.CopyTo` fails, because `arrayIndex >= len(array)` is checked first. -/
theorem List.CopyTo_at_end_of_destination :
    ¬ (((NewList ([] : Slice Nat)).CopyTo [7] 1 none).1.1 = none
        ↔ ((0 : Int) ≤ 1
            ∧ (1 : Int) + (((NewList ([] : Slice Nat)).items.length : Nat) : Int)
                ≤ ((([7] : Slice Nat).length : Nat) : Int))) := by
  decide

/-- C11, amended. For a list with `k` items, a destination of length `d` and
an index for which `index + k` is an `int` (it does not exceed the largest
`int`), wherever the destination lies, `List.CopyTo` returns `nil` if and
only if `0 <= index`, `index < d` and `index + k <= d`. -/
theorem List.CopyTo_list_succeeds_iff {T : Type} (l : List T) (array : Slice T) (i : Int)
    (overlap : Option Int) (hsum : i + (l.items.length : Int) ≤ maxInt) :
    (l.CopyTo array i overlap).1.1 = none
      ↔ (0 ≤ i ∧ i < (array.length : Int)
          ∧ i + (l.items.length : Int) ≤ (array.length : Int)) := by
  constructor
  · intro h
    by_contra hn
    have hbad : i < 0 ∨ i ≥ (array.length : Int)
        ∨ (i + (l.items.length : Int) > (array.length : Int)
            ∧ i + (l.items.length : Int) ≤ maxInt) := by omega
    rw [List.list_CopyTo_err l array i overlap hbad] at h
    cases h
  · rintro ⟨h0, h1, h2⟩
    rw [List.list_CopyTo_ok l array i overlap h0 h1 h2 hsum]

/-- Witness for C11, amended: two items and index 1; a destination of length
3 takes them, a destination of length 2 does not. -/
theorem List.CopyTo_list_succeeds_iff_witness :
    (1 : Int) + (((NewList [1, 2]).items.length : Nat) : Int) ≤ maxInt
    ∧ (((NewList [1, 2]).CopyTo [7, 7, 7] 1 none).1.1 = none
        ↔ ((0 : Int) ≤ 1 ∧ (1 : Int) < ((([7, 7, 7] : Slice Nat).length : Nat) : Int)
            ∧ (1 : Int) + (((NewList [1, 2]).items.length : Nat) : Int)
                ≤ ((([7, 7, 7] : Slice Nat).length : Nat) : Int)))
    ∧ ((NewList [1, 2]).CopyTo [7, 7, 7] 1 none).1 = (none, [7, 1, 2])
    ∧ ((NewList [1, 2]).CopyTo [7, 7] 1 none).1.1 = some Error.ErrIndexOutOfRange :=
  ⟨by decide, List.CopyTo_list_succeeds_iff (NewList [1, 2]) [7, 7, 7] 1 none (by decide),
    by decide, by decide⟩

/-- C12. For a queue with `k` items, a destination of length `d` and any
index, wherever the destination lies, `Queue.CopyTo` returns `nil` if and
only if `0 <= index` and `index + k <= d`; otherwise it fails with
`ErrIndexOutOfRange`. -/
theorem Queue.CopyTo_queue_succeeds_iff {T : Type} (q : Queue T) (items : Slice T) (i : Int)
    (overlap : Option Int) :
    ((q.CopyTo items i overlap).1.1 = none
      ↔ (0 ≤ i ∧ i + (q.items.length : Int) ≤ (items.length : Int)))
    ∧ ((q.CopyTo items i overlap).1.1 = some Error.ErrIndexOutOfRange
      ↔ ¬ (0 ≤ i ∧ i + (q.items.length : Int) ≤ (items.length : Int))) := by
  by_cases hg : 0 ≤ i ∧ i + (q.items.length : Int) ≤ (items.length : Int)
  · rw [Queue.queue_CopyTo_ok q items i overlap hg.1 hg.2]
    simp [hg]
  · have hbad : i < 0 ∨ i + (q.items.length : Int) > (items.length : Int) := by omega
    rw [Queue.queue_CopyTo_err q items i overlap hbad]
    simp [hg]

theorem List.list_CopyTo_err_iff {T : Type} (l : List T) (array : Slice T) (i : Int)
    (overlap : Option Int) (hsum : i + (l.items.length : Int) ≤ maxInt) :
    ((l.CopyTo array i overlap).1.1 = some Error.ErrIndexOutOfRange
      ↔ (i < 0 ∨ i ≥ (array.length : Int)
          ∨ i + (l.items.length : Int) > (array.length : Int)))
    ∧ ((l.CopyTo array i overlap).1.1 = none
      ↔ ¬ (i < 0 ∨ i ≥ (array.length : Int)
          ∨ i + (l.items.length : Int) > (array.length : Int))) := by
  by_cases hbad : i < 0 ∨ i ≥ (array.length : Int)
      ∨ i + (l.items.length : Int) > (array.length : Int)
  · rw [List.list_CopyTo_err l array i overlap (by omega)]
    simp [hbad]
  · rw [List.list_CopyTo_ok l array i overlap (by omega) (by omega) (by omega) hsum]
    simp [hbad]

theorem List.list_CopyTo_wrapped {T : Type} (l : List T) (array : Slice T) (i : Int)
    (overlap : Option Int) (h0 : 0 ≤ i) (h1 : i < (array.length : Int))
    (hw : wrapInt (i + (l.items.length : Int)) ≤ (array.length : Int)) :
    (l.CopyTo array i overlap).1.1 = none := by
  have c1 : ¬ (i < 0 ∨ i ≥ (array.length : Int)) := by omega
  have c2 : ¬ (wrapInt (i + (l.items.length : Int)) > (array.length : Int)) := by omega
  simp only [List.CopyTo, if_neg c1, if_neg c2]

/-- C13, evaluated where it fails: a list of `2^62` values of the zero-size
type `struct{}`, a destination of `2^62 + 1` of them and index `2^62`. The
index is in range and `index + len(items)` is `2^63`, more than the length of
the destination, so the call ought to fail; the `int` sum wraps to `-2^63`,
the second check passes and `List.CopyTo` returns `nil`. -/
theorem List.CopyTo_sum_wraps :
    (0 : Int) ≤ 4611686018427387904
    ∧ (4611686018427387904 : Int)
        < (((List.replicate 4611686018427387905 ()).length : Nat) : Int)
    ∧ (4611686018427387904 : Int)
          + (((NewList (List.replicate 4611686018427387904 ())).items.length : Nat) : Int)
        > (((List.replicate 4611686018427387905 ()).length : Nat) : Int)
    ∧ wrapInt ((4611686018427387904 : Int)
          + (((NewList (List.replicate 4611686018427387904 ())).items.length : Nat) : Int))
        = -9223372036854775808
    ∧ ((NewList (List.replicate 4611686018427387904 ())).CopyTo
          (List.replicate 4611686018427387905 ()) 4611686018427387904 none).1.1 = none := by
  have hk : (NewList (List.replicate 4611686018427387904 ())).items.length
      = 4611686018427387904 :=
    List.length_replicate _ _
  have hd : (List.replicate 4611686018427387905 ()).length = 4611686018427387905 :=
    List.length_replicate _ _
  have hw : wrapInt ((4611686018427387904 : Int) + ((4611686018427387904 : Nat) : Int))
      = -9223372036854775808 := by
    decide
  refine ⟨by decide, ?_, ?_, ?_, ?_⟩
  · rw [hd]
    decide
  · rw [hk, hd]
    decide
  · rw [hk]
    exact hw
  · apply List.list_CopyTo_wrapped
    · decide
    · rw [hd]
      decide
    · rw [hk, hd, hw]
      decide

theorem copy_into_frame {T : Type} (array src : Slice T) (i : Int) (h0 : 0 ≤ i)
    (h2 : i + (src.length : Int) ≤ (array.length : Int)) :
    (array.take i.toNat ++ copy (array.drop i.toNat) src).length = array.length
    ∧ ((array.take i.toNat ++ copy (array.drop i.toNat) src).drop i.toNat).take src.length
        = src
    ∧ (∀ j : Nat, ((j : Int) < i ∨ i + (src.length : Int) ≤ (j : Int)) →
        (array.take i.toNat ++ copy (array.drop i.toNat) src)[j]? = array[j]?) := by
  have hn : i.toNat + src.length ≤ array.length := by omega
  obtain ⟨p1, p2, p3, p4⟩ := copy_into_positions array src i.toNat hn
  refine ⟨p1, p2, ?_⟩
  intro j hj
  rcases hj with hj | hj
  · exact p3 j (by omega)
  · exact p4 j (by omega)

theorem sharedView_unchanged {T : Type} (overlap : Option Int) (items array : Slice T)
    (i : Int) (h0 : 0 ≤ i) (h2 : i + (items.length : Int) ≤ (array.length : Int))
    (hagree : sharedCellsAgree overlap items array)
    (hmiss : copiedRangeMissesItems overlap i items.length) :
    sharedView overlap items (array.take i.toNat ++ copy (array.drop i.toNat) items)
      = items := by
  cases overlap with
  | none => rfl
  | some s =>
    obtain ⟨_, _, p3⟩ := copy_into_frame array items i h0 h2
    apply List.ext_getElem?
    intro n
    rw [sharedView_getElem?]
    cases hn : items[n]? with
    | none => rfl
    | some v =>
      have hlt : n < items.length := (List.getElem?_eq_some_iff.mp hn).1
      simp only [Option.map_some']
      congr 1
      split
      · rename_i hpos
        cases hw : (array.take i.toNat ++ copy (array.drop i.toNat) items)[
            ((n : Int) - s).toNat]? with
        | none => rfl
        | some a =>
          simp only [Option.getD_some]
          have hj : (((n : Int) - s).toNat : Int) = (n : Int) - s := Int.toNat_of_nonneg hpos
          have hout : ((((n : Int) - s).toNat : Nat) : Int) < i
              ∨ i + (items.length : Int) ≤ ((((n : Int) - s).toNat : Nat) : Int) := by
            by_contra hin
            have := hmiss s rfl ((n : Int) - s).toNat (by omega) (by omega)
            omega
          rw [p3 _ hout] at hw
          have hidx : ((((((n : Int) - s).toNat : Nat) : Int) + s).toNat) = n := by omega
          exact hagree s rfl _ a v (by omega) hw (by rw [hidx]; exact hn)
      · rfl

/-- Counterexample to C14 as stated: `vals = [1 2 3 0]`, a queue (or a list)
made of `vals[:3]`, which the constructor stores without copying, and
`CopyTo(vals, 1)`. The call returns `nil` and the container's items, which
lie in the destination, are `[1 1 2]` afterwards. -/
theorem CopyTo_into_own_array :
    ((NewQueue [1, 2, 3]).CopyTo [1, 2, 3, 0] 1 (some 0)).1 = (none, [1, 1, 2, 3])
    ∧ ((NewQueue [1, 2, 3]).CopyTo [1, 2, 3, 0] 1 (some 0)).2.items = [1, 1, 2]
    ∧ ¬ (((NewQueue [1, 2, 3]).CopyTo [1, 2, 3, 0] 1 (some 0)).1.1 = none →
          ((NewQueue [1, 2, 3]).CopyTo [1, 2, 3, 0] 1 (some 0)).2.items
            = (NewQueue [1, 2, 3]).items)
    ∧ ((NewList [1, 2, 3]).CopyTo [1, 2, 3, 0] 1 (some 0)).1 = (none, [1, 1, 2, 3])
    ∧ ((NewList [1, 2, 3]).CopyTo [1, 2, 3, 0] 1 (some 0)).2.items = [1, 1, 2]
    ∧ ¬ (((NewList [1, 2, 3]).CopyTo [1, 2, 3, 0] 1 (some 0)).1.1 = none →
          ((NewList [1, 2, 3]).CopyTo [1, 2, 3, 0] 1 (some 0)).2.items
            = (NewList [1, 2, 3]).items) := by
  decide

/-- C14, amended. For `List.CopyTo` and `Queue.CopyTo` alike, wherever the
destination lies: whenever the call returns `nil` on a container with `k`
items (and, for the list, `index + k` does not exceed the largest `int`),
the destination keeps its length, `destination[index..index+k)` equals the
items the container held when the call started, in their order, and every
destination position outside that range keeps its previous value. The
container is unchanged when none of its cells lies in
`destination[index..index+k)`, in particular when the destination is in
another array. -/
theorem CopyTo_success_frame {T : Type} (l : List T) (q : Queue T) (array : Slice T)
    (i : Int) (overlap : Option Int) :
    ((l.CopyTo array i overlap).1.1 = none → i + (l.items.length : Int) ≤ maxInt →
        (l.CopyTo array i overlap).1.2.length = array.length
        ∧ ((l.CopyTo array i overlap).1.2.drop i.toNat).take l.items.length = l.items
        ∧ (∀ j : Nat, ((j : Int) < i ∨ i + (l.items.length : Int) ≤ (j : Int)) →
            (l.CopyTo array i overlap).1.2[j]? = array[j]?)
        ∧ (sharedCellsAgree overlap l.items array →
            copiedRangeMissesItems overlap i l.items.length →
            (l.CopyTo array i overlap).2 = l))
    ∧ ((q.CopyTo array i overlap).1.1 = none →
        (q.CopyTo array i overlap).1.2.length = array.length
        ∧ ((q.CopyTo array i overlap).1.2.drop i.toNat).take q.items.length = q.items
        ∧ (∀ j : Nat, ((j : Int) < i ∨ i + (q.items.length : Int) ≤ (j : Int)) →
            (q.CopyTo array i overlap).1.2[j]? = array[j]?)
        ∧ (sharedCellsAgree overlap q.items array →
            copiedRangeMissesItems overlap i q.items.length →
            (q.CopyTo array i overlap).2 = q)) := by
  constructor
  · intro h hsum
    obtain ⟨h0, h1, h2⟩ := (List.list_CopyTo_nil_iff l array i overlap hsum).mp h
    obtain ⟨p1, p2, p3⟩ := copy_into_frame array l.items i h0 h2
    rw [List.list_CopyTo_ok l array i overlap h0 h1 h2 hsum]
    refine ⟨p1, p2, p3, ?_⟩
    intro hagree hmiss
    simp only [sharedView_unchanged overlap l.items array i h0 h2 hagree hmiss]
  · intro h
    obtain ⟨h0, h2⟩ := (Queue.queue_CopyTo_nil_iff q array i overlap).mp h
    obtain ⟨p1, p2, p3⟩ := copy_into_frame array q.items i h0 h2
    rw [Queue.queue_CopyTo_ok q array i overlap h0 h2]
    refine ⟨p1, p2, p3, ?_⟩
    intro hagree hmiss
    simp only [sharedView_unchanged overlap q.items array i h0 h2 hagree hmiss]

/-- Witness for C14, amended: two items copied to index 1 of a destination
of length 4 in another array, from a list and from a queue; and the list
`vals[:2]` of `vals = [1 2 7 7]` copied to index 2 of `vals` itself, which
writes no cell of the list. -/
theorem CopyTo_success_frame_witness :
    ((NewList [1, 2]).CopyTo [7, 7, 7, 7] 1 none).1.1 = none
    ∧ (1 : Int) + (((NewList [1, 2]).items.length : Nat) : Int) ≤ maxInt
    ∧ ((NewQueue [1, 2]).CopyTo [7, 7, 7, 7] 1 none).1.1 = none
    ∧ sharedCellsAgree none (NewList [1, 2]).items [7, 7, 7, 7]
    ∧ copiedRangeMissesItems none 1 (NewList [1, 2]).items.length
    ∧ ((NewList [1, 2]).CopyTo [7, 7, 7, 7] 1 none).1.2.length = 4
    ∧ ((NewQueue [1, 2]).CopyTo [7, 7, 7, 7] 1 none).1.2.length = 4
    ∧ (((NewList [1, 2]).CopyTo [7, 7, 7, 7] 1 none).1.2.drop 1).take 2 = [1, 2]
    ∧ (((NewQueue [1, 2]).CopyTo [7, 7, 7, 7] 1 none).1.2.drop 1).take 2 = [1, 2]
    ∧ ((NewList [1, 2]).CopyTo [7, 7, 7, 7] 1 none).2 = NewList [1, 2]
    ∧ ((NewQueue [1, 2]).CopyTo [7, 7, 7, 7] 1 none).2 = NewQueue [1, 2]
    ∧ sharedCellsAgree (some 0) (NewList [1, 2]).items [1, 2, 7, 7]
    ∧ copiedRangeMissesItems (some 0) 2 (NewList [1, 2]).items.length
    ∧ ((NewList [1, 2]).CopyTo [1, 2, 7, 7] 2 (some 0)).1 = (none, [1, 2, 1, 2])
    ∧ ((NewList [1, 2]).CopyTo [1, 2, 7, 7] 2 (some 0)).2 = NewList [1, 2] :=
  have hl := (CopyTo_success_frame (NewList [1, 2]) (NewQueue [1, 2]) [7, 7, 7, 7] 1 none).1
    (by decide) (by decide)
  have hq := (CopyTo_success_frame (NewList [1, 2]) (NewQueue [1, 2]) [7, 7, 7, 7] 1 none).2
    (by decide)
  have ha : sharedCellsAgree none (NewList [1, 2]).items [7, 7, 7, 7] :=
    fun _ h => by cases h
  have hm : copiedRangeMissesItems none 1 (NewList [1, 2]).items.length :=
    fun _ h => by cases h
  have hs := (CopyTo_success_frame (NewList [1, 2]) (NewQueue [1, 2]) [1, 2, 7, 7] 2
    (some 0)).1 (by decide) (by decide)
  have hsa : sharedCellsAgree (some 0) (NewList [1, 2]).items [1, 2, 7, 7] := by
    intro shift h j a b h0 ha hb
    cases h
    rcases j with _ | _ | j
    · simp [NewList] at ha hb
      omega
    · simp [NewList] at ha hb
      omega
    · have : (NewList [1, 2]).items[(((j + 1 + 1 : Nat) : Int) + 0).toNat]? = none := by
        apply List.getElem?_eq_none
        simp [NewList]
        omega
      rw [this] at hb
      cases hb
  have hsm : copiedRangeMissesItems (some 0) 2 (NewList [1, 2]).items.length := by
    intro shift h j h1 h2
    cases h
    right
    simp [NewList]
    omega
  ⟨by decide, by decide, by decide, ha, hm, hl.1, hq.1, hl.2.1, hq.2.1,
    hl.2.2.2 ha hm, hq.2.2.2 (fun _ h => by cases h) (fun _ h => by cases h),
    hsa, hsm, by decide, hs.2.2.2 hsa hsm⟩

theorem list_queue_CopyTo_agree_in_range {T : Type} (l : List T) (q : Queue T)
    (hq : q.items = l.items) (array : Slice T) (i : Int)
    (hsum : i + (l.items.length : Int) ≤ maxInt) :
    (¬ (i = (array.length : Int) ∧ l.items.length = 0) →
        (l.CopyTo array i none).1 = (q.CopyTo array i none).1)
    ∧ ((i = (array.length : Int) ∧ l.items.length = 0) →
        (q.CopyTo array i none).1 = (none, array)
        ∧ (l.CopyTo array i none).1 = (some Error.ErrIndexOutOfRange, array))
    ∧ (i = (array.length : Int) → (q.CopyTo array i none).1.1 = none →
        q.items.length = 0) := by
  refine ⟨?_, ?_, ?_⟩
  · intro hne
    by_cases hg : 0 ≤ i ∧ i + (l.items.length : Int) ≤ (array.length : Int)
    · have h1 : i < (array.length : Int) := by omega
      rw [List.list_CopyTo_ok l array i none hg.1 h1 hg.2 hsum,
        Queue.queue_CopyTo_ok q array i none hg.1 (by rw [hq]; exact hg.2), hq]
    · rw [List.list_CopyTo_err l array i none (by omega),
        Queue.queue_CopyTo_err q array i none (by rw [hq]; omega)]
  · rintro ⟨hi, hk⟩
    have hk' : q.items.length = 0 := by rw [hq]; exact hk
    constructor
    · rw [Queue.queue_CopyTo_ok q array i none (by omega) (by omega)]
      have hq0 : q.items = [] := List.length_eq_zero.mp hk'
      have hn : i.toNat = array.length := by omega
      simp [hq0, hn, copy]
    · rw [List.list_CopyTo_err l array i none (by omega)]
  · intro hi hs
    have := ((Queue.queue_CopyTo_nil_iff q array i none).mp hs).2
    omega

/-- C15, evaluated where it fails: a list and a queue that both hold `2^62`
values of the zero-size type `struct{}`, a destination of `2^62 + 1` of them
and index `2^62`. The index is not the length of the destination and the
containers are not empty, yet the two disagree: `Queue.CopyTo`, which
subtracts, fails with `ErrIndexOutOfRange`; `List.CopyTo`, whose sum wraps to
`-2^63`, returns `nil`. -/
theorem CopyTo_list_queue_differ_on_wrap :
    (NewQueue (List.replicate 4611686018427387904 ())).items
        = (NewList (List.replicate 4611686018427387904 ())).items
    ∧ ¬ ((4611686018427387904 : Int)
            = (((List.replicate 4611686018427387905 ()).length : Nat) : Int)
          ∧ (NewList (List.replicate 4611686018427387904 ())).items.length = 0)
    ∧ ((NewQueue (List.replicate 4611686018427387904 ())).CopyTo
          (List.replicate 4611686018427387905 ()) 4611686018427387904 none).1.1
        = some Error.ErrIndexOutOfRange
    ∧ ((NewList (List.replicate 4611686018427387904 ())).CopyTo
          (List.replicate 4611686018427387905 ()) 4611686018427387904 none).1.1 = none := by
  have hk : (NewList (List.replicate 4611686018427387904 ())).items.length
      = 4611686018427387904 :=
    List.length_replicate _ _
  have hkq : (NewQueue (List.replicate 4611686018427387904 ())).items.length
      = 4611686018427387904 :=
    List.length_replicate _ _
  have hd : (List.replicate 4611686018427387905 ()).length = 4611686018427387905 :=
    List.length_replicate _ _
  have hw : wrapInt ((4611686018427387904 : Int) + ((4611686018427387904 : Nat) : Int))
      = -9223372036854775808 := by
    decide
  refine ⟨rfl, ?_, ?_, ?_⟩
  · rw [hd]
    intro h
    exact absurd h.1 (by decide)
  · rw [Queue.queue_CopyTo_err]
    right
    rw [hkq, hd]
    decide
  · apply List.list_CopyTo_wrapped
    · decide
    · rw [hd]
      decide
    · rw [hk, hd, hw]
      decide

/-! ## Get and Set -/

theorem List.Set_ok {T : Type} (l : List T) (i : Int) (v : T)
    (h0 : 0 ≤ i) (h1 : i < (l.items.length : Int)) :
    l.Set i v = (none, { l with items := l.items.set i.toNat v }) := by
  have hc : ¬ (i < 0 ∨ i ≥ (l.items.length : Int)) := by omega
  simp only [List.Set, if_neg hc]

/-- C16. For a list with items `xs` and an index `0 <= i < len(xs)`,
`Set(i, v)` returns `nil`; afterwards the list has the same length, position
`i` holds `v` and every other position holds the element it held before. The
comparer is untouched. -/
theorem List.Set_in_range {T : Type} (l : List T) (i : Int) (v : T)
    (h0 : 0 ≤ i) (h1 : i < (l.items.length : Int)) :
    (l.Set i v).1 = none
    ∧ (l.Set i v).2.items.length = l.items.length
    ∧ (l.Set i v).2.items[i.toNat]? = some v
    ∧ (∀ j : Nat, (j : Int) ≠ i → (l.Set i v).2.items[j]? = l.items[j]?)
    ∧ (l.Set i v).2.comparer = l.comparer := by
  have hn : i.toNat < l.items.length := by omega
  rw [List.Set_ok l i v h0 h1]
  refine ⟨rfl, by simp, ?_, ?_, rfl⟩
  · exact List.getElem?_set_self hn
  · intro j hj
    have hne : i.toNat ≠ j := by omega
    exact List.getElem?_set_ne hne

/-- Witness for C16: `List(1,2,3).Set(1,4)`. -/
theorem List.Set_in_range_witness :
    (0 : Int) ≤ 1 ∧ (1 : Int) < (((NewList [1, 2, 3]).items.length : Nat) : Int)
    ∧ ((NewList [1, 2, 3]).Set 1 4).1 = none
    ∧ ((NewList [1, 2, 3]).Set 1 4).2.items.length = (NewList [1, 2, 3]).items.length
    ∧ ((NewList [1, 2, 3]).Set 1 4).2.items = [1, 4, 3] := by
  have h := List.Set_in_range (NewList [1, 2, 3]) 1 4 (by decide) (by decide)
  exact ⟨by decide, by decide, h.1, h.2.1, by decide⟩

/-- C17. `Get(i)` returns a `nil` error if and only if `0 <= i < length`, and
then the value returned is exactly the element stored at position `i`; `Get`
leaves the list as it was. -/
theorem List.Get_in_range_iff {T : Type} [Inhabited T] (l : List T) (i : Int) :
    ((l.Get i).1.2 = none ↔ (0 ≤ i ∧ i < (l.items.length : Int)))
    ∧ ((0 ≤ i ∧ i < (l.items.length : Int)) →
        l.items[i.toNat]? = some (l.Get i).1.1 ∧ (l.Get i).1.2 = none)
    ∧ (l.Get i).2 = l := by
  by_cases hc : i < 0 ∨ i ≥ (l.items.length : Int)
  · have hg : l.Get i = ((default, some Error.ErrIndexOutOfRange), l) := by
      simp only [List.Get, dif_pos hc]
    rw [hg]
    refine ⟨?_, ?_, rfl⟩
    · constructor
      · intro h; cases h
      · intro h; omega
    · intro h; omega
  · have hn : i.toNat < l.items.length := by omega
    have hg : l.Get i = ((l.items.get ⟨i.toNat, hn⟩, none), l) := by
      simp only [List.Get, dif_neg hc]
    rw [hg]
    refine ⟨?_, ?_, rfl⟩
    · constructor
      · intro _; omega
      · intro _; rfl
    · intro _
      exact ⟨by simp [List.getElem?_eq_getElem hn], rfl⟩

/-- Witness for C17: `List(1,2,3).Get(1)` is 2. -/
theorem List.Get_in_range_iff_witness :
    ((0 : Int) ≤ 1 ∧ (1 : Int) < (((NewList [1, 2, 3]).items.length : Nat) : Int))
    ∧ (NewList [1, 2, 3]).items[(1 : Int).toNat]? = some ((NewList [1, 2, 3]).Get 1).1.1
    ∧ ((NewList [1, 2, 3]).Get 1).1 = (2, none) := by
  have h := (List.Get_in_range_iff (NewList [1, 2, 3]) 1).2.1 (by decide)
  exact ⟨by decide, h.1, by decide⟩

/-! ## Failing reads, Pop and Peek -/

theorem Stack.Pop_empty {T : Type} [Inhabited T] (s : Stack T) (h : s.items = []) :
    s.Pop = ((default, some Error.ErrEmptyStack), s) := by
  have h0 : s.items.length = 0 := by rw [h]; rfl
  simp only [Stack.Pop, dif_pos h0]

theorem Stack.Pop_nonempty {T : Type} [Inhabited T] (s : Stack T) (h : s.items ≠ []) :
    (s.Pop).1.2 = none
    ∧ s.items.getLast? = some (s.Pop).1.1
    ∧ (s.Pop).2.items = s.items.dropLast := by
  have h0 : ¬ s.items.length = 0 := fun hl => h (List.length_eq_zero.mp hl)
  have hlt : s.items.length - 1 < s.items.length := by omega
  have hp : s.Pop = ((s.items.get ⟨s.items.length - 1, hlt⟩, none),
      { items := s.items.take (s.items.length - 1) }) := by
    simp only [Stack.Pop, dif_neg h0]
  rw [hp]
  refine ⟨rfl, ?_, ?_⟩
  · rw [List.getLast?_eq_getElem?]
    simp [List.getElem?_eq_getElem hlt]
  · exact (List.dropLast_eq_take s.items).symm

theorem Stack.stack_Peek_empty {T : Type} [Inhabited T] (s : Stack T) (h : s.items = []) :
    s.Peek = ((default, some Error.ErrEmptyStack), s) := by
  have h0 : s.items.length = 0 := by rw [h]; rfl
  simp only [Stack.Peek, dif_pos h0]

theorem Stack.Peek_nonempty {T : Type} [Inhabited T] (s : Stack T) (h : s.items ≠ []) :
    (s.Peek).1.2 = none
    ∧ s.items.getLast? = some (s.Peek).1.1
    ∧ (s.Peek).2 = s := by
  have h0 : ¬ s.items.length = 0 := fun hl => h (List.length_eq_zero.mp hl)
  have hlt : s.items.length - 1 < s.items.length := by omega
  have hp : s.Peek = ((s.items.get ⟨s.items.length - 1, hlt⟩, none), s) := by
    simp only [Stack.Peek, dif_neg h0]
  rw [hp]
  refine ⟨rfl, ?_, rfl⟩
  rw [List.getLast?_eq_getElem?]
  simp [List.getElem?_eq_getElem hlt]

theorem Queue.Dequeue_empty {T : Type} [Inhabited T] (q : Queue T) (h : q.items = []) :
    q.Dequeue = ((default, some Error.ErrEmptyQueue), q) := by
  have h0 : q.items.length = 0 := by rw [h]; rfl
  simp only [Queue.Dequeue, dif_pos h0]

theorem Queue.queue_Peek_empty {T : Type} [Inhabited T] (q : Queue T) (h : q.items = []) :
    q.Peek = ((default, some Error.ErrEmptyQueue), q) := by
  have h0 : q.items.length = 0 := by rw [h]; rfl
  simp only [Queue.Peek, dif_pos h0]

/-- C18. Every value-returning operation that fails returns the zero value
of the element type together with its non-nil error: `List.Get` with an
index out of range, `Stack.Pop` and `Stack.Peek` on an empty stack,
`Queue.Dequeue` and `Queue.Peek` on an empty queue. More generally, whenever
one of the five returns a non-nil error the value beside it is the zero
value. -/
theorem zero_value_on_failure {T : Type} [Inhabited T] (l : List T) (s : Stack T)
    (q : Queue T) (i : Int) :
    ((i < 0 ∨ i ≥ (l.items.length : Int)) →
        (l.Get i).1 = (default, some Error.ErrIndexOutOfRange))
    ∧ (s.items = [] →
        (s.Pop).1 = (default, some Error.ErrEmptyStack)
        ∧ (s.Peek).1 = (default, some Error.ErrEmptyStack))
    ∧ (q.items = [] →
        (q.Dequeue).1 = (default, some Error.ErrEmptyQueue)
        ∧ (q.Peek).1 = (default, some Error.ErrEmptyQueue))
    ∧ ((l.Get i).1.2 ≠ none → (l.Get i).1.1 = default)
    ∧ ((s.Pop).1.2 ≠ none → (s.Pop).1.1 = default)
    ∧ ((s.Peek).1.2 ≠ none → (s.Peek).1.1 = default)
    ∧ ((q.Dequeue).1.2 ≠ none → (q.Dequeue).1.1 = default)
    ∧ ((q.Peek).1.2 ≠ none → (q.Peek).1.1 = default) := by
  refine ⟨?_, ?_, ?_, ?_, ?_, ?_, ?_, ?_⟩
  · intro h
    simp only [List.Get, dif_pos h]
  · intro h
    rw [Stack.Pop_empty s h, Stack.stack_Peek_empty s h]
    exact ⟨rfl, rfl⟩
  · intro h
    rw [Queue.Dequeue_empty q h, Queue.queue_Peek_empty q h]
    exact ⟨rfl, rfl⟩
  · intro h
    by_cases hc : i < 0 ∨ i ≥ (l.items.length : Int)
    · simp only [List.Get, dif_pos hc]
    · exact absurd (by simp only [List.Get, dif_neg hc]) h
  · intro h
    by_cases hc : s.items.length = 0
    · simp only [Stack.Pop, dif_pos hc]
    · exact absurd (by simp only [Stack.Pop, dif_neg hc]) h
  · intro h
    by_cases hc : s.items.length = 0
    · simp only [Stack.Peek, dif_pos hc]
    · exact absurd (by simp only [Stack.Peek, dif_neg hc]) h
  · intro h
    by_cases hc : q.items.length = 0
    · simp only [Queue.Dequeue, dif_pos hc]
    · exact absurd (by simp only [Queue.Dequeue, dif_neg hc]) h
  · intro h
    by_cases hc : q.items.length = 0
    · simp only [Queue.Peek, dif_pos hc]
    · exact absurd (by simp only [Queue.Peek, dif_neg hc]) h

/-- Witness for C18: `Get(5)` on `List(1,2,3)`, and `Pop`, `Peek`, `Dequeue`,
`Peek` on empty containers of integers: each value is 0. -/
theorem zero_value_on_failure_witness :
    ((5 : Int) < 0 ∨ (5 : Int) ≥ (((NewList [1, 2, 3]).items.length : Nat) : Int))
    ∧ (NewStack ([] : Slice Nat)).items = []
    ∧ (NewQueue ([] : Slice Nat)).items = []
    ∧ ((NewList [1, 2, 3]).Get 5).1 = (0, some Error.ErrIndexOutOfRange)
    ∧ ((NewStack ([] : Slice Nat)).Pop).1 = (0, some Error.ErrEmptyStack)
    ∧ ((NewStack ([] : Slice Nat)).Peek).1 = (0, some Error.ErrEmptyStack)
    ∧ ((NewQueue ([] : Slice Nat)).Dequeue).1 = (0, some Error.ErrEmptyQueue)
    ∧ ((NewQueue ([] : Slice Nat)).Peek).1 = (0, some Error.ErrEmptyQueue) :=
  ⟨by decide, rfl, rfl,
    (zero_value_on_failure (NewList [1, 2, 3]) (NewStack []) (NewQueue []) 5).1 (by decide),
    ((zero_value_on_failure (NewList [1, 2, 3]) (NewStack []) (NewQueue []) 5).2.1 rfl).1,
    ((zero_value_on_failure (NewList [1, 2, 3]) (NewStack []) (NewQueue []) 5).2.1 rfl).2,
    ((zero_value_on_failure (NewList [1, 2, 3]) (NewStack []) (NewQueue []) 5).2.2.1 rfl).1,
    ((zero_value_on_failure (NewList [1, 2, 3]) (NewStack []) (NewQueue []) 5).2.2.1 rfl).2⟩

/-- C19. `Stack.Pop` fails with `ErrEmptyStack` if and only if the stack has
no elements, and then leaves the stack unchanged; otherwise it returns the
last element of the items with a `nil` error and the items become the old
items without their last element. -/
theorem Stack.Pop_spec {T : Type} [Inhabited T] (s : Stack T) :
    ((s.Pop).1.2 = some Error.ErrEmptyStack ↔ s.items = [])
    ∧ (s.items = [] → (s.Pop).2 = s)
    ∧ (s.items ≠ [] →
        (s.Pop).1.2 = none
        ∧ s.items.getLast? = some (s.Pop).1.1
        ∧ (s.Pop).2.items = s.items.dropLast) := by
  refine ⟨?_, ?_, Stack.Pop_nonempty s⟩
  · constructor
    · intro h
      by_contra hne
      rw [(Stack.Pop_nonempty s hne).1] at h
      cases h
    · intro h
      rw [Stack.Pop_empty s h]
  · intro h
    rw [Stack.Pop_empty s h]

/-- Witness for C19: `Pop` on the stack `1,2,3` returns 3 and leaves `1,2`;
`Pop` on the empty stack leaves it empty. -/
theorem Stack.Pop_spec_witness :
    (NewStack [1, 2, 3]).items ≠ []
    ∧ (NewStack ([] : Slice Nat)).items = []
    ∧ ((NewStack [1, 2, 3]).Pop).1.2 = none
    ∧ (NewStack [1, 2, 3]).items.getLast? = some ((NewStack [1, 2, 3]).Pop).1.1
    ∧ ((NewStack [1, 2, 3]).Pop).2.items = [1, 2]
    ∧ ((NewStack ([] : Slice Nat)).Pop).2 = NewStack [] := by
  have h := (Stack.Pop_spec (NewStack [1, 2, 3])).2.2 (by decide)
  exact ⟨by decide, rfl, h.1, h.2.1, by rw [h.2.2]; decide,
    (Stack.Pop_spec (NewStack ([] : Slice Nat))).2.1 rfl⟩

/-- C20. `Stack.Peek` fails with `ErrEmptyStack` if and only if the stack has
no elements; otherwise it returns the last element of the items with a `nil`
error. What `Peek` returns is what the next `Pop` returns, and in both cases
`Peek` leaves the stack as it was. -/
theorem Stack.Peek_spec {T : Type} [Inhabited T] (s : Stack T) :
    ((s.Peek).1.2 = some Error.ErrEmptyStack ↔ s.items = [])
    ∧ (s.items ≠ [] → (s.Peek).1.2 = none ∧ s.items.getLast? = some (s.Peek).1.1)
    ∧ ((s.Peek).2.Pop).1 = (s.Peek).1
    ∧ (s.Peek).2 = s := by
  by_cases he : s.items = []
  · rw [Stack.stack_Peek_empty s he]
    refine ⟨⟨fun _ => he, fun _ => rfl⟩, fun hne => absurd he hne, ?_, rfl⟩
    rw [Stack.Pop_empty s he]
  · obtain ⟨p1, p2, p3⟩ := Stack.Peek_nonempty s he
    obtain ⟨q1, q2, _⟩ := Stack.Pop_nonempty s he
    refine ⟨?_, fun _ => ⟨p1, p2⟩, ?_, p3⟩
    · constructor
      · intro h
        rw [p1] at h
        cases h
      · intro h
        exact absurd h he
    · rw [p3]
      have hv : (s.Pop).1.1 = (s.Peek).1.1 := by
        have := q2.symm.trans p2
        exact Option.some.inj this
      exact Prod.ext hv (q1.trans p1.symm)

/-- Witness for C20: `Peek` on the stack `1,2,3` returns 3 with a `nil`
error. -/
theorem Stack.Peek_spec_witness :
    (NewStack [1, 2, 3]).items ≠ []
    ∧ ((NewStack [1, 2, 3]).Peek).1.2 = none
    ∧ (NewStack [1, 2, 3]).items.getLast? = some ((NewStack [1, 2, 3]).Peek).1.1
    ∧ ((NewStack [1, 2, 3]).Peek).1 = (3, none) := by
  have h := (Stack.Peek_spec (NewStack [1, 2, 3])).2.1 (by decide)
  exact ⟨by decide, h.1, h.2, by decide⟩

/-! ## Dequeue and queue Peek -/

theorem head?_eq_get_zero {T : Type} (xs : Slice T) (h : 0 < xs.length) :
    xs.head? = some (xs.get ⟨0, h⟩) := by
  cases xs with
  | nil => simp at h
  | cons x rest => rfl

theorem Queue.Dequeue_nonempty {T : Type} [Inhabited T] (q : Queue T) (h : q.items ≠ []) :
    (q.Dequeue).1.2 = none
    ∧ q.items.head? = some (q.Dequeue).1.1
    ∧ (q.Dequeue).2.items = q.items.tail := by
  have h0 : ¬ q.items.length = 0 := fun hl => h (List.length_eq_zero.mp hl)
  have hlt : 0 < q.items.length := by omega
  have hp : q.Dequeue = ((q.items.get ⟨0, hlt⟩, none), { items := q.items.drop 1 }) := by
    simp only [Queue.Dequeue, dif_neg h0]
  rw [hp]
  exact ⟨rfl, head?_eq_get_zero q.items hlt, by simp⟩

theorem Queue.queue_Peek_nonempty {T : Type} [Inhabited T] (q : Queue T) (h : q.items ≠ []) :
    (q.Peek).1.2 = none
    ∧ q.items.head? = some (q.Peek).1.1
    ∧ (q.Peek).2 = q := by
  have h0 : ¬ q.items.length = 0 := fun hl => h (List.length_eq_zero.mp hl)
  have hlt : 0 < q.items.length := by omega
  have hp : q.Peek = ((q.items.get ⟨0, hlt⟩, none), q) := by
    simp only [Queue.Peek, dif_neg h0]
  rw [hp]
  exact ⟨rfl, head?_eq_get_zero q.items hlt, rfl⟩

/-- C21. `Queue.Dequeue` fails with `ErrEmptyQueue` if and only if the queue
has no elements, and then leaves the queue unchanged; otherwise it returns
the first element of the items with a `nil` error and the items become the
old items without their first element, in the same order. -/
theorem Queue.Dequeue_spec {T : Type} [Inhabited T] (q : Queue T) :
    ((q.Dequeue).1.2 = some Error.ErrEmptyQueue ↔ q.items = [])
    ∧ (q.items = [] → (q.Dequeue).2 = q)
    ∧ (q.items ≠ [] →
        (q.Dequeue).1.2 = none
        ∧ q.items.head? = some (q.Dequeue).1.1
        ∧ (q.Dequeue).2.items = q.items.tail)
    ∧ (∀ (x : T) (rest : Slice T), q.items = x :: rest →
        q.Dequeue = ((x, none), { items := rest })) := by
  refine ⟨?_, ?_, Queue.Dequeue_nonempty q, ?_⟩
  · constructor
    · intro h
      by_contra hne
      rw [(Queue.Dequeue_nonempty q hne).1] at h
      cases h
    · intro h
      rw [Queue.Dequeue_empty q h]
  · intro h
    rw [Queue.Dequeue_empty q h]
  · intro x rest hq
    have h0 : ¬ q.items.length = 0 := by rw [hq]; simp
    simp only [Queue.Dequeue, dif_neg h0]
    simp [hq]

/-- Witness for C21: `Dequeue` on the queue `1,2,3` returns 1 and leaves
`2,3`; `Dequeue` on the empty queue leaves it empty. -/
theorem Queue.Dequeue_spec_witness :
    (NewQueue [1, 2, 3]).items ≠ []
    ∧ (NewQueue ([] : Slice Nat)).items = []
    ∧ (NewQueue [1, 2, 3]).items = 1 :: [2, 3]
    ∧ ((NewQueue [1, 2, 3]).Dequeue).1.2 = none
    ∧ (NewQueue [1, 2, 3]).items.head? = some ((NewQueue [1, 2, 3]).Dequeue).1.1
    ∧ (NewQueue [1, 2, 3]).Dequeue = ((1, none), { items := [2, 3] })
    ∧ ((NewQueue ([] : Slice Nat)).Dequeue).2 = NewQueue [] := by
  have h := (Queue.Dequeue_spec (NewQueue [1, 2, 3])).2.2.1 (by decide)
  exact ⟨by decide, rfl, rfl, h.1, h.2.1,
    (Queue.Dequeue_spec (NewQueue [1, 2, 3])).2.2.2 1 [2, 3] rfl,
    (Queue.Dequeue_spec (NewQueue ([] : Slice Nat))).2.1 rfl⟩

/-- C22. `Queue.Peek` fails with `ErrEmptyQueue` if and only if the queue has
no elements; otherwise it returns the first element of the items with a `nil`
error. What `Peek` returns is what the next `Dequeue` returns, and in both
cases `Peek` leaves the queue as it was. -/
theorem Queue.Peek_front_spec {T : Type} [Inhabited T] (q : Queue T) :
    ((q.Peek).1.2 = some Error.ErrEmptyQueue ↔ q.items = [])
    ∧ (q.items ≠ [] → (q.Peek).1.2 = none ∧ q.items.head? = some (q.Peek).1.1)
    ∧ ((q.Peek).2.Dequeue).1 = (q.Peek).1
    ∧ (q.Peek).2 = q := by
  by_cases he : q.items = []
  · rw [Queue.queue_Peek_empty q he]
    refine ⟨⟨fun _ => he, fun _ => rfl⟩, fun hne => absurd he hne, ?_, rfl⟩
    rw [Queue.Dequeue_empty q he]
  · obtain ⟨p1, p2, p3⟩ := Queue.queue_Peek_nonempty q he
    obtain ⟨q1, q2, _⟩ := Queue.Dequeue_nonempty q he
    refine ⟨?_, fun _ => ⟨p1, p2⟩, ?_, p3⟩
    · constructor
      · intro h
        rw [p1] at h
        cases h
      · intro h
        exact absurd h he
    · rw [p3]
      have hv : (q.Dequeue).1.1 = (q.Peek).1.1 :=
        Option.some.inj (q2.symm.trans p2)
      exact Prod.ext hv (q1.trans p1.symm)

/-- Witness for C22: `Peek` on the queue `1,2,3` returns 1 with a `nil`
error. -/
theorem Queue.Peek_front_spec_witness :
    (NewQueue [1, 2, 3]).items ≠ []
    ∧ ((NewQueue [1, 2, 3]).Peek).1.2 = none
    ∧ (NewQueue [1, 2, 3]).items.head? = some ((NewQueue [1, 2, 3]).Peek).1.1
    ∧ ((NewQueue [1, 2, 3]).Peek).1 = (1, none) := by
  have h := (Queue.Peek_front_spec (NewQueue [1, 2, 3])).2.1 (by decide)
  exact ⟨by decide, h.1, h.2, by decide⟩

/-! ## AddRange, Clear, Size and IsEmpty -/

theorem List.addAll_eq {T : Type} (ys : Slice T) (l : List T) :
    l.addAll ys = { l with items := l.items ++ ys } := by
  induction ys generalizing l with
  | nil => simp [List.addAll]
  | cons y ys ih => simp [List.addAll, ih, List.Add]

/-- C23. `AddRange(ys...)` makes the items exactly the old items followed by
`ys` in the given order and touches nothing else; it gives the same list as
calling `Add` on each element of `ys` in order, and `AddRange` with no
arguments leaves the list unchanged. -/
theorem List.AddRange_appends {T : Type} (l : List T) (ys : Slice T) :
    (l.AddRange ys).items = l.items ++ ys
    ∧ (l.AddRange ys).comparer = l.comparer
    ∧ l.AddRange ys = l.addAll ys
    ∧ l.AddRange [] = l := by
  refine ⟨rfl, rfl, ?_, ?_⟩
  · rw [List.addAll_eq]
    rfl
  · simp [List.AddRange]

/-- C24. `Clear` returns no error and leaves a list or a queue with zero
elements: afterwards, for every item and index, a list's `Contains` returns
false, `IndexOf` and `LastIndexOf` return -1 and `Get` fails with
`ErrIndexOutOfRange`; a queue's `Size` is 0, `IsEmpty` is true and `Dequeue`
and `Peek` fail with `ErrEmptyQueue`. -/
theorem Clear_empties {T : Type} [Inhabited T] (l : List T) (q : Queue T) (x : T) (i : Int) :
    (l.Clear).items = []
    ∧ (l.Clear).comparer = l.comparer
    ∧ ((l.Clear).Contains x).1 = Outcome.ok false
    ∧ ((l.Clear).IndexOf x).1 = Outcome.ok (-1)
    ∧ ((l.Clear).LastIndexOf x).1 = Outcome.ok (-1)
    ∧ ((l.Clear).Get i).1 = (default, some Error.ErrIndexOutOfRange)
    ∧ (q.Clear).items = []
    ∧ ((q.Clear).Size).1 = 0
    ∧ ((q.Clear).IsEmpty).1 = true
    ∧ ((q.Clear).Dequeue).1 = (default, some Error.ErrEmptyQueue)
    ∧ ((q.Clear).Peek).1 = (default, some Error.ErrEmptyQueue) := by
  have hi : ((l.Clear).IndexOf x).1 = Outcome.ok (-1) := by
    simp [List.IndexOf, List.Clear, List.indexOfLoop]
  have hI := List.IndexOf_eq (l.Clear) x _ hi
  have hg : i < 0 ∨ i ≥ (((l.Clear).items.length : Nat) : Int) := by
    have : (l.Clear).items.length = 0 := rfl
    omega
  refine ⟨rfl, rfl, ?_, hi, ?_, ?_, rfl, rfl, rfl, ?_, ?_⟩
  · simp only [List.Contains, hI]
    simp
  · simp [List.LastIndexOf, List.Clear, List.lastIndexOfLoop]
  · simp only [List.Get, dif_pos hg]
  · rw [Queue.Dequeue_empty (q.Clear) rfl]
  · rw [Queue.queue_Peek_empty (q.Clear) rfl]

/-- C25. For a stack and a queue alike: `Size` returns the number of stored
elements and `IsEmpty` returns true if and only if `Size` is 0; `Push` and
`Enqueue` increase `Size` by exactly 1, a successful `Pop` or `Dequeue`
decreases it by exactly 1, and `Peek`, `Size`, `IsEmpty` and `String` leave
the container, hence its size, unchanged. -/
theorem Size_and_IsEmpty {T : Type} [Inhabited T] (s : Stack T) (q : Queue T) (x : T)
    (fmtV : T → String) :
    ((s.Size).1 = (s.items.length : Int)
      ∧ ((s.IsEmpty).1 = true ↔ (s.Size).1 = 0)
      ∧ ((s.Push x).Size).1 = (s.Size).1 + 1
      ∧ ((s.Pop).1.2 = none → ((s.Pop).2.Size).1 = (s.Size).1 - 1)
      ∧ (s.Peek).2 = s ∧ (s.Size).2 = s ∧ (s.IsEmpty).2 = s ∧ (s.String fmtV).2 = s)
    ∧ ((q.Size).1 = (q.items.length : Int)
      ∧ ((q.IsEmpty).1 = true ↔ (q.Size).1 = 0)
      ∧ ((q.Enqueue x).Size).1 = (q.Size).1 + 1
      ∧ ((q.Dequeue).1.2 = none → ((q.Dequeue).2.Size).1 = (q.Size).1 - 1)
      ∧ (q.Peek).2 = q ∧ (q.Size).2 = q ∧ (q.IsEmpty).2 = q ∧ (q.String fmtV).2 = q) := by
  constructor
  · refine ⟨rfl, ?_, ?_, ?_, ?_, rfl, rfl, rfl⟩
    · simp [Stack.IsEmpty, Stack.Size]
    · simp [Stack.Push, Stack.Size]
    · intro h
      by_cases he : s.items = []
      · rw [Stack.Pop_empty s he] at h
        cases h
      · have h3 := (Stack.Pop_nonempty s he).2.2
        have hl : 0 < s.items.length := List.length_pos.mpr he
        simp only [Stack.Size, h3, List.length_dropLast]
        omega
    · by_cases he : s.items = []
      · rw [Stack.stack_Peek_empty s he]
      · exact (Stack.Peek_nonempty s he).2.2
  · refine ⟨rfl, ?_, ?_, ?_, ?_, rfl, rfl, rfl⟩
    · simp [Queue.IsEmpty, Queue.Size]
    · simp [Queue.Enqueue, Queue.Size]
    · intro h
      by_cases he : q.items = []
      · rw [Queue.Dequeue_empty q he] at h
        cases h
      · have h3 := (Queue.Dequeue_nonempty q he).2.2
        have hl : 0 < q.items.length := List.length_pos.mpr he
        simp only [Queue.Size, h3, List.length_tail]
        omega
    · by_cases he : q.items = []
      · rw [Queue.queue_Peek_empty q he]
      · exact (Queue.queue_Peek_nonempty q he).2.2

/-- Witness for C25: a successful `Pop` on the stack `1,2,3` and a successful
`Dequeue` on the queue `1,2,3` leave size 2. -/
theorem Size_and_IsEmpty_witness :
    ((NewStack [1, 2, 3]).Pop).1.2 = none
    ∧ ((NewQueue [1, 2, 3]).Dequeue).1.2 = none
    ∧ (((NewStack [1, 2, 3]).Pop).2.Size).1 = ((NewStack [1, 2, 3]).Size).1 - 1
    ∧ (((NewQueue [1, 2, 3]).Dequeue).2.Size).1 = ((NewQueue [1, 2, 3]).Size).1 - 1 :=
  ⟨by decide, by decide,
    (Size_and_IsEmpty (NewStack [1, 2, 3]) (NewQueue [1, 2, 3]) 0
      (fun n => toString n)).1.2.2.2.1 (by decide),
    (Size_and_IsEmpty (NewStack [1, 2, 3]) (NewQueue [1, 2, 3]) 0
      (fun n => toString n)).2.2.2.2.1 (by decide)⟩

/-! ## Constructors -/

theorem List.Get_nat {T : Type} [Inhabited T] (l : List T) (n : Nat)
    (h : n < l.items.length) :
    l.Get (n : Int) = ((l.items.get ⟨n, h⟩, none), l) := by
  have hc : ¬ ((n : Int) < 0 ∨ (n : Int) ≥ (l.items.length : Int)) := by omega
  simp only [List.Get, dif_neg hc, Int.toNat_ofNat]

/-- C26. Every constructor, thread-safe or not, returns a container whose
items are exactly the given values `vs` in the given order. Hence, when `vs`
is not empty, the first `Pop` of the new stack returns the last value and the
first `Dequeue` of the new queue returns the first value, and `Get(i)` on the
new list returns `vs[i]` for every valid `i`. -/
theorem constructors_hold_values {T : Type} [Inhabited T] [BEq T] (vs : Slice T)
    (c : Option (EqualityComparer T)) :
    ((NewList vs).items = vs
      ∧ (NewListWithEqualityComparer c vs).items = vs
      ∧ (NewStack vs).items = vs
      ∧ (NewQueue vs).items = vs
      ∧ (NewConcurrentList vs).items = vs
      ∧ (NewConcurrentListWithComparer c vs).items = vs
      ∧ (NewConcurrentStack vs).items = vs
      ∧ (NewConcurrentQueue vs).items = vs)
    ∧ (vs ≠ [] →
        ((NewStack vs).Pop).1.2 = none ∧ vs.getLast? = some ((NewStack vs).Pop).1.1)
    ∧ (vs ≠ [] →
        ((NewQueue vs).Dequeue).1.2 = none ∧ vs.head? = some ((NewQueue vs).Dequeue).1.1)
    ∧ (∀ i : Nat, i < vs.length →
        ((NewList vs).Get (i : Int)).1.2 = none
        ∧ vs[i]? = some ((NewList vs).Get (i : Int)).1.1
        ∧ ((NewListWithEqualityComparer c vs).Get (i : Int)).1.2 = none
        ∧ vs[i]? = some ((NewListWithEqualityComparer c vs).Get (i : Int)).1.1) := by
  refine ⟨⟨rfl, rfl, rfl, rfl, rfl, rfl, rfl, rfl⟩, ?_, ?_, ?_⟩
  · intro h
    have hp := Stack.Pop_nonempty (NewStack vs) h
    exact ⟨hp.1, hp.2.1⟩
  · intro h
    have hp := Queue.Dequeue_nonempty (NewQueue vs) h
    exact ⟨hp.1, hp.2.1⟩
  · intro i hi
    have h1 := List.Get_nat (NewList vs) i hi
    have h2 := List.Get_nat (NewListWithEqualityComparer c vs) i hi
    have hv : vs[i]? = some (vs.get ⟨i, hi⟩) := by
      simp [List.getElem?_eq_getElem hi]
    rw [h1, h2]
    exact ⟨rfl, hv, rfl, hv⟩

/-- Witness for C26: the constructors applied to `1,2,3`. -/
theorem constructors_hold_values_witness :
    ([1, 2, 3] : Slice Nat) ≠ []
    ∧ (1 : Nat) < ([1, 2, 3] : Slice Nat).length
    ∧ ((NewStack [1, 2, 3]).Pop).1 = (3, none)
    ∧ ([1, 2, 3] : Slice Nat).getLast? = some ((NewStack [1, 2, 3]).Pop).1.1
    ∧ ([1, 2, 3] : Slice Nat).head? = some ((NewQueue [1, 2, 3]).Dequeue).1.1
    ∧ ([1, 2, 3] : Slice Nat)[1]? = some ((NewList [1, 2, 3]).Get ((1 : Nat) : Int)).1.1 := by
  have h := constructors_hold_values ([1, 2, 3] : Slice Nat) none
  exact ⟨by decide, by decide, by decide, (h.2.1 (by decide)).2, (h.2.2.1 (by decide)).2,
    (h.2.2.2 1 (by decide)).2.1⟩

/-- Every operation of `List` leaves the comparer field as it was, and
`NewList` installs `DefaultEqualityComparer`. -/
theorem list_comparer_unchanged {T : Type} [Inhabited T] (l : List T) (x : T) (i : Int)
    (ys array : Slice T) (fmtV : T → String) (overlap : Option Int) :
    (l.Add x).comparer = l.comparer
    ∧ (l.AddRange ys).comparer = l.comparer
    ∧ (l.Insert i x).2.comparer = l.comparer
    ∧ (l.Remove x).2.comparer = l.comparer
    ∧ (l.RemoveAt i).2.comparer = l.comparer
    ∧ (l.Clear).comparer = l.comparer
    ∧ (l.Contains x).2.comparer = l.comparer
    ∧ (l.IndexOf x).2.comparer = l.comparer
    ∧ (l.LastIndexOf x).2.comparer = l.comparer
    ∧ (l.CopyTo array i overlap).2.comparer = l.comparer
    ∧ (l.Get i).2.comparer = l.comparer
    ∧ (l.Set i x).2.comparer = l.comparer
    ∧ (l.String fmtV).2.comparer = l.comparer := by
  have hRA : ∀ j : Int, (l.RemoveAt j).2.comparer = l.comparer := by
    intro j
    unfold List.RemoveAt
    split <;> rfl
  refine ⟨rfl, rfl, ?_, ?_, hRA i, rfl, ?_, rfl, rfl, ?_, ?_, ?_, rfl⟩
  · unfold List.Insert
    split <;> rfl
  · unfold List.Remove
    simp only [List.IndexOf]
    split
    · rfl
    · split
      · rfl
      · split
        · exact hRA _
        · exact hRA _
  · unfold List.Contains
    simp only [List.IndexOf]
    split <;> rfl
  · unfold List.CopyTo
    split
    · rfl
    · split <;> rfl
  · unfold List.Get
    split <;> rfl
  · unfold List.Set
    split <;> rfl

/-- C27, evaluated where it fails: given a `nil` comparer,
`NewListWithEqualityComparer` and `NewConcurrentListWithComparer` return a
list whose comparer is `nil`, and `Contains` on that list panics. -/
theorem nil_comparer_is_stored :
    (NewListWithEqualityComparer (none : Option (EqualityComparer Nat)) [1, 2]).comparer = none
    ∧ (NewConcurrentListWithComparer (none : Option (EqualityComparer Nat)) [1, 2]).comparer
        = none
    ∧ ((NewListWithEqualityComparer (none : Option (EqualityComparer Nat)) [1, 2]).Contains 2).1
        = Outcome.panic := by
  refine ⟨rfl, rfl, ?_⟩
  decide

/-! ## Text forms of the containers -/

theorem intercalate_go_eq (forms : Slice String) (a acc : String) :
    String.intercalate.go (acc ++ a) " " forms = acc ++ spacedForms (a :: forms) := by
  induction forms generalizing a acc with
  | nil => simp [String.intercalate.go, spacedForms]
  | cons b rest ih =>
    have h := ih b (acc ++ a ++ " ")
    simp only [String.intercalate.go, spacedForms]
    rw [h]
    simp only [String.append_assoc]

theorem intercalate_space_eq (forms : Slice String) :
    " ".intercalate forms = spacedForms forms := by
  cases forms with
  | nil => rfl
  | cons a rest =>
    have h := intercalate_go_eq rest a ""
    simp only [String.empty_append] at h
    simpa [String.intercalate] using h

theorem SprintfV_eq {T : Type} (fmtV : T → String) (items : Slice T) :
    SprintfV fmtV items = "[" ++ spacedForms (items.map fmtV) ++ "]" := by
  simp only [SprintfV, intercalate_space_eq]

/-- C28. `String` of a list, a stack or a queue is an opening bracket, then
the elements' text forms in storage order separated by exactly one space,
then a closing bracket; an empty container renders as `[]`, and a stack
renders bottom-to-top from left to right: what was pushed last comes last. -/
theorem String_renders_bracketed {T : Type} (fmtV : T → String) (l : List T) (s : Stack T)
    (q : Queue T) (xs : Slice T) :
    (l.String fmtV).1 = "[" ++ spacedForms (l.items.map fmtV) ++ "]"
    ∧ (s.String fmtV).1 = "[" ++ spacedForms (s.items.map fmtV) ++ "]"
    ∧ (q.String fmtV).1 = "[" ++ spacedForms (q.items.map fmtV) ++ "]"
    ∧ (l.items = [] → (l.String fmtV).1 = "[]")
    ∧ (s.items = [] → (s.String fmtV).1 = "[]")
    ∧ (q.items = [] → (q.String fmtV).1 = "[]")
    ∧ ((s.pushAll xs).String fmtV).1
        = "[" ++ spacedForms (s.items.map fmtV ++ xs.map fmtV) ++ "]" := by
  have he : ("[" ++ spacedForms ([] : Slice String) ++ "]") = "[]" := by decide
  refine ⟨SprintfV_eq fmtV l.items, SprintfV_eq fmtV s.items, SprintfV_eq fmtV q.items,
    ?_, ?_, ?_, ?_⟩
  · intro h
    simp only [List.String, SprintfV_eq, h, List.map_nil, he]
  · intro h
    simp only [Stack.String, SprintfV_eq, h, List.map_nil, he]
  · intro h
    simp only [Queue.String, SprintfV_eq, h, List.map_nil, he]
  · simp only [Stack.String, SprintfV_eq, Stack.pushAll_items, List.map_append]

/-- Witness for C28: the empty stack of strings renders as `[]`, and the
stack, list and queue holding `1,2,3` render as `[1 2 3]`. -/
theorem String_renders_bracketed_witness :
    (NewList ([] : Slice String)).items = []
    ∧ (NewStack ([] : Slice String)).items = []
    ∧ (NewQueue ([] : Slice String)).items = []
    ∧ ((NewList ([] : Slice String)).String id).1 = "[]"
    ∧ ((NewStack ([] : Slice String)).String id).1 = "[]"
    ∧ ((NewQueue ([] : Slice String)).String id).1 = "[]"
    ∧ ((NewStack ["1", "2", "3"]).String id).1 = "[1 2 3]"
    ∧ ((NewList [1, 2, 3]).String (fun n : Int => toString n)).1 = "[1 2 3]"
    ∧ ((NewQueue ["A", "B", "C"]).String id).1 = "[A B C]" :=
  ⟨rfl, rfl, rfl,
    (String_renders_bracketed id (NewList []) (NewStack []) (NewQueue []) []).2.2.2.1 rfl,
    (String_renders_bracketed id (NewList []) (NewStack []) (NewQueue []) []).2.2.2.2.1 rfl,
    (String_renders_bracketed id (NewList []) (NewStack []) (NewQueue []) []).2.2.2.2.2.1 rfl,
    by decide, by decide, by decide⟩

/-! ## Error kinds and the default comparer -/

/-- C29. The three sentinel errors are pairwise distinct, as values and in
their texts, and every operation that can fail returns either `nil` or
exactly its documented kind: `ErrIndexOutOfRange` for the list's `Insert`,
`RemoveAt`, `Get`, `Set`, `CopyTo` and the queue's `CopyTo`, `ErrEmptyStack`
for the stack's `Pop` and `Peek`, `ErrEmptyQueue` for the queue's `Dequeue`
and `Peek`. -/
theorem error_kinds {T : Type} [Inhabited T] (l : List T) (s : Stack T) (q : Queue T)
    (i : Int) (v : T) (array : Slice T) (overlap : Option Int) :
    (Error.ErrIndexOutOfRange ≠ Error.ErrEmptyStack
      ∧ Error.ErrIndexOutOfRange ≠ Error.ErrEmptyQueue
      ∧ Error.ErrEmptyStack ≠ Error.ErrEmptyQueue
      ∧ Error.ErrIndexOutOfRange.text ≠ Error.ErrEmptyStack.text
      ∧ Error.ErrIndexOutOfRange.text ≠ Error.ErrEmptyQueue.text
      ∧ Error.ErrEmptyStack.text ≠ Error.ErrEmptyQueue.text)
    ∧ ((l.Insert i v).1 = none ∨ (l.Insert i v).1 = some Error.ErrIndexOutOfRange)
    ∧ ((l.RemoveAt i).1 = none ∨ (l.RemoveAt i).1 = some Error.ErrIndexOutOfRange)
    ∧ ((l.Get i).1.2 = none ∨ (l.Get i).1.2 = some Error.ErrIndexOutOfRange)
    ∧ ((l.Set i v).1 = none ∨ (l.Set i v).1 = some Error.ErrIndexOutOfRange)
    ∧ ((l.CopyTo array i overlap).1.1 = none
        ∨ (l.CopyTo array i overlap).1.1 = some Error.ErrIndexOutOfRange)
    ∧ ((q.CopyTo array i overlap).1.1 = none
        ∨ (q.CopyTo array i overlap).1.1 = some Error.ErrIndexOutOfRange)
    ∧ ((s.Pop).1.2 = none ∨ (s.Pop).1.2 = some Error.ErrEmptyStack)
    ∧ ((s.Peek).1.2 = none ∨ (s.Peek).1.2 = some Error.ErrEmptyStack)
    ∧ ((q.Dequeue).1.2 = none ∨ (q.Dequeue).1.2 = some Error.ErrEmptyQueue)
    ∧ ((q.Peek).1.2 = none ∨ (q.Peek).1.2 = some Error.ErrEmptyQueue) := by
  refine ⟨by decide, ?_, ?_, ?_, ?_, ?_, ?_, ?_, ?_, ?_, ?_⟩
  · unfold List.Insert
    split
    · exact Or.inr rfl
    · exact Or.inl rfl
  · unfold List.RemoveAt
    split
    · exact Or.inr rfl
    · exact Or.inl rfl
  · unfold List.Get
    split
    · exact Or.inr rfl
    · exact Or.inl rfl
  · unfold List.Set
    split
    · exact Or.inr rfl
    · exact Or.inl rfl
  · unfold List.CopyTo
    split
    · exact Or.inr rfl
    · split
      · exact Or.inr rfl
      · exact Or.inl rfl
  · unfold Queue.CopyTo
    split
    · exact Or.inr rfl
    · split
      · exact Or.inr rfl
      · exact Or.inl rfl
  · unfold Stack.Pop
    split
    · exact Or.inr rfl
    · exact Or.inl rfl
  · unfold Stack.Peek
    split
    · exact Or.inr rfl
    · exact Or.inl rfl
  · unfold Queue.Dequeue
    split
    · exact Or.inr rfl
    · exact Or.inl rfl
  · unfold Queue.Peek
    split
    · exact Or.inr rfl
    · exact Or.inl rfl

/-- Counterexample to C30 as stated: the struct type with a `float64` field
and an `int` field is comparable and is not a floating-point type; on its
value with `NaN` in the first field `DefaultEqualityComparer(a, a)` is false,
although `a` equals `a`. -/
theorem DefaultEqualityComparer_false_at_NaN_field :
    @DefaultEqualityComparer
        (Comparable.fields Comparable.float64 (Comparable.exact Int inferInstance)).Val
        ⟨Comparable.equal
          (Comparable.fields Comparable.float64 (Comparable.exact Int inferInstance))⟩
        ((Float64.NaN, 1) : Float64 × Int) ((Float64.NaN, 1) : Float64 × Int) = false := by
  decide

/-- C30, amended. For every comparable element type built from types on
which `==` is identity of values (booleans, integers, strings, pointers,
channels) and `float64` by structs and arrays, and all values `a`, `b`:
`DefaultEqualityComparer(a, b)` is the native `a == b`; it is true if and
only if `a` and `b` are the same value and hold no `NaN`; it is symmetric;
and it is reflexive at `a` exactly when `a` holds no `NaN`. For a type with
no floating-point component it is therefore true if and only if `a` equals
`b`, and reflexive. -/
theorem DefaultEqualityComparer_native (t : Comparable) (a b : t.Val) :
    @DefaultEqualityComparer t.Val ⟨t.equal⟩ a b = t.equal a b
    ∧ (@DefaultEqualityComparer t.Val ⟨t.equal⟩ a b = true ↔ (a = b ∧ t.hasNaN a = false))
    ∧ (@DefaultEqualityComparer t.Val ⟨t.equal⟩ a a = true ↔ t.hasNaN a = false)
    ∧ @DefaultEqualityComparer t.Val ⟨t.equal⟩ a b
        = @DefaultEqualityComparer t.Val ⟨t.equal⟩ b a
    ∧ (t.hasFloat = false →
        (@DefaultEqualityComparer t.Val ⟨t.equal⟩ a b = true ↔ a = b)
        ∧ @DefaultEqualityComparer t.Val ⟨t.equal⟩ a a = true) := by
  have hdef : ∀ x y : t.Val, @DefaultEqualityComparer t.Val ⟨t.equal⟩ x y = t.equal x y :=
    fun _ _ => rfl
  refine ⟨rfl, ?_, ?_, ?_, ?_⟩
  · rw [hdef, Comparable.equal_iff]
  · rw [hdef, Comparable.equal_iff]
    simp
  · rw [hdef, hdef, Comparable.equal_comm]
  · intro hf
    have hn := Comparable.hasNaN_of_no_float t hf
    rw [hdef, hdef, Comparable.equal_iff, Comparable.equal_iff]
    simp [hn]

/-- Witness for C30, amended: the struct type with an `int` field and a
`string` field has no floating-point component; on it
`DefaultEqualityComparer` is true exactly between equal values. -/
theorem DefaultEqualityComparer_native_witness :
    Comparable.hasFloat (Comparable.fields (Comparable.exact Int inferInstance)
        (Comparable.exact String inferInstance)) = false
    ∧ (@DefaultEqualityComparer (Int × String)
          ⟨Comparable.equal (Comparable.fields (Comparable.exact Int inferInstance)
            (Comparable.exact String inferInstance))⟩ (2, "a") (3, "a") = true
        ↔ ((2, "a") : Int × String) = (3, "a"))
    ∧ @DefaultEqualityComparer (Int × String)
          ⟨Comparable.equal (Comparable.fields (Comparable.exact Int inferInstance)
            (Comparable.exact String inferInstance))⟩ (2, "a") (2, "a") = true
    ∧ @DefaultEqualityComparer (Int × String)
          ⟨Comparable.equal (Comparable.fields (Comparable.exact Int inferInstance)
            (Comparable.exact String inferInstance))⟩ (2, "a") (3, "a") = false :=
  have h := (DefaultEqualityComparer_native
    (Comparable.fields (Comparable.exact Int inferInstance)
      (Comparable.exact String inferInstance)) ((2, "a") : Int × String)
      ((3, "a") : Int × String)).2.2.2.2 rfl
  have h2 := (DefaultEqualityComparer_native
    (Comparable.fields (Comparable.exact Int inferInstance)
      (Comparable.exact String inferInstance)) ((2, "a") : Int × String)
      ((2, "a") : Int × String)).2.2.2.2 rfl
  ⟨rfl, h.1, h2.2, by decide⟩

/-! ## Remove after IndexOf, and the pop loop -/

theorem List.indexOfLoop_range {T : Type} (c : Option (EqualityComparer T)) (x : T)
    (xs : Slice T) (k r : Int) (h : List.indexOfLoop c x xs k = Outcome.ok r) :
    r = -1 ∨ (k ≤ r ∧ r < k + (xs.length : Int)) := by
  induction xs generalizing k with
  | nil =>
    left
    simp only [List.indexOfLoop] at h
    exact (Outcome.ok.inj h).symm
  | cons v rest ih =>
    cases c with
    | none => simp [List.indexOfLoop] at h
    | some f =>
      by_cases hv : f v x = true
      · right
        simp only [List.indexOfLoop, hv, if_true] at h
        have hr : k = r := Outcome.ok.inj h
        simp only [List.length_cons]
        omega
      · have hv' : f v x = false := by simpa using hv
        simp only [List.indexOfLoop, hv'] at h
        rcases ih (k + 1) (by simpa using h) with h1 | h1
        · exact Or.inl h1
        · right
          simp only [List.length_cons]
          push_cast
          omega

/-- C34. In `List.Remove` the error branch after `RemoveAt` cannot be taken:
whenever `IndexOf(x)` returns an index `i` other than -1, `0 <= i < length`
holds, so `RemoveAt(i)` returns `nil` and `Remove(x)` returns true. -/
theorem List.Remove_error_branch_unreachable {T : Type} (l : List T) (x : T) (i : Int)
    (h : (l.IndexOf x).1 = Outcome.ok i) (hne : i ≠ -1) :
    0 ≤ i ∧ i < (l.items.length : Int)
    ∧ (l.RemoveAt i).1 = none
    ∧ (l.Remove x).1 = Outcome.ok true := by
  have hr := List.indexOfLoop_range l.comparer x l.items 0 i h
  have hb : 0 ≤ i ∧ i < (l.items.length : Int) := by omega
  have hI := List.IndexOf_eq l x _ h
  have hRA := List.RemoveAt_ok l i hb.1 hb.2
  refine ⟨hb.1, hb.2, by rw [hRA], ?_⟩
  simp only [List.Remove, hI, if_neg hne, hRA]

/-- Witness for C34: `IndexOf(2)` on `List(1,2,3,2)` is 1. -/
theorem List.Remove_error_branch_unreachable_witness :
    ((NewList [1, 2, 3, 2]).IndexOf 2).1 = Outcome.ok 1
    ∧ (1 : Int) ≠ -1
    ∧ ((NewList [1, 2, 3, 2]).RemoveAt 1).1 = none
    ∧ ((NewList [1, 2, 3, 2]).Remove 2).1 = Outcome.ok true := by
  have h := List.Remove_error_branch_unreachable (NewList [1, 2, 3, 2]) 2 1
    (by decide) (by decide)
  exact ⟨by decide, by decide, h.2.2.1, h.2.2.2⟩

theorem Stack.popWhileNotEmpty_snoc {T : Type} [Inhabited T] (fuel : Nat) (ys : Slice T)
    (x : T) :
    Stack.popWhileNotEmpty (fuel + 1) { items := ys ++ [x] }
      = match Stack.popWhileNotEmpty fuel { items := ys } with
        | none => none
        | some rest => some ((x, none) :: rest.1, rest.2) := by
  have he : (Stack.IsEmpty ({ items := ys ++ [x] } : Stack T)).1 = false := by
    simp [Stack.IsEmpty]
  simp only [Stack.popWhileNotEmpty, he, Stack.Pop_snoc]
  rfl

theorem Stack.popWhileNotEmpty_items {T : Type} [Inhabited T] (xs : Slice T) :
    ∀ fuel : Nat, xs.length < fuel →
      Stack.popWhileNotEmpty fuel { items := xs }
        = some (xs.reverse.map (fun x => (x, none)), { items := [] }) := by
  induction xs using List.reverseRecOn with
  | nil =>
    intro fuel hf
    cases fuel with
    | zero => omega
    | succ n => simp [Stack.popWhileNotEmpty, Stack.IsEmpty]
  | append_singleton ys x ih =>
    intro fuel hf
    cases fuel with
    | zero => omega
    | succ n =>
      have hn : ys.length < n := by
        simp only [List.length_append, List.length_singleton] at hf
        omega
      rw [Stack.popWhileNotEmpty_snoc, ih n hn]
      simp

/-- C35. For a stack with `n` elements, the loop that calls `Pop` while
`IsEmpty` is false ends once the condition has been evaluated `n + 1` times:
it makes exactly `n` pops, each with a `nil` error, the popped values are the
stack's items in reverse storage order, and the stack is left empty. -/
theorem Stack.pop_loop_terminates {T : Type} [Inhabited T] (s : Stack T) (fuel : Nat)
    (hf : s.items.length < fuel) :
    Stack.popWhileNotEmpty fuel s
      = some (s.items.reverse.map (fun x => (x, none)), { items := [] })
    ∧ (s.items.reverse.map (fun x => ((x, none) : T × Option Error))).length
        = s.items.length := by
  constructor
  · cases s with
    | mk xs => exact Stack.popWhileNotEmpty_items xs fuel hf
  · simp

/-- Witness for C35: `NewStack(1,2,3)` with 4, 5, 6 pushed yields
6, 5, 4, 3, 2, 1. -/
theorem Stack.pop_loop_terminates_witness :
    ((NewStack [1, 2, 3]).pushAll [4, 5, 6]).items.length < 7
    ∧ Stack.popWhileNotEmpty 7 ((NewStack [1, 2, 3]).pushAll [4, 5, 6])
      = some ([(6, none), (5, none), (4, none), (3, none), (2, none), (1, none)],
          { items := [] }) := by
  have h := Stack.pop_loop_terminates ((NewStack [1, 2, 3]).pushAll [4, 5, 6]) 7 (by decide)
  exact ⟨by decide, by rw [h.1]; decide⟩

/-! ## Insert round trips and failing CopyTo -/

/-- C38. For a list with items `xs` and an index `0 <= i <= len(xs)`:
`Insert(i, v)` followed by `Get(i)` returns `v` with a `nil` error;
`Insert(i, v)` followed by `RemoveAt(i)` returns `nil` and restores the list
to exactly what it was; and `Insert` at index `len(xs)` gives the same list
as `Add(v)`. -/
theorem List.Insert_round_trip {T : Type} [Inhabited T] (l : List T) (i : Int) (v : T)
    (h0 : 0 ≤ i) (h1 : i ≤ (l.items.length : Int)) :
    ((l.Insert i v).2.Get i).1 = (v, none)
    ∧ (l.Insert i v).2.RemoveAt i = (none, l)
    ∧ (i = (l.items.length : Int) → (l.Insert i v).2 = l.Add v) := by
  have hn : i.toNat ≤ l.items.length := by omega
  have hI := List.Insert_ok l i v h0 h1
  obtain ⟨p1, _, p3, _⟩ := List.insert_positions l.items i.toNat hn v
  have hlen : ((l.Insert i v).2.items.length : Int) = (l.items.length : Int) + 1 := by
    rw [hI]; simp only [p1]; push_cast; rfl
  refine ⟨?_, ?_, ?_⟩
  · have hlt : i.toNat < (l.Insert i v).2.items.length := by omega
    have hi : ((i.toNat : Nat) : Int) = i := by omega
    have hg := List.Get_nat (l.Insert i v).2 i.toNat hlt
    rw [hi] at hg
    rw [hg]
    have hv : (l.Insert i v).2.items[i.toNat]? = some v := by rw [hI]; exact p3
    have hv' := List.getElem?_eq_some_iff.mp hv
    obtain ⟨_, hv2⟩ := hv'
    simp only [List.get_eq_getElem, hv2]
  · rw [List.RemoveAt_ok (l.Insert i v).2 i h0 (by omega), hI]
    have hs : (i + 1).toNat = i.toNat + 1 := by omega
    have hl : (l.items.take i.toNat).length = i.toNat := by simp [hn]
    have e1 : (l.items.take i.toNat ++ ([v] ++ l.items.drop i.toNat)).take i.toNat
        = l.items.take i.toNat := by
      rw [List.take_append_of_le_length (by omega), List.take_of_length_le (by omega)]
    have e2 : (l.items.take i.toNat ++ ([v] ++ l.items.drop i.toNat)).drop (i.toNat + 1)
        = l.items.drop i.toNat := by
      rw [List.drop_append_eq_append_drop, hl]
      have : List.drop (i.toNat + 1) (List.take i.toNat l.items) = [] := by
        apply List.drop_of_length_le; omega
      rw [this]
      have h2 : i.toNat + 1 - i.toNat = 1 := by omega
      simp [h2]
    simp only [hs, e1, e2, List.take_append_drop]
  · intro hi
    have hn' : i.toNat = l.items.length := by omega
    rw [hI]
    simp [List.Add, hn']

/-- Witness for C38: `List(1,2,3).Insert(1,4)`, then `Get(1)` and
`RemoveAt(1)`. -/
theorem List.Insert_round_trip_witness :
    (0 : Int) ≤ 1 ∧ (1 : Int) ≤ (((NewList [1, 2, 3]).items.length : Nat) : Int)
    ∧ (((NewList [1, 2, 3]).Insert 1 4).2.Get 1).1 = (4, none)
    ∧ ((NewList [1, 2, 3]).Insert 1 4).2.RemoveAt 1 = (none, NewList [1, 2, 3]) := by
  have h := List.Insert_round_trip (NewList [1, 2, 3]) 1 4 (by decide) (by decide)
  exact ⟨by decide, by decide, h.1, h.2.1⟩

/-- C39. Whenever `List.CopyTo` or `Queue.CopyTo` fails with
`ErrIndexOutOfRange`, nothing has been copied: the destination and the
container are exactly what they were before the call, wherever the
destination lies. -/
theorem CopyTo_failure_copies_nothing {T : Type} (l : List T) (q : Queue T)
    (array : Slice T) (i : Int) (overlap : Option Int) :
    ((l.CopyTo array i overlap).1.1 = some Error.ErrIndexOutOfRange →
        (l.CopyTo array i overlap).1.2 = array ∧ (l.CopyTo array i overlap).2 = l)
    ∧ ((q.CopyTo array i overlap).1.1 = some Error.ErrIndexOutOfRange →
        (q.CopyTo array i overlap).1.2 = array ∧ (q.CopyTo array i overlap).2 = q) := by
  constructor
  · unfold List.CopyTo
    split
    · intro _
      exact ⟨rfl, rfl⟩
    · split
      · intro _
        exact ⟨rfl, rfl⟩
      · intro h
        cases h
  · unfold Queue.CopyTo
    split
    · intro _
      exact ⟨rfl, rfl⟩
    · split
      · intro _
        exact ⟨rfl, rfl⟩
      · intro h
        cases h

/-- Witness for C39: three items do not fit in a destination of length 2. -/
theorem CopyTo_failure_copies_nothing_witness :
    ((NewList [1, 2, 3]).CopyTo [7, 8] 0 none).1.1 = some Error.ErrIndexOutOfRange
    ∧ ((NewQueue [1, 2, 3]).CopyTo [7, 8] 0 none).1.1 = some Error.ErrIndexOutOfRange
    ∧ ((NewList [1, 2, 3]).CopyTo [7, 8] 0 none).1.2 = [7, 8]
    ∧ ((NewList [1, 2, 3]).CopyTo [7, 8] 0 none).2 = NewList [1, 2, 3]
    ∧ ((NewQueue [1, 2, 3]).CopyTo [7, 8] 0 none).1.2 = [7, 8]
    ∧ ((NewQueue [1, 2, 3]).CopyTo [7, 8] 0 none).2 = NewQueue [1, 2, 3] := by
  have h := CopyTo_failure_copies_nothing (NewList [1, 2, 3]) (NewQueue [1, 2, 3]) [7, 8] 0
    none
  exact ⟨by decide, by decide, (h.1 (by decide)).1, (h.1 (by decide)).2,
    (h.2 (by decide)).1, (h.2 (by decide)).2⟩

/-! ## First and last match together -/

theorem FirstMatch.first_unique {T : Type} {f : EqualityComparer T} {xs : Slice T} {x : T}
    {i j : Nat} (hi : FirstMatch f xs x i) (hj : FirstMatch f xs x j) : i = j := by
  obtain ⟨⟨ei, hei, hfi⟩, hbi⟩ := hi
  obtain ⟨⟨ej, hej, hfj⟩, hbj⟩ := hj
  rcases Nat.lt_trichotomy i j with h | h | h
  · have := hbj i ei h hei
    rw [hfi] at this
    cases this
  · exact h
  · have := hbi j ej h hej
    rw [hfj] at this
    cases this

theorem LastMatch.last_unique {T : Type} {f : EqualityComparer T} {xs : Slice T} {x : T}
    {i j : Nat} (hi : LastMatch f xs x i) (hj : LastMatch f xs x j) : i = j := by
  obtain ⟨⟨ei, hei, hfi⟩, hbi⟩ := hi
  obtain ⟨⟨ej, hej, hfj⟩, hbj⟩ := hj
  rcases Nat.lt_trichotomy i j with h | h | h
  · have := hbi j ej h hej
    rw [hfj] at this
    cases this
  · exact h
  · have := hbj i ei h hei
    rw [hfi] at this
    cases this

theorem LastMatch.last_lt_length {T : Type} {f : EqualityComparer T} {xs : Slice T} {x : T}
    {i : Nat} (h : LastMatch f xs x i) : i < xs.length := by
  obtain ⟨⟨e, he, _⟩, _⟩ := h
  exact (List.getElem?_eq_some_iff.mp he).1

/-- C37. For a list whose comparer is `f`: `IndexOf(x)` is -1 if and only if
`LastIndexOf(x)` is -1; otherwise `0 <= IndexOf(x) <= LastIndexOf(x) < length`,
and the two are equal exactly when a single position holds an element that
matches `x`. -/
theorem List.IndexOf_le_LastIndexOf {T : Type} (l : List T) (f : EqualityComparer T)
    (hc : l.comparer = some f) (x : T) :
    ∃ a b : Int, (l.IndexOf x).1 = Outcome.ok a ∧ (l.LastIndexOf x).1 = Outcome.ok b
      ∧ (a = -1 ↔ b = -1)
      ∧ (a ≠ -1 →
          0 ≤ a ∧ a ≤ b ∧ b < (l.items.length : Int)
          ∧ (a = b ↔ ∃! j : Nat, ∃ e, l.items[j]? = some e ∧ f e x = true)) := by
  rcases List.IndexOf_cases l f hc x with ⟨h1, h2⟩ | ⟨i, h1, h2⟩
  · rcases List.LastIndexOf_cases l f hc x with ⟨k1, _⟩ | ⟨j, _, ⟨e, he, hfe⟩, _⟩
    · exact ⟨-1, -1, h1, k1, Iff.rfl, fun h => absurd rfl h⟩
    · have := h2 e (List.getElem?_mem he)
      rw [hfe] at this
      cases this
  · rcases List.LastIndexOf_cases l f hc x with ⟨_, k2⟩ | ⟨j, k1, k2⟩
    · obtain ⟨e, he, hfe⟩ := h2.exists_mem
      have := k2 e he
      rw [hfe] at this
      cases this
    · have hj : j < l.items.length := k2.last_lt_length
      have hij : i ≤ j := by
        by_contra hlt
        obtain ⟨⟨e, he, hfe⟩, _⟩ := k2
        have := h2.2 j e (by omega) he
        rw [hfe] at this
        cases this
      refine ⟨(i : Int), (j : Int), h1, k1, ?_, ?_⟩
      · constructor <;> intro h <;> omega
      · intro _
        refine ⟨by omega, by omega, by omega, ?_⟩
        constructor
        · intro hab
          have hab' : i = j := by omega
          obtain ⟨⟨e, he, hfe⟩, hbefore⟩ := h2
          refine ⟨i, ⟨e, he, hfe⟩, ?_⟩
          rintro m ⟨e', he', hfe'⟩
          by_contra hne
          rcases Nat.lt_or_gt_of_ne hne with hlt | hgt
          · have := hbefore m e' hlt he'
            rw [hfe'] at this
            cases this
          · have := k2.2 m e' (by omega) he'
            rw [hfe'] at this
            cases this
        · rintro ⟨m, _, huniq⟩
          have e1 := huniq i h2.1
          have e2 := huniq j k2.1
          omega

/-- Witness for C37: on `List(1,2,3,2)`, `IndexOf(2)` is 1 and
`LastIndexOf(2)` is 3. -/
theorem List.IndexOf_le_LastIndexOf_witness :
    (NewList [1, 2, 3, 2]).comparer = some DefaultEqualityComparer
    ∧ ((NewList [1, 2, 3, 2]).IndexOf 2).1 = Outcome.ok 1
    ∧ ((NewList [1, 2, 3, 2]).LastIndexOf 2).1 = Outcome.ok 3
    ∧ ∃ a b : Int, ((NewList [1, 2, 3, 2]).IndexOf 2).1 = Outcome.ok a
        ∧ ((NewList [1, 2, 3, 2]).LastIndexOf 2).1 = Outcome.ok b
        ∧ (a = -1 ↔ b = -1) := by
  obtain ⟨a, b, h1, h2, h3, _⟩ :=
    List.IndexOf_le_LastIndexOf (NewList [1, 2, 3, 2]) DefaultEqualityComparer rfl 2
  exact ⟨rfl, by decide, by decide, a, b, h1, h2, h3⟩

/-! ## Searches after Add -/

theorem FirstMatch.append {T : Type} {f : EqualityComparer T} {xs : Slice T} {x : T}
    {i : Nat} (h : FirstMatch f xs x i) (ys : Slice T) : FirstMatch f (xs ++ ys) x i := by
  have hi : i < xs.length := h.lt_length
  obtain ⟨⟨e, he, hfe⟩, hb⟩ := h
  refine ⟨⟨e, ?_, hfe⟩, ?_⟩
  · rw [List.getElem?_append_left hi]
    exact he
  · intro j e' hj hje
    rw [List.getElem?_append_left (by omega)] at hje
    exact hb j e' hj hje

theorem FirstMatch.snoc_of_none {T : Type} {f : EqualityComparer T} {xs : Slice T} {x : T}
    (hnone : ∀ e ∈ xs, f e x = false) (hx : f x x = true) :
    FirstMatch f (xs ++ [x]) x xs.length := by
  refine ⟨⟨x, by simp, hx⟩, ?_⟩
  intro j e hj hje
  rw [List.getElem?_append_left hj] at hje
  exact hnone e (List.getElem?_mem hje)

theorem LastMatch.snoc {T : Type} {f : EqualityComparer T} (xs : Slice T) {x : T}
    (hx : f x x = true) : LastMatch f (xs ++ [x]) x xs.length := by
  refine ⟨⟨x, by simp, hx⟩, ?_⟩
  intro j e hj hje
  have := (List.getElem?_eq_some_iff.mp hje).1
  simp at this
  omega

theorem List.Contains_false {T : Type} (l : List T) (f : EqualityComparer T)
    (hc : l.comparer = some f) (x : T) (h : (l.Contains x).1 = Outcome.ok false) :
    ∀ e ∈ l.items, f e x = false := by
  rcases List.IndexOf_cases l f hc x with ⟨_, h2⟩ | ⟨i, h1, _⟩
  · exact h2
  · have hI := List.IndexOf_eq l x _ h1
    simp only [List.Contains, hI] at h
    have := Outcome.ok.inj h
    simp at this

theorem List.Contains_true {T : Type} (l : List T) (f : EqualityComparer T)
    (hc : l.comparer = some f) (x : T) (h : (l.Contains x).1 = Outcome.ok true) :
    ∃ i : Nat, (l.IndexOf x).1 = Outcome.ok (i : Int) ∧ FirstMatch f l.items x i := by
  rcases List.IndexOf_cases l f hc x with ⟨h1, _⟩ | ⟨i, h1, h2⟩
  · have hI := List.IndexOf_eq l x _ h1
    simp only [List.Contains, hI] at h
    have := Outcome.ok.inj h
    simp at this
  · exact ⟨i, h1, h2⟩

/-- C40. For a list of `n` items whose comparer `f` is reflexive, and every
item `x`: `Contains(x)` returns a boolean; if it returns false then after
`Add(x)` both `IndexOf(x)` and `LastIndexOf(x)` are `n`; if it returns true
then after `Add(x)` `IndexOf(x)` is the same index as before, which is less
than `n`, and `LastIndexOf(x)` is `n`. -/
theorem List.Add_moves_last_match {T : Type} (l : List T) (f : EqualityComparer T)
    (hc : l.comparer = some f) (hrefl : ∀ a : T, f a a = true) (x : T) :
    (∃ b : Bool, (l.Contains x).1 = Outcome.ok b)
    ∧ ((l.Contains x).1 = Outcome.ok false →
        ((l.Add x).IndexOf x).1 = Outcome.ok (l.items.length : Int)
        ∧ ((l.Add x).LastIndexOf x).1 = Outcome.ok (l.items.length : Int))
    ∧ ((l.Contains x).1 = Outcome.ok true →
        (∃ i : Nat, (l.IndexOf x).1 = Outcome.ok (i : Int) ∧ i < l.items.length
          ∧ ((l.Add x).IndexOf x).1 = Outcome.ok (i : Int))
        ∧ ((l.Add x).LastIndexOf x).1 = Outcome.ok (l.items.length : Int)) := by
  have hc' : (l.Add x).comparer = some f := hc
  have hitems : (l.Add x).items = l.items ++ [x] := rfl
  have hlast : ((l.Add x).LastIndexOf x).1 = Outcome.ok (l.items.length : Int) := by
    rcases List.LastIndexOf_cases (l.Add x) f hc' x with ⟨_, k2⟩ | ⟨j, k1, k2⟩
    · have := k2 x (by simp [hitems])
      rw [hrefl x] at this
      cases this
    · rw [hitems] at k2
      have := LastMatch.last_unique k2 (LastMatch.snoc l.items (hrefl x))
      rw [k1, this]
  have hfirst : ∀ i : Nat, FirstMatch f (l.Add x).items x i →
      ((l.Add x).IndexOf x).1 = Outcome.ok (i : Int) := by
    intro i hi
    rcases List.IndexOf_cases (l.Add x) f hc' x with ⟨_, k2⟩ | ⟨j, k1, k2⟩
    · have := k2 x (by simp [hitems])
      rw [hrefl x] at this
      cases this
    · rw [k1, FirstMatch.first_unique k2 hi]
  refine ⟨?_, ?_, ?_⟩
  · rcases List.IndexOf_cases l f hc x with ⟨h1, _⟩ | ⟨i, h1, _⟩
    · exact ⟨decide ((-1 : Int) ≠ -1), by simp only [List.Contains, List.IndexOf_eq l x _ h1]⟩
    · exact ⟨decide ((i : Int) ≠ -1), by simp only [List.Contains, List.IndexOf_eq l x _ h1]⟩
  · intro h
    have hnone := List.Contains_false l f hc x h
    refine ⟨hfirst _ ?_, hlast⟩
    rw [hitems]
    exact FirstMatch.snoc_of_none hnone (hrefl x)
  · intro h
    obtain ⟨i, h1, h2⟩ := List.Contains_true l f hc x h
    refine ⟨⟨i, h1, h2.lt_length, hfirst i ?_⟩, hlast⟩
    rw [hitems]
    exact h2.append [x]

/-- Witness for C40: `List(1,2,3)` contains 2 at index 1; after `Add(2)`
`IndexOf(2)` is still 1 and `LastIndexOf(2)` is 3. -/
theorem List.Add_moves_last_match_witness :
    (NewList [1, 2, 3]).comparer = some DefaultEqualityComparer
    ∧ (∀ a : Nat, DefaultEqualityComparer a a = true)
    ∧ ((NewList [1, 2, 3]).Contains 2).1 = Outcome.ok true
    ∧ (((NewList [1, 2, 3]).Add 2).IndexOf 2).1 = Outcome.ok 1
    ∧ (((NewList [1, 2, 3]).Add 2).LastIndexOf 2).1
        = Outcome.ok (((NewList [1, 2, 3]).items.length : Nat) : Int) :=
  ⟨rfl, fun a => by simp [DefaultEqualityComparer], by decide, by decide,
    ((List.Add_moves_last_match (NewList [1, 2, 3]) DefaultEqualityComparer rfl
      (fun a => by simp [DefaultEqualityComparer]) 2).2.2 (by decide)).2⟩

/-! ## The thread-safe variants used from one thread -/

theorem RWMutex.locked_zero {σ α : Type} (body : Call σ α) :
    RWMutex.zero.locked body
      = some { value := body.value, state := (body.state, RWMutex.zero),
               trace := [Event.lock] ++ body.trace ++ [Event.unlock] } := rfl

theorem RWMutex.rlocked_zero {σ α : Type} (body : Call σ α) :
    RWMutex.zero.rlocked body
      = some { value := body.value, state := (body.state, RWMutex.zero),
               trace := [Event.rlock] ++ body.trace ++ [Event.runlock] } := rfl

theorem ConcurrentList.IndexOf_free {T : Type} (l : ConcurrentList T)
    (hl : l.mutex = RWMutex.zero) (x : T) :
    l.IndexOf x = some { value := List.indexOfLoop l.comparer x l.items 0, state := l,
                         trace := [Event.rlock, Event.read, Event.runlock] } := by
  cases l with
  | mk items comparer mutex =>
    simp only at hl
    subst hl
    rfl

theorem ConcurrentList.RemoveAt_free {T : Type} (l : ConcurrentList T)
    (hl : l.mutex = RWMutex.zero) (i : Int) :
    ∃ c, l.RemoveAt i = some c ∧ Call.seen ConcurrentList.toList c = l.toList.RemoveAt i
      ∧ c.state.mutex = RWMutex.zero := by
  unfold ConcurrentList.RemoveAt List.RemoveAt
  simp only [hl, RWMutex.locked_zero, ConcurrentList.after, Call.seen, ConcurrentList.toList]
  split_ifs <;> first | (exfalso; omega) | simp [hl]

theorem ConcurrentList.Remove_free {T : Type} (l : ConcurrentList T)
    (hl : l.mutex = RWMutex.zero) (x : T) :
    ∃ c, l.Remove x = some c ∧ Call.seen ConcurrentList.toList c = l.toList.Remove x
      ∧ c.state.mutex = RWMutex.zero := by
  have hI : l.toList.IndexOf x = (List.indexOfLoop l.comparer x l.items 0, l.toList) := rfl
  simp only [ConcurrentList.Remove, List.Remove, ConcurrentList.IndexOf_free l hl, hI]
  cases hv : List.indexOfLoop l.comparer x l.items 0 with
  | panic => exact ⟨_, rfl, rfl, hl⟩
  | ok index =>
    simp only
    by_cases h1 : index = -1
    · simp only [h1, if_true]
      exact ⟨_, rfl, rfl, hl⟩
    · simp only [h1, if_false]
      obtain ⟨e, he1, he2, he3⟩ := ConcurrentList.RemoveAt_free l hl index
      simp only [he1]
      rw [← he2]
      cases hev : e.value with
      | none =>
        simp [Call.seen, hev, he3]
      | some err =>
        simp [Call.seen, hev, he3]

/-- C31. Used from one thread, with the mutex free when the call starts,
every operation of `ConcurrentList`, `ConcurrentStack` and `ConcurrentQueue`
returns, and it returns the same value and error and leaves the same items
and comparer as the operation of the same name of `List`, `Stack` and
`Queue` on the same items, arguments and comparer. -/
theorem concurrent_agrees_with_sequential {T : Type} [Inhabited T]
    (l : ConcurrentList T) (s : ConcurrentStack T) (q : ConcurrentQueue T)
    (hl : l.mutex = RWMutex.zero) (hs : s.lock = RWMutex.zero) (hq : q.mutex = RWMutex.zero)
    (x : T) (xs array : Slice T) (i : Int) (fmtV : T → String) (overlap : Option Int) :
    ((l.Add x).map (Call.seen ConcurrentList.toList) = some ((), l.toList.Add x)
      ∧ (l.AddRange xs).map (Call.seen ConcurrentList.toList) = some ((), l.toList.AddRange xs)
      ∧ (l.Insert i x).map (Call.seen ConcurrentList.toList) = some (l.toList.Insert i x)
      ∧ (l.Remove x).map (Call.seen ConcurrentList.toList) = some (l.toList.Remove x)
      ∧ (l.RemoveAt i).map (Call.seen ConcurrentList.toList) = some (l.toList.RemoveAt i)
      ∧ (l.Clear).map (Call.seen ConcurrentList.toList) = some ((), l.toList.Clear)
      ∧ (l.Contains x).map (Call.seen ConcurrentList.toList) = some (l.toList.Contains x)
      ∧ (l.IndexOf x).map (Call.seen ConcurrentList.toList) = some (l.toList.IndexOf x)
      ∧ (l.LastIndexOf x).map (Call.seen ConcurrentList.toList) = some (l.toList.LastIndexOf x)
      ∧ (l.CopyTo array i overlap).map (Call.seen ConcurrentList.toList)
          = some (l.toList.CopyTo array i overlap)
      ∧ (l.Get i).map (Call.seen ConcurrentList.toList) = some (l.toList.Get i)
      ∧ (l.Set i x).map (Call.seen ConcurrentList.toList) = some (l.toList.Set i x)
      ∧ (ConcurrentList.String fmtV l).map (Call.seen ConcurrentList.toList)
          = some (List.String fmtV l.toList))
    ∧ ((s.Push x).map (Call.seen ConcurrentStack.toStack) = some ((), s.toStack.Push x)
      ∧ (s.Pop).map (Call.seen ConcurrentStack.toStack) = some (s.toStack.Pop)
      ∧ (s.Peek).map (Call.seen ConcurrentStack.toStack) = some (s.toStack.Peek)
      ∧ (s.IsEmpty).map (Call.seen ConcurrentStack.toStack) = some (s.toStack.IsEmpty)
      ∧ (s.Size).map (Call.seen ConcurrentStack.toStack) = some (s.toStack.Size)
      ∧ (ConcurrentStack.String fmtV s).map (Call.seen ConcurrentStack.toStack)
          = some (Stack.String fmtV s.toStack))
    ∧ ((q.Enqueue x).map (Call.seen ConcurrentQueue.toQueue) = some ((), q.toQueue.Enqueue x)
      ∧ (q.Dequeue).map (Call.seen ConcurrentQueue.toQueue) = some (q.toQueue.Dequeue)
      ∧ (q.Peek).map (Call.seen ConcurrentQueue.toQueue) = some (q.toQueue.Peek)
      ∧ (q.IsEmpty).map (Call.seen ConcurrentQueue.toQueue) = some (q.toQueue.IsEmpty)
      ∧ (q.Size).map (Call.seen ConcurrentQueue.toQueue) = some (q.toQueue.Size)
      ∧ (ConcurrentQueue.String fmtV q).map (Call.seen ConcurrentQueue.toQueue)
          = some (Queue.String fmtV q.toQueue)
      ∧ (q.Clear).map (Call.seen ConcurrentQueue.toQueue) = some ((), q.toQueue.Clear)
      ∧ (q.CopyTo array i overlap).map (Call.seen ConcurrentQueue.toQueue)
          = some (q.toQueue.CopyTo array i overlap)) := by
  refine ⟨⟨?_, ?_, ?_, ?_, ?_, ?_, ?_, ?_, ?_, ?_, ?_, ?_, ?_⟩, ⟨?_, ?_, ?_, ?_, ?_, ?_⟩,
    ⟨?_, ?_, ?_, ?_, ?_, ?_, ?_, ?_⟩⟩
  · simp [ConcurrentList.Add, hl, RWMutex.locked_zero, ConcurrentList.after, Call.seen,
      ConcurrentList.toList, List.Add]
  · simp [ConcurrentList.AddRange, hl, RWMutex.locked_zero, ConcurrentList.after, Call.seen,
      ConcurrentList.toList, List.AddRange]
  · unfold ConcurrentList.Insert List.Insert
    simp only [hl, RWMutex.locked_zero, ConcurrentList.after, Call.seen, ConcurrentList.toList]
    split_ifs <;> first | rfl | (exfalso; omega)
  · obtain ⟨c, h1, h2, _⟩ := ConcurrentList.Remove_free l hl x
    rw [h1, ← h2]
    rfl
  · obtain ⟨c, h1, h2, _⟩ := ConcurrentList.RemoveAt_free l hl i
    rw [h1, ← h2]
    rfl
  · simp [ConcurrentList.Clear, hl, RWMutex.locked_zero, ConcurrentList.after, Call.seen,
      ConcurrentList.toList, List.Clear]
  · have hI : l.toList.IndexOf x = (List.indexOfLoop l.comparer x l.items 0, l.toList) := rfl
    simp only [ConcurrentList.Contains, List.Contains, ConcurrentList.IndexOf_free l hl, hI]
    cases List.indexOfLoop l.comparer x l.items 0 <;> rfl
  · rw [ConcurrentList.IndexOf_free l hl]
    rfl
  · simp [ConcurrentList.LastIndexOf, hl, RWMutex.rlocked_zero, ConcurrentList.after, Call.seen,
      ConcurrentList.toList, List.LastIndexOf]
  · unfold ConcurrentList.CopyTo List.CopyTo
    simp only [hl, RWMutex.rlocked_zero, ConcurrentList.after, Call.seen, ConcurrentList.toList]
    split_ifs <;> rfl
  · unfold ConcurrentList.Get List.Get
    simp only [hl, RWMutex.rlocked_zero, ConcurrentList.after, Call.seen, ConcurrentList.toList]
    split_ifs <;> first | rfl | (exfalso; omega)
  · unfold ConcurrentList.Set List.Set
    simp only [hl, RWMutex.locked_zero, ConcurrentList.after, Call.seen, ConcurrentList.toList]
    split_ifs <;> first | rfl | (exfalso; omega)
  · simp [ConcurrentList.String, hl, RWMutex.rlocked_zero, ConcurrentList.after, Call.seen,
      ConcurrentList.toList, List.String]
  · simp [ConcurrentStack.Push, hs, RWMutex.locked_zero, ConcurrentStack.after, Call.seen,
      ConcurrentStack.toStack, Stack.Push]
  · unfold ConcurrentStack.Pop Stack.Pop
    simp only [hs, RWMutex.locked_zero, ConcurrentStack.after, Call.seen,
      ConcurrentStack.toStack]
    split_ifs <;> rfl
  · unfold ConcurrentStack.Peek Stack.Peek
    simp only [hs, RWMutex.rlocked_zero, ConcurrentStack.after, Call.seen,
      ConcurrentStack.toStack]
    split_ifs <;> rfl
  · simp [ConcurrentStack.IsEmpty, hs, RWMutex.rlocked_zero, ConcurrentStack.after, Call.seen,
      ConcurrentStack.toStack, Stack.IsEmpty]
  · simp [ConcurrentStack.Size, hs, RWMutex.rlocked_zero, ConcurrentStack.after, Call.seen,
      ConcurrentStack.toStack, Stack.Size]
  · simp [ConcurrentStack.String, hs, RWMutex.rlocked_zero, ConcurrentStack.after, Call.seen,
      ConcurrentStack.toStack, Stack.String]
  · simp [ConcurrentQueue.Enqueue, hq, RWMutex.locked_zero, ConcurrentQueue.after, Call.seen,
      ConcurrentQueue.toQueue, Queue.Enqueue]
  · unfold ConcurrentQueue.Dequeue Queue.Dequeue
    simp only [hq, RWMutex.locked_zero, ConcurrentQueue.after, Call.seen,
      ConcurrentQueue.toQueue]
    split_ifs <;> rfl
  · unfold ConcurrentQueue.Peek Queue.Peek
    simp only [hq, RWMutex.rlocked_zero, ConcurrentQueue.after, Call.seen,
      ConcurrentQueue.toQueue]
    split_ifs <;> rfl
  · simp [ConcurrentQueue.IsEmpty, hq, RWMutex.rlocked_zero, ConcurrentQueue.after, Call.seen,
      ConcurrentQueue.toQueue, Queue.IsEmpty]
  · simp [ConcurrentQueue.Size, hq, RWMutex.rlocked_zero, ConcurrentQueue.after, Call.seen,
      ConcurrentQueue.toQueue, Queue.Size]
  · simp [ConcurrentQueue.String, hq, RWMutex.rlocked_zero, ConcurrentQueue.after, Call.seen,
      ConcurrentQueue.toQueue, Queue.String]
  · simp [ConcurrentQueue.Clear, hq, RWMutex.locked_zero, ConcurrentQueue.after, Call.seen,
      ConcurrentQueue.toQueue, Queue.Clear]
  · unfold ConcurrentQueue.CopyTo Queue.CopyTo
    simp only [hq, RWMutex.rlocked_zero, ConcurrentQueue.after, Call.seen,
      ConcurrentQueue.toQueue]
    split_ifs <;> rfl

/-- Witness for C31: on `ConcurrentList(1,2,3)`, `ConcurrentStack(1,2,3)` and
`ConcurrentQueue(1,2,3)`, fresh from their constructors, `Insert(1, 4)`,
`Pop()` and `Dequeue()` agree with `List`, `Stack` and `Queue`. -/
theorem concurrent_agrees_with_sequential_witness :
    (NewConcurrentList [1, 2, 3]).mutex = RWMutex.zero
    ∧ (NewConcurrentStack [1, 2, 3]).lock = RWMutex.zero
    ∧ (NewConcurrentQueue [1, 2, 3]).mutex = RWMutex.zero
    ∧ ((NewConcurrentList [1, 2, 3]).Insert 1 4).map (Call.seen ConcurrentList.toList)
        = some ((NewConcurrentList [1, 2, 3]).toList.Insert 1 4)
    ∧ ((NewConcurrentList [1, 2, 3]).Insert 1 4).map (fun c => (c.value, c.state.items))
        = some (none, [1, 4, 2, 3])
    ∧ ((NewConcurrentStack [1, 2, 3]).Pop).map (Call.seen ConcurrentStack.toStack)
        = some ((3, none), NewStack [1, 2])
    ∧ ((NewConcurrentQueue [1, 2, 3]).Dequeue).map (Call.seen ConcurrentQueue.toQueue)
        = some ((1, none), NewQueue [2, 3]) :=
  have h := concurrent_agrees_with_sequential (NewConcurrentList [1, 2, 3])
    (NewConcurrentStack [1, 2, 3]) (NewConcurrentQueue [1, 2, 3]) rfl rfl rfl 4 [5, 6]
    [0, 0, 0] 1 (fun n : Nat => toString n) none
  ⟨rfl, rfl, rfl, h.1.2.2.1, by decide, h.2.1.2.1, h.2.2.2.1⟩

/-- C36. Every operation of `ConcurrentList`, `ConcurrentStack` and
`ConcurrentQueue`, started with the mutex free, returns with the mutex free
again, whatever the arguments: also where it returns early with an error
(empty stack or queue, index out of range) and where a nil comparer
panics inside `IndexOf`. -/
theorem mutex_free_after_every_call {T : Type} [Inhabited T]
    (l : ConcurrentList T) (s : ConcurrentStack T) (q : ConcurrentQueue T)
    (hl : l.mutex = RWMutex.zero) (hs : s.lock = RWMutex.zero) (hq : q.mutex = RWMutex.zero)
    (x : T) (xs array : Slice T) (i : Int) (fmtV : T → String) (overlap : Option Int) :
    ((l.Add x).map (fun c => c.state.mutex) = some RWMutex.zero
      ∧ (l.AddRange xs).map (fun c => c.state.mutex) = some RWMutex.zero
      ∧ (l.Insert i x).map (fun c => c.state.mutex) = some RWMutex.zero
      ∧ (l.Remove x).map (fun c => c.state.mutex) = some RWMutex.zero
      ∧ (l.RemoveAt i).map (fun c => c.state.mutex) = some RWMutex.zero
      ∧ (l.Clear).map (fun c => c.state.mutex) = some RWMutex.zero
      ∧ (l.Contains x).map (fun c => c.state.mutex) = some RWMutex.zero
      ∧ (l.IndexOf x).map (fun c => c.state.mutex) = some RWMutex.zero
      ∧ (l.LastIndexOf x).map (fun c => c.state.mutex) = some RWMutex.zero
      ∧ (l.CopyTo array i overlap).map (fun c => c.state.mutex) = some RWMutex.zero
      ∧ (l.Get i).map (fun c => c.state.mutex) = some RWMutex.zero
      ∧ (l.Set i x).map (fun c => c.state.mutex) = some RWMutex.zero
      ∧ (ConcurrentList.String fmtV l).map (fun c => c.state.mutex) = some RWMutex.zero)
    ∧ ((s.Push x).map (fun c => c.state.lock) = some RWMutex.zero
      ∧ (s.Pop).map (fun c => c.state.lock) = some RWMutex.zero
      ∧ (s.Peek).map (fun c => c.state.lock) = some RWMutex.zero
      ∧ (s.IsEmpty).map (fun c => c.state.lock) = some RWMutex.zero
      ∧ (s.Size).map (fun c => c.state.lock) = some RWMutex.zero
      ∧ (ConcurrentStack.String fmtV s).map (fun c => c.state.lock) = some RWMutex.zero)
    ∧ ((q.Enqueue x).map (fun c => c.state.mutex) = some RWMutex.zero
      ∧ (q.Dequeue).map (fun c => c.state.mutex) = some RWMutex.zero
      ∧ (q.Peek).map (fun c => c.state.mutex) = some RWMutex.zero
      ∧ (q.IsEmpty).map (fun c => c.state.mutex) = some RWMutex.zero
      ∧ (q.Size).map (fun c => c.state.mutex) = some RWMutex.zero
      ∧ (ConcurrentQueue.String fmtV q).map (fun c => c.state.mutex) = some RWMutex.zero
      ∧ (q.Clear).map (fun c => c.state.mutex) = some RWMutex.zero
      ∧ (q.CopyTo array i overlap).map (fun c => c.state.mutex) = some RWMutex.zero) := by
  refine ⟨⟨?_, ?_, ?_, ?_, ?_, ?_, ?_, ?_, ?_, ?_, ?_, ?_, ?_⟩, ⟨?_, ?_, ?_, ?_, ?_, ?_⟩,
    ⟨?_, ?_, ?_, ?_, ?_, ?_, ?_, ?_⟩⟩
  · simp [ConcurrentList.Add, hl, RWMutex.locked_zero, ConcurrentList.after]
  · simp [ConcurrentList.AddRange, hl, RWMutex.locked_zero, ConcurrentList.after]
  · unfold ConcurrentList.Insert
    simp only [hl, RWMutex.locked_zero, ConcurrentList.after]
    split_ifs <;> simp [hl]
  · obtain ⟨c, h1, _, h3⟩ := ConcurrentList.Remove_free l hl x
    rw [h1, ← h3]
    rfl
  · obtain ⟨c, h1, _, h3⟩ := ConcurrentList.RemoveAt_free l hl i
    rw [h1, ← h3]
    rfl
  · simp [ConcurrentList.Clear, hl, RWMutex.locked_zero, ConcurrentList.after]
  · simp only [ConcurrentList.Contains, ConcurrentList.IndexOf_free l hl]
    cases List.indexOfLoop l.comparer x l.items 0 <;> simp [hl]
  · rw [ConcurrentList.IndexOf_free l hl]
    simp [hl]
  · simp [ConcurrentList.LastIndexOf, hl, RWMutex.rlocked_zero, ConcurrentList.after]
  · simp [ConcurrentList.CopyTo, hl, RWMutex.rlocked_zero, ConcurrentList.after]
  · unfold ConcurrentList.Get
    simp only [hl, RWMutex.rlocked_zero, ConcurrentList.after]
    split_ifs <;> simp [hl]
  · unfold ConcurrentList.Set
    simp only [hl, RWMutex.locked_zero, ConcurrentList.after]
    split_ifs <;> simp [hl]
  · simp [ConcurrentList.String, hl, RWMutex.rlocked_zero, ConcurrentList.after]
  · simp [ConcurrentStack.Push, hs, RWMutex.locked_zero, ConcurrentStack.after]
  · simp [ConcurrentStack.Pop, hs, RWMutex.locked_zero, ConcurrentStack.after]
  · simp [ConcurrentStack.Peek, hs, RWMutex.rlocked_zero, ConcurrentStack.after]
  · simp [ConcurrentStack.IsEmpty, hs, RWMutex.rlocked_zero, ConcurrentStack.after]
  · simp [ConcurrentStack.Size, hs, RWMutex.rlocked_zero, ConcurrentStack.after]
  · simp [ConcurrentStack.String, hs, RWMutex.rlocked_zero, ConcurrentStack.after]
  · simp [ConcurrentQueue.Enqueue, hq, RWMutex.locked_zero, ConcurrentQueue.after]
  · simp [ConcurrentQueue.Dequeue, hq, RWMutex.locked_zero, ConcurrentQueue.after]
  · simp [ConcurrentQueue.Peek, hq, RWMutex.rlocked_zero, ConcurrentQueue.after]
  · simp [ConcurrentQueue.IsEmpty, hq, RWMutex.rlocked_zero, ConcurrentQueue.after]
  · simp [ConcurrentQueue.Size, hq, RWMutex.rlocked_zero, ConcurrentQueue.after]
  · simp [ConcurrentQueue.String, hq, RWMutex.rlocked_zero, ConcurrentQueue.after]
  · simp [ConcurrentQueue.Clear, hq, RWMutex.locked_zero, ConcurrentQueue.after]
  · simp [ConcurrentQueue.CopyTo, hq, RWMutex.rlocked_zero, ConcurrentQueue.after]

/-- Witness for C36: `Pop` on an empty `ConcurrentStack`, `Dequeue` on an
empty `ConcurrentQueue` and `CopyTo` of `ConcurrentList(1,2,3)` into a
destination of two slots all return an error, and the mutex is free
afterwards. -/
theorem mutex_free_after_every_call_witness :
    (NewConcurrentList [1, 2, 3]).mutex = RWMutex.zero
    ∧ (NewConcurrentStack ([] : Slice Nat)).lock = RWMutex.zero
    ∧ (NewConcurrentQueue ([] : Slice Nat)).mutex = RWMutex.zero
    ∧ ((NewConcurrentStack ([] : Slice Nat)).Pop).map (fun c => c.value)
        = some (0, some Error.ErrEmptyStack)
    ∧ ((NewConcurrentStack ([] : Slice Nat)).Pop).map (fun c => c.state.lock)
        = some RWMutex.zero
    ∧ ((NewConcurrentQueue ([] : Slice Nat)).Dequeue).map (fun c => c.value)
        = some (0, some Error.ErrEmptyQueue)
    ∧ ((NewConcurrentQueue ([] : Slice Nat)).Dequeue).map (fun c => c.state.mutex)
        = some RWMutex.zero
    ∧ ((NewConcurrentList [1, 2, 3]).CopyTo [0, 0] 0 none).map (fun c => c.value.1)
        = some (some Error.ErrIndexOutOfRange)
    ∧ ((NewConcurrentList [1, 2, 3]).CopyTo [0, 0] 0 none).map (fun c => c.state.mutex)
        = some RWMutex.zero :=
  have h := mutex_free_after_every_call (NewConcurrentList [1, 2, 3])
    (NewConcurrentStack ([] : Slice Nat)) (NewConcurrentQueue ([] : Slice Nat)) rfl rfl rfl 4
    [5, 6] [0, 0] 0 (fun n : Nat => toString n) none
  ⟨rfl, rfl, rfl, by decide, h.2.1.2.1, by decide, h.2.2.2.1, by decide,
    h.1.2.2.2.2.2.2.2.2.2.1⟩

/-- C33, evaluated where it fails: on `ConcurrentList(1,2,3)`, `Insert(1, 4)`
reads the length of the items and only then takes the exclusive lock, so its
first access happens with no lock held; the same holds for `RemoveAt(1)`,
`Get(1)` and `Set(1, 4)`. `CopyTo` on the same list, and `Pop` and `Dequeue`
of the stack and the queue, take the lock first. -/
theorem bound_check_reads_before_lock :
    ((NewConcurrentList [1, 2, 3]).Insert 1 4).map Call.trace
        = some [Event.read, Event.lock, Event.write, Event.unlock]
    ∧ ((NewConcurrentList [1, 2, 3]).Insert 1 4).map (fun c => guarded c.trace) = some false
    ∧ ((NewConcurrentList [1, 2, 3]).RemoveAt 1).map Call.trace
        = some [Event.read, Event.lock, Event.write, Event.unlock]
    ∧ ((NewConcurrentList [1, 2, 3]).RemoveAt 1).map (fun c => guarded c.trace) = some false
    ∧ ((NewConcurrentList [1, 2, 3]).Get 1).map Call.trace
        = some [Event.read, Event.rlock, Event.read, Event.runlock]
    ∧ ((NewConcurrentList [1, 2, 3]).Get 1).map (fun c => guarded c.trace) = some false
    ∧ ((NewConcurrentList [1, 2, 3]).Set 1 4).map Call.trace
        = some [Event.read, Event.lock, Event.write, Event.unlock]
    ∧ ((NewConcurrentList [1, 2, 3]).Set 1 4).map (fun c => guarded c.trace) = some false
    ∧ ((NewConcurrentList [1, 2, 3]).CopyTo [0, 0, 0] 0 none).map Call.trace
        = some [Event.rlock, Event.read, Event.read, Event.runlock]
    ∧ ((NewConcurrentList [1, 2, 3]).CopyTo [0, 0, 0] 0 none).map (fun c => guarded c.trace)
        = some true
    ∧ ((NewConcurrentStack [1, 2, 3]).Pop).map (fun c => guarded c.trace) = some true
    ∧ ((NewConcurrentQueue [1, 2, 3]).Dequeue).map (fun c => guarded c.trace) = some true := by
  decide

end Collections
